import Mathlib

/-!
# Archive acquisition and extraction pipeline (gbp-flatpak-source-archive.c)

A shallow embedding of `src/plugins/flatpak/gbp-flatpak-source-archive.c`:
archive type detection, the SHA-256 checked download, the strip-components
directory flattener, the command runner, the extraction by archive type and
the fetch that ties them together, with the properties the specification
states about them.

Conventions of the embedding:

* a C string is a `String`; `NULL` is `none` where the code allows it;
* a `GFile` is an absolute path, the list of its segments from the root;
* the file system is explicit state (`FS`), threaded through every
  operation that touches it; an operation that can fail returns the state
  it leaves behind together with the `GError` it set, if any; where the
  code can return failure without an error or success with one
  (`download_uri`, `download_archive`, `fetch_archive`) the value returned
  and the error are kept apart;
* the GLib/GIO primitives the file calls (`g_str_has_suffix`,
  `g_file_move`, ...) are modelled from their documented behaviour on a
  local file system.
* what lies outside the process (the network, the spawned programs, the
  names `g_mkdtemp` draws) is a parameter (`Services`, `Host`); a function
  that waits for a process returns `none` when the wait never ends;
* the runs of `extract_archive` and `fetch_archive` carry the list of their
  `Event`s, so that what was asked of the machine, and in which order, can
  be stated.
-/

set_option autoImplicit false

namespace Archive

/-! ## Strings and paths -/

/-- GLib `g_ascii_tolower`: `g_ascii_isupper (c) ? c - 'A' + 'a' : c`. -/
def g_ascii_tolower (c : Char) : Char :=
  if 65 ≤ c.toNat ∧ c.toNat ≤ 90 then Char.ofNat (c.toNat - 65 + 97) else c

/-- GLib `g_ascii_strdown (str, -1)`: every character through `g_ascii_tolower`. -/
def g_ascii_strdown (str : String) : String :=
  ⟨str.data.map g_ascii_tolower⟩

/-- GLib `g_str_has_suffix`: false when `str` is shorter than `suffix`,
otherwise the last `strlen (suffix)` characters of `str` are compared. -/
def g_str_has_suffix (str suffix : String) : Bool :=
  if str.data.length < suffix.data.length then false
  else decide (str.data.drop (str.data.length - suffix.data.length) = suffix.data)

/-- A `GFile` for a local file: the segments of its absolute path. -/
abbrev GFile := List String

/-- GIO `g_file_get_basename`: the last segment of the path (`/` for the root). -/
def g_file_get_basename (file : GFile) : String :=
  match file.getLast? with
  | some name => name
  | none => "/"

/-- GIO `g_file_get_child`. -/
def g_file_get_child (file : GFile) (name : String) : GFile :=
  file ++ [name]

/-- GIO `g_file_get_path`: the segments joined by `/` behind a leading `/`. -/
def g_file_get_path (file : GFile) : String :=
  match file with
  | [] => "/"
  | _ => String.join (file.map fun seg => "/" ++ seg)

/-! ## Archive types -/

/-- The enumeration `ArchiveType`, in declaration order. -/
inductive ArchiveType where
  | UNKNOWN
  | RPM
  | TAR
  | TAR_GZIP
  | TAR_COMPRESS
  | TAR_BZIP2
  | TAR_LZIP
  | TAR_LZMA
  | TAR_LZOP
  | TAR_XZ
  | ZIP
  deriving DecidableEq, Repr

namespace ArchiveType

/-- The integer value the C compiler gives each enumerator. -/
def ord : ArchiveType → Nat
  | UNKNOWN => 0
  | RPM => 1
  | TAR => 2
  | TAR_GZIP => 3
  | TAR_COMPRESS => 4
  | TAR_BZIP2 => 5
  | TAR_LZIP => 6
  | TAR_LZMA => 7
  | TAR_LZOP => 8
  | TAR_XZ => 9
  | ZIP => 10

end ArchiveType

open ArchiveType

/-- Source `is_tar`: `(type >= TAR) && (type <= TAR_XZ)` on the enumerators' values. -/
def is_tar (type : ArchiveType) : Bool :=
  decide (type.ord ≥ TAR.ord) && decide (type.ord ≤ TAR_XZ.ord)

/-- The tar family as the specification words it: an explicit set of variants. -/
def is_tar_family (t : ArchiveType) : Bool :=
  match t with
  | TAR | TAR_GZIP | TAR_COMPRESS | TAR_BZIP2 | TAR_LZIP | TAR_LZMA | TAR_LZOP | TAR_XZ => true
  | _ => false

/-- Source `tar_decompress_flag`; `none` is the `NULL` return. -/
def tar_decompress_flag (type : ArchiveType) : Option String :=
  if type = TAR_GZIP then some "-z"
  else if type = TAR_COMPRESS then some "-Z"
  else if type = TAR_BZIP2 then some "-j"
  else if type = TAR_LZIP then some "--lzip"
  else if type = TAR_LZMA then some "--lzma"
  else if type = TAR_LZOP then some "--lzop"
  else if type = TAR_XZ then some "-J"
  else none

/-- Source `get_type`: the ordered suffix checks on the lower-cased base name. -/
def get_type (archivefile : GFile) : ArchiveType :=
  let base_name := g_file_get_basename archivefile
  let lower := g_ascii_strdown base_name
  if g_str_has_suffix lower ".tar" then TAR
  else if g_str_has_suffix lower ".tar.gz" ||
      g_str_has_suffix lower ".tgz" ||
      g_str_has_suffix lower ".taz" then TAR_GZIP
  else if g_str_has_suffix lower ".tar.Z" ||
      g_str_has_suffix lower ".taZ" then TAR_COMPRESS
  else if g_str_has_suffix lower ".tar.bz2" ||
      g_str_has_suffix lower ".tz2" ||
      g_str_has_suffix lower ".tbz2" ||
      g_str_has_suffix lower ".tbz" then TAR_BZIP2
  else if g_str_has_suffix lower ".tar.lz" then TAR_LZIP
  else if g_str_has_suffix lower ".tar.lzma" ||
      g_str_has_suffix lower ".tlz" then TAR_LZMA
  else if g_str_has_suffix lower ".tar.lzo" then TAR_LZOP
  else if g_str_has_suffix lower ".tar.xz" then TAR_XZ
  else if g_str_has_suffix lower ".zip" then ZIP
  else if g_str_has_suffix lower ".rpm" then RPM
  else UNKNOWN


/-! ## Errors -/

/-- The `GIOErrorEnum` codes that occur here. -/
inductive GIOErrorEnum where
  | FAILED
  | NOT_FOUND
  | EXISTS
  | IS_DIRECTORY
  | NOT_DIRECTORY
  | NOT_EMPTY
  | INVALID_FILENAME
  deriving DecidableEq, Repr

/-- A `GError` of the `G_IO_ERROR` domain: code and message. -/
structure GError where
  code : GIOErrorEnum
  message : String
  deriving DecidableEq, Repr

/-! ## The file system -/

/-- The content of a file, a `GBytes`. -/
abbrev GBytes := List UInt8

/-- What a path names: a directory, or a non-directory entry with its bytes. -/
inductive Node where
  | file (content : GBytes)
  | dir
  deriving DecidableEq, Repr

/-- The file system: one entry per existing path. The order of the entries
is the order in which a directory enumeration reports them. -/
abbrev FS := List (GFile × Node)

/-- The entry at `path`, if any. -/
def FS.lookup : FS → GFile → Option Node
  | [], _ => none
  | (q, node) :: rest, path => if q = path then some node else FS.lookup rest path

/-- A well-formed file system: no path is listed twice and every entry
below the root lies in a directory. -/
def FS.WF (fs : FS) : Prop :=
  (fs.map Prod.fst).Nodup ∧ ∀ e ∈ fs, e.1 ≠ [] → fs.lookup e.1.dropLast = some Node.dir

instance (fs : FS) : Decidable fs.WF := by
  unfold FS.WF
  infer_instance

/-- The result of an operation on the file system: the state it leaves and
the error it set (`none` when it returned success). -/
structure Outcome where
  fs : FS
  error : Option GError
  deriving DecidableEq, Repr

/-- The `GFileType` values, as far as the code tells types apart. -/
inductive GFileType where
  | REGULAR
  | DIRECTORY
  deriving DecidableEq, Repr

/-- A `GFileInfo` holding `standard::name` and `standard::type`. -/
structure GFileInfo where
  name : String
  file_type : GFileType
  deriving DecidableEq, Repr

def Node.file_type : Node → GFileType
  | Node.file _ => GFileType.REGULAR
  | Node.dir => GFileType.DIRECTORY

/-- The info of an entry when it is an immediate child of `dir`. -/
def child_info? (dir : GFile) (e : GFile × Node) : Option GFileInfo :=
  match e.1.getLast? with
  | some name => if e.1.dropLast = dir then some ⟨name, e.2.file_type⟩ else none
  | none => none

/-- The infos of the immediate children of `dir`, in enumeration order. -/
def FS.children (fs : FS) (dir : GFile) : List GFileInfo :=
  fs.filterMap (child_info? dir)

/-- A `GFileEnumerator`: the infos `g_file_enumerator_next_file` hands out
one by one, and the error it reports when it stops early. -/
structure GFileEnumerator where
  container : GFile
  infos : List GFileInfo
  temp_error : Option GError

/-- GIO `g_file_enumerate_children` on a local file: fails unless `file` is a
directory. The enumerator reads the directory as it is at this moment; on this
file system reading an entry never fails, so `temp_error` stays unset. -/
def g_file_enumerate_children (file : GFile) (fs : FS) : Except GError GFileEnumerator :=
  match fs.lookup file with
  | some Node.dir => Except.ok ⟨file, fs.children file, none⟩
  | some (Node.file _) => Except.error ⟨GIOErrorEnum.NOT_DIRECTORY, "Not a directory"⟩
  | none => Except.error ⟨GIOErrorEnum.NOT_FOUND, "No such file or directory"⟩

/-- GIO `g_file_enumerator_get_child`. -/
def g_file_enumerator_get_child (enumerator : GFileEnumerator) (info : GFileInfo) : GFile :=
  g_file_get_child enumerator.container info.name

/-- Where a path ends up when `source` is renamed to `destination`: paths at
or below `source` are re-rooted, all others stay. -/
def rename_path (source destination path : GFile) : GFile :=
  if source <+: path then destination ++ path.drop source.length else path

/-- The file system after `rename(2)` of `source` to `destination`. -/
def FS.rename (fs : FS) (source destination : GFile) : FS :=
  fs.map fun e => (rename_path source destination e.1, e.2)

/-- GIO `g_file_move` with `G_FILE_COPY_NONE` within one local file system,
which is `rename(2)` behind two checks: the source must exist and the
destination must not (`G_IO_ERROR_EXISTS`, no overwrite). The rename itself
fails when the destination's parent is not a directory or when a directory
would be moved into itself. A failed move changes nothing. -/
def g_file_move (source destination : GFile) (fs : FS) : Outcome :=
  match fs.lookup source with
  | none => ⟨fs, some ⟨GIOErrorEnum.NOT_FOUND, "Error moving file: No such file or directory"⟩⟩
  | some _ =>
    match fs.lookup destination with
    | some _ => ⟨fs, some ⟨GIOErrorEnum.EXISTS, "Target file exists"⟩⟩
    | none =>
      if fs.lookup destination.dropLast ≠ some Node.dir ∨ destination = [] then
        ⟨fs, some ⟨GIOErrorEnum.NOT_FOUND, "Error moving file: No such file or directory"⟩⟩
      else if source <+: destination then
        ⟨fs, some ⟨GIOErrorEnum.INVALID_FILENAME, "Invalid filename"⟩⟩
      else
        ⟨fs.rename source destination, none⟩

/-- The file system without the entry at `file`. -/
def FS.remove (fs : FS) (file : GFile) : FS :=
  fs.filter fun e => decide (e.1 ≠ file)

/-- GIO `g_file_delete` on a local file: removes a file or an empty directory. -/
def g_file_delete (file : GFile) (fs : FS) : Outcome :=
  match fs.lookup file with
  | none => ⟨fs, some ⟨GIOErrorEnum.NOT_FOUND, "Error removing file: No such file or directory"⟩⟩
  | some _ =>
    if fs.children file ≠ [] then
      ⟨fs, some ⟨GIOErrorEnum.NOT_EMPTY, "Error removing file: Directory not empty"⟩⟩
    else
      ⟨fs.remove file, none⟩

/-- GIO `g_file_replace_contents` without backup: the file gets exactly
`contents`, whether it existed or not. Fails, changing nothing, when the
path is a directory or its parent is not one. -/
def g_file_replace_contents (file : GFile) (contents : GBytes) (fs : FS) : Outcome :=
  match fs.lookup file with
  | some Node.dir => ⟨fs, some ⟨GIOErrorEnum.IS_DIRECTORY, "Error opening file: Is a directory"⟩⟩
  | some (Node.file _) =>
    ⟨fs.map fun e => if e.1 = file then (e.1, Node.file contents) else e, none⟩
  | none =>
    if fs.lookup file.dropLast ≠ some Node.dir ∨ file = [] then
      ⟨fs, some ⟨GIOErrorEnum.NOT_FOUND, "Error opening file: No such file or directory"⟩⟩
    else
      ⟨fs ++ [(file, Node.file contents)], none⟩

/-! ## The directory flattener -/

/-- The `while` loop of `strip_components_into` over the infos the
enumerator still has to hand out. `recurse` is the recursive call
`strip_components_into (dest, child, level - 1, error)`. -/
def strip_components_loop (recurse : GFile → FS → Outcome) (dest : GFile)
    (dir_enum : GFileEnumerator) (level : Nat) : List GFileInfo → FS → Outcome
  | [], fs => ⟨fs, none⟩
  | child_info :: rest, fs =>
    let child := g_file_enumerator_get_child dir_enum child_info
    if child_info.file_type = GFileType.DIRECTORY ∧ level > 0 then
      match recurse child fs with
      | ⟨fs1, some e⟩ => ⟨fs1, some e⟩
      | ⟨fs1, none⟩ => strip_components_loop recurse dest dir_enum level rest fs1
    else
      let dest_child := g_file_get_child dest child_info.name
      match g_file_move child dest_child fs with
      | ⟨fs1, some e⟩ => ⟨fs1, some e⟩
      | ⟨fs1, none⟩ => strip_components_loop recurse dest dir_enum level rest fs1

/-- The body of `strip_components_into`, the recursive call left open. -/
def strip_components_body (recurse : GFile → FS → Outcome) (dest src : GFile)
    (level : Nat) (fs : FS) : Outcome :=
  match g_file_enumerate_children src fs with
  | Except.error e => ⟨fs, some e⟩
  | Except.ok dir_enum =>
    match strip_components_loop recurse dest dir_enum level dir_enum.infos fs with
    | ⟨fs1, some e⟩ => ⟨fs1, some e⟩
    | ⟨fs1, none⟩ =>
      match dir_enum.temp_error with
      | some e => ⟨fs1, some e⟩
      | none => g_file_delete src fs1

/-- Source `strip_components_into` for a level that is not negative. The
recursive call is made with `level - 1` and only under `level > 0`, so the
recursion is on the level. -/
def strip_components_nat (dest : GFile) : Nat → GFile → FS → Outcome
  | 0, src, fs => strip_components_body (fun _ fs1 => ⟨fs1, none⟩) dest src 0 fs
  | level + 1, src, fs =>
    strip_components_body (strip_components_nat dest level) dest src (level + 1) fs

/-- Source `strip_components_into`. `level` is a C `int`; the code only tests
`level > 0` and computes `level - 1` under that test, so every level that is
not positive behaves as 0. -/
def strip_components_into (dest src : GFile) (level : Int) (fs : FS) : Outcome :=
  strip_components_nat dest level.toNat src fs
/-! ## The download -/

/-- A parsed `SoupURI`. -/
structure SoupURI where
  scheme : String
  host : String
  path : String
  deriving DecidableEq, Repr

/-- What lies outside this file: the answer of the network to a request
(`soup_session_request_uri` and `soup_request_send`: a failure of either is
the error, otherwise the bytes the input stream delivers), the failure of
the copy of these bytes into memory, if it fails (the bytes are then those
that arrived before the failure), and GLib's
`g_compute_checksum_for_bytes (G_CHECKSUM_SHA256, ...)`, the lower-case
hexadecimal digest. -/
structure Services where
  http_get : SoupURI → Except GError GBytes
  splice_error : SoupURI → Option GError
  sha256_hex : GBytes → String

/-- GLib `g_strcmp0`: `strcmp` that takes `NULL`, which sorts first. -/
def g_strcmp0 : Option String → Option String → Int
  | none, none => 0
  | none, some _ => -1
  | some _, none => 1
  | some a, some b => if a = b then 0 else if a.data < b.data then -1 else 1

/-- How `%s` prints a string argument; `NULL` is printed as `(null)`. -/
def printf_s : Option String → String
  | some s => s
  | none => "(null)"

/-- GLib `g_set_error` and `g_propagate_error` on a `GError **` that may be
set already: the error that is there stays, GLib warns and drops the new
one. -/
def g_propagate_error (dest src : Option GError) : Option GError :=
  match dest with
  | some e => some e
  | none => src

/-- GIO `g_output_stream_splice` of the response into the memory stream: the
number of bytes copied, or `-1` with the error when the copy failed. -/
def g_output_stream_splice (w : Services) (uri : SoupURI) (body : GBytes) :
    Int × Option GError :=
  match w.splice_error uri with
  | some e => (-1, some e)
  | none => ((body.length : Int), none)

/-- A `GBytes *` that a call returns (`none` for `NULL`) together with the
`GError` the call left in `*error`. -/
structure Downloaded where
  content : Option GBytes
  error : Option GError
  deriving DecidableEq, Repr

/-- Source `download_uri`. The test `!g_output_stream_splice (...)` is a
test of the returned byte count: the `return NULL` is taken for a count of
0, where no error is set, and not for the `-1` of a failed copy, after
which the bytes that arrived are returned with the error left set. -/
def download_uri (w : Services) (uri : SoupURI) : Downloaded :=
  match w.http_get uri with
  | Except.error e => ⟨none, some e⟩
  | Except.ok body =>
    let spliced := g_output_stream_splice w uri body
    if spliced.1 = 0 then ⟨none, spliced.2⟩
    else ⟨some body, spliced.2⟩

/-- The result of a function that returns a `gboolean` and takes a
`GError **`: the file system it leaves, the value it returns and the error
in `*error` afterwards. GLib's convention is that the two agree;
`download_archive` can break it in both directions. -/
structure Status where
  fs : FS
  ok : Bool
  error : Option GError
  deriving DecidableEq, Repr

/-- Source `download_archive`. -/
def download_archive (w : Services) (uri : SoupURI) (sha : Option String)
    (archive_file : GFile) (fs : FS) : Status :=
  let d := download_uri w uri
  match d.content with
  | none => ⟨fs, false, d.error⟩
  | some content =>
    let sha256 := w.sha256_hex content
    if g_strcmp0 (some sha256) sha ≠ 0 then
      let path := g_file_get_path archive_file
      ⟨fs, false, g_propagate_error d.error (some ⟨GIOErrorEnum.FAILED,
        "Wrong sha256 for " ++ path ++ ", expected " ++ printf_s sha ++ ", was " ++ sha256⟩)⟩
    else
      let written := g_file_replace_contents archive_file content fs
      ⟨written.fs, written.error.isNone, g_propagate_error d.error written.error⟩

/-! ## Auxiliary notions for the properties -/

/-- One turn of the loop of `strip_components_into` on the child `info`:
the recursive call for a directory while `level > 0`, the move otherwise. -/
def strip_components_step (recurse : GFile → FS → Outcome) (dest : GFile)
    (dir_enum : GFileEnumerator) (level : Nat) (info : GFileInfo) (fs : FS) : Outcome :=
  if info.file_type = GFileType.DIRECTORY ∧ level > 0 then
    recurse (g_file_enumerator_get_child dir_enum info) fs
  else
    g_file_move (g_file_enumerator_get_child dir_enum info) (g_file_get_child dest info.name) fs

/-- The recursive call a call with `level` makes: none at level 0 (the
loop never asks for it there), the call with `level - 1` otherwise. -/
def strip_components_recurse (dest : GFile) : Nat → GFile → FS → Outcome
  | 0 => fun _ fs1 => ⟨fs1, none⟩
  | level + 1 => strip_components_nat dest level

/-- The entries a call `strip_components_into (dest, src, level)` moves, read
off its loop: `src/ds/name` is moved under the name `name` when the
directories `ds` are entered by recursive calls, which takes `level > 0` at
each of them, and the entry itself is not entered: it is not a directory, or
the level is used up. -/
def MovedBy (fs : FS) : Nat → GFile → List String → String → Prop
  | level, src, [], name =>
    ∃ node, fs.lookup (src ++ [name]) = some node ∧ (node = Node.dir → level = 0)
  | level, src, d :: ds, name =>
    level > 0 ∧ fs.lookup (src ++ [d]) = some Node.dir
      ∧ MovedBy fs (level - 1) (src ++ [d]) ds name

/-- The file system the download examples start from: an empty module
directory `/srv/mod`. -/
def fs_module : FS := [([], Node.dir), (["srv"], Node.dir), (["srv", "mod"], Node.dir)]

/-- Services for the examples: every request is answered with the bytes
`1 2 3`, which are copied without a failure, and the digest function is a
stand-in that maps them to `abc`. -/
def services_ok : Services :=
  ⟨fun _ => Except.ok [1, 2, 3], fun _ => none,
    fun content => if content = [1, 2, 3] then "abc" else "000"⟩

/-- Services that answer every request with a body of 0 bytes, copied
without a failure; the digest function is a stand-in that knows the SHA-256
of the empty input. -/
def services_empty : Services :=
  ⟨fun _ => Except.ok [], fun _ => none,
    fun content =>
      if content = [] then "e3b0c44298fc1c149afbf4c8996fb92427ae41e4649b934ca495991b7852b855"
      else "000"⟩

/-- Services that deliver the bytes `1 2 3` and then fail the copy with a
read error, as when the connection is reset behind the last byte; the digest
function is that of `services_ok`. -/
def services_broken : Services :=
  ⟨fun _ => Except.ok [1, 2, 3],
    fun _ => some ⟨GIOErrorEnum.FAILED, "Error receiving data: Connection reset by peer"⟩,
    fun content => if content = [1, 2, 3] then "abc" else "000"⟩

/-- The tree of the flattening example: an empty `/dest` next to
`/src/{a.txt, sub/{b.txt}}`, the two files holding `ca` and `cb`. -/
def fs_example (ca cb : GBytes) : FS :=
  [([], Node.dir), (["dest"], Node.dir), (["src"], Node.dir),
    (["src", "a.txt"], Node.file ca), (["src", "sub"], Node.dir),
    (["src", "sub", "b.txt"], Node.file cb)]

/-- A destination that already holds `a.txt`, next to a source with an
`a.txt` of its own. -/
def fs_taken : FS :=
  [([], Node.dir), (["dest"], Node.dir), (["dest", "a.txt"], Node.file [1]),
    (["src"], Node.dir), (["src", "a.txt"], Node.file [2])]

/-- An empty destination next to a source whose directories `x` and `y`
both hold a file `f`. -/
def fs_twins : FS :=
  [([], Node.dir), (["dest"], Node.dir), (["src"], Node.dir),
    (["src", "x"], Node.dir), (["src", "x", "f"], Node.file [1]),
    (["src", "y"], Node.dir), (["src", "y", "f"], Node.file [2])]

/-- The child of `src` through which the entry `src/ds/name` is reached. -/
def first_segment (ds : List String) (name : String) : String :=
  match ds with
  | [] => name
  | d :: _ => d

/-! ## Running an external command -/

/-- What the pipeline does besides changing files, in the order it does it:
the processes it asks for, the temporary directory it asks for, and the
calls of `download_archive`, `extract_archive` and `strip_components_into`
it makes. -/
inductive Event where
  | spawn (cwd : Option GFile) (argv : List String)
  | mkdtemp (template : GFile)
  | strip (dest src : GFile) (level : Int)
  | download (uri : SoupURI) (archive_file : GFile)
  | extract (destination archive_file : GFile) (strip_components : Int)
  deriving DecidableEq, Repr

/-- A spawned process as its parent sees it: the file system once it has
exited, what `g_subprocess_wait_check_finish` reports (an error for a
non-zero exit status), the bytes the splice copied from its stdout, what
`g_output_stream_splice_finish` reports, and which of the two completions
is dispatched first. -/
structure Child where
  fs : FS
  wait_error : Option GError
  stdout : GBytes
  splice_error : Option GError
  splice_first : Bool

/-- One draw of `g_mkdtemp` for the six `X` of its template. -/
structure TmpDraw where
  c1 : Char
  c2 : Char
  c3 : Char
  c4 : Char
  c5 : Char
  c6 : Char
  deriving DecidableEq, Repr

def TmpDraw.toString (d : TmpDraw) : String :=
  ⟨[d.c1, d.c2, d.c3, d.c4, d.c5, d.c6]⟩

/-- The machine the pipeline runs on: what `g_subprocess_launcher_spawnv`
does with a working directory, an argument vector and the stdout flag (an
error when the program cannot be started), the names `g_mkdtemp` draws, and
`soup_uri_new` for the URLs handed in (the code does not check its result,
so only URLs that parse are in the model). -/
structure Host where
  spawn : Option GFile → List String → Bool → FS → Except GError Child
  tmp_draws : List TmpDraw
  soup_uri_new : String → SoupURI

/-- A `GMainLoop`, reduced to the number of `g_main_loop_quit` calls it got;
it runs until the first. -/
structure GMainLoop where
  quits : Nat
  deriving DecidableEq, Repr

/-- Source `SpawnData`. -/
structure SpawnData where
  error : Option GError
  splice_error : Option GError
  loop : GMainLoop
  refs : Int
  deriving DecidableEq, Repr

/-- GLib `g_main_loop_quit`. -/
def g_main_loop_quit (loop : GMainLoop) : GMainLoop :=
  ⟨loop.quits + 1⟩

/-- Source `spawn_data_exit`. -/
def spawn_data_exit (data : SpawnData) : SpawnData :=
  let data1 := { data with refs := data.refs - 1 }
  if data1.refs = 0 then { data1 with loop := g_main_loop_quit data1.loop } else data1

/-- Source `spawn_output_spliced_cb`; `result` is what
`g_output_stream_splice_finish` stores in `data->splice_error`. -/
def spawn_output_spliced_cb (result : Option GError) (data : SpawnData) : SpawnData :=
  spawn_data_exit { data with splice_error := result }

/-- Source `spawn_exit_cb`; `result` is what `g_subprocess_wait_check_finish`
stores in `data->error`. -/
def spawn_exit_cb (result : Option GError) (data : SpawnData) : SpawnData :=
  spawn_data_exit { data with error := result }

/-- A completion the main loop has to dispatch, with the result its
callback will read. -/
inductive Completion where
  | exited (result : Option GError)
  | spliced (result : Option GError)
  deriving DecidableEq, Repr

/-- The callback a completion was registered with. -/
def Completion.dispatch : Completion → SpawnData → SpawnData
  | Completion.exited result, data => spawn_exit_cb result data
  | Completion.spliced result, data => spawn_output_spliced_cb result data

/-- GLib `g_main_loop_run`: dispatches the completions as they arrive and
returns as soon as the loop has been quit; `none` when nothing is left to
dispatch and nobody has quit the loop, where the caller stays blocked. -/
def g_main_loop_run : List Completion → SpawnData → Option SpawnData
  | [], data => if data.loop.quits > 0 then some data else none
  | c :: rest, data =>
    if data.loop.quits > 0 then some data else g_main_loop_run rest (c.dispatch data)

/-- The calls `archive_spawnv` makes on the launcher, the child and the
main loop: `g_subprocess_launcher_spawnv`, `g_output_stream_splice_async`
and `g_subprocess_wait_async`, each of which registers a completion
callback, and `g_main_loop_run`. -/
inductive SpawnCall where
  | launcher_spawnv
  | splice_async
  | wait_async
  | main_loop_run
  deriving DecidableEq, Repr

/-- What `archive_spawnv` hands back: the file system, the error (`none`
for `TRUE`), `*output` when it was set, the processes asked for, and the
calls it made, in their order. -/
structure SpawnResult where
  fs : FS
  error : Option GError
  output : Option GBytes
  log : List Event
  calls : List SpawnCall
  deriving DecidableEq, Repr

/-- The calls `archive_spawnv` makes for a child that was started: the
splice is registered only when stdout is captured. -/
def archive_spawnv_calls (capture : Bool) : List SpawnCall :=
  if capture then
    [SpawnCall.launcher_spawnv, SpawnCall.splice_async, SpawnCall.wait_async,
      SpawnCall.main_loop_run]
  else
    [SpawnCall.launcher_spawnv, SpawnCall.wait_async, SpawnCall.main_loop_run]

/-- The completions `archive_spawnv` registers for a child, in the order
they are dispatched: the splice only when stdout is captured. -/
def Child.completions (c : Child) (capture : Bool) : List Completion :=
  if capture then
    if c.splice_first then
      [Completion.spliced c.splice_error, Completion.exited c.wait_error]
    else
      [Completion.exited c.wait_error, Completion.spliced c.splice_error]
  else
    [Completion.exited c.wait_error]

/-- Source `archive_spawnv`. `capture` says whether `output` is not `NULL`;
the result is `none` when `g_main_loop_run` never returns. -/
def archive_spawnv (h : Host) (dir : Option GFile) (capture : Bool) (argv : List String)
    (fs : FS) : Option SpawnResult :=
  match h.spawn dir argv capture fs with
  | Except.error e =>
    some ⟨fs, some e, none, [Event.spawn dir argv], [SpawnCall.launcher_spawnv]⟩
  | Except.ok subp =>
    let data : SpawnData := ⟨none, none, ⟨0⟩, 1⟩
    let data := if capture then { data with refs := data.refs + 1 } else data
    let out : Option GBytes := if capture then some subp.stdout else none
    let calls := archive_spawnv_calls capture
    match g_main_loop_run (subp.completions capture) data with
    | none => none
    | some data =>
      match data.error with
      | some e => some ⟨subp.fs, some e, none, [Event.spawn dir argv], calls⟩
      | none =>
        match out with
        | some bytes =>
          match data.splice_error with
          | some e => some ⟨subp.fs, some e, none, [Event.spawn dir argv], calls⟩
          | none => some ⟨subp.fs, none, some (bytes ++ [0]), [Event.spawn dir argv], calls⟩
        | none => some ⟨subp.fs, none, none, [Event.spawn dir argv], calls⟩

/-- Source `archive_spawn`: `argv0` followed by the variable arguments up
to the first `NULL`. -/
def archive_spawn (h : Host) (dir : Option GFile) (capture : Bool) (argv0 : String)
    (ap : List (Option String)) (fs : FS) : Option SpawnResult :=
  archive_spawnv h dir capture (argv0 :: (ap.takeWhile Option.isSome).filterMap id) fs

/-- Source `tar`. -/
def tar (h : Host) (dir : GFile) (ap : List (Option String)) (fs : FS) : Option SpawnResult :=
  archive_spawn h (some dir) false "tar" ap fs

/-- Source `unzip`. -/
def unzip (h : Host) (dir : GFile) (ap : List (Option String)) (fs : FS) :
    Option SpawnResult :=
  archive_spawn h (some dir) false "unzip" ap fs

/-- Source `unrpm`. -/
def unrpm (h : Host) (dir : GFile) (rpm_path : String) (fs : FS) : Option SpawnResult :=
  archive_spawnv h (some dir) false
    ["sh", "-c", "rpm2cpio \"$1\" | cpio -i -d", "sh", rpm_path] fs

/-! ## Extraction -/

/-- The `errno` values that occur here. -/
inductive Errno where
  | ENOENT
  | EEXIST
  | ENOTDIR
  | EINVAL
  deriving DecidableEq, Repr

/-- GLib `g_strerror`. -/
def g_strerror : Errno → String
  | Errno.ENOENT => "No such file or directory"
  | Errno.EEXIST => "File exists"
  | Errno.ENOTDIR => "Not a directory"
  | Errno.EINVAL => "Invalid argument"

/-- The system call `mkdir`: the parent must be a directory and the path
must be free. -/
def mkdir (path : GFile) (fs : FS) : Except Errno FS :=
  match fs.lookup path.dropLast with
  | none => Except.error Errno.ENOENT
  | some (Node.file _) => Except.error Errno.ENOTDIR
  | some Node.dir =>
    if path = [] ∨ fs.lookup path ≠ none then Except.error Errno.EEXIST
    else Except.ok (fs ++ [(path, Node.dir)])

/-- The loop of `g_mkdtemp` over the names it draws: the first name that is
free is created; a name that exists leads to the next draw, any other
failure ends the loop. -/
def g_mkdtemp_try (parent : GFile) (stem : String) : List TmpDraw → FS →
    Except Errno (GFile × FS)
  | [], _ => Except.error Errno.EEXIST
  | d :: rest, fs =>
    match mkdir (parent ++ [stem ++ d.toString]) fs with
    | Except.ok fs1 => Except.ok (parent ++ [stem ++ d.toString], fs1)
    | Except.error Errno.EEXIST => g_mkdtemp_try parent stem rest fs
    | Except.error e => Except.error e

/-- GLib `g_mkdtemp`: the template must end in `XXXXXX`, which is replaced
by a draw; at most 100 draws are tried. -/
def g_mkdtemp (draws : List TmpDraw) (tmpl : GFile) (fs : FS) : Except Errno (GFile × FS) :=
  if g_str_has_suffix (g_file_get_basename tmpl) "XXXXXX" ∧ tmpl ≠ [] then
    g_mkdtemp_try tmpl.dropLast
      ⟨(g_file_get_basename tmpl).data.take ((g_file_get_basename tmpl).data.length - 6)⟩
      (draws.take 100) fs
  else Except.error Errno.EINVAL

/-- What `create_uncompress_directory` hands back: the directory or the
error, the file system and the events. -/
structure Staging where
  fs : FS
  dir : Except GError GFile
  log : List Event

/-- Source `create_uncompress_directory`. -/
def create_uncompress_directory (h : Host) (dest : GFile) (strip_components : Int)
    (fs : FS) : Staging :=
  if strip_components > 0 then
    let tmp_dir_template := g_file_get_child dest ".uncompressXXXXXX"
    match g_mkdtemp h.tmp_draws tmp_dir_template fs with
    | Except.error saved_errno =>
      ⟨fs, Except.error ⟨GIOErrorEnum.FAILED,
        "Can't create uncompress directory: " ++ g_strerror saved_errno⟩,
        [Event.mkdtemp tmp_dir_template]⟩
    | Except.ok (tmp_dir_path, fs1) =>
      ⟨fs1, Except.ok tmp_dir_path, [Event.mkdtemp tmp_dir_template]⟩
  else
    ⟨fs, Except.ok dest, []⟩

/-- How `%u` prints an `int`: its value modulo `2^32`, in decimal. -/
def printf_u (n : Int) : String :=
  toString (n % 4294967296).toNat

/-- The outcome of a part of the pipeline together with its events. -/
structure Run where
  fs : FS
  error : Option GError
  log : List Event
  deriving DecidableEq, Repr

/-- Source `extract_archive`; `none` when an external command never comes
back. -/
def extract_archive (h : Host) (destination archive_file : GFile) (strip_components : Int)
    (fs : FS) : Option Run :=
  let archive_path := g_file_get_path archive_file
  let type := get_type archive_file
  if is_tar type then
    let strip_components_str := "--strip-components=" ++ printf_u strip_components
    match tar h destination [some "xf", some archive_path, some "--no-same-owner",
        some strip_components_str, tar_decompress_flag type, none] fs with
    | none => none
    | some r => some ⟨r.fs, r.error, r.log⟩
  else if type = ZIP then
    match create_uncompress_directory h destination strip_components fs with
    | ⟨fs1, Except.error e, log1⟩ => some ⟨fs1, some e, log1⟩
    | ⟨fs1, Except.ok zip_dest, log1⟩ =>
      match unzip h zip_dest [some archive_path, none] fs1 with
      | none => none
      | some r =>
        match r.error with
        | some e => some ⟨r.fs, some e, log1 ++ r.log⟩
        | none =>
          if strip_components > 0 then
            let s := strip_components_into destination zip_dest strip_components r.fs
            some ⟨s.fs, s.error,
              log1 ++ r.log ++ [Event.strip destination zip_dest strip_components]⟩
          else some ⟨r.fs, none, log1 ++ r.log⟩
  else if type = RPM then
    match create_uncompress_directory h destination strip_components fs with
    | ⟨fs1, Except.error e, log1⟩ => some ⟨fs1, some e, log1⟩
    | ⟨fs1, Except.ok rpm_dest, log1⟩ =>
      match unrpm h rpm_dest archive_path fs1 with
      | none => none
      | some r =>
        match r.error with
        | some e => some ⟨r.fs, some e, log1 ++ r.log⟩
        | none =>
          if strip_components > 0 then
            let s := strip_components_into destination rpm_dest strip_components r.fs
            some ⟨s.fs, s.error,
              log1 ++ r.log ++ [Event.strip destination rpm_dest strip_components]⟩
          else some ⟨r.fs, none, log1 ++ r.log⟩
  else
    some ⟨fs, some ⟨GIOErrorEnum.FAILED,
      "Unknown archive format of '" ++ archive_path ++ "'"⟩, []⟩

/-! ## The fetch -/

/-- The directories `g_file_make_directory_with_parents` has to create for
`file`: the prefixes of the path that do not exist, top down. -/
def missing_directories (fs : FS) (file : GFile) : List GFile :=
  file.inits.filter fun p => decide (fs.lookup p = none)

/-- GIO `g_file_make_directory_with_parents`: `G_IO_ERROR_EXISTS` when the
path exists, whatever it is; an error when a parent is not a directory;
otherwise the path is created with the parents that are missing. -/
def g_file_make_directory_with_parents (file : GFile) (fs : FS) : Outcome :=
  match fs.lookup file with
  | some _ => ⟨fs, some ⟨GIOErrorEnum.EXISTS, "Error creating directory: File exists"⟩⟩
  | none =>
    if file.inits.any fun p => (fs.lookup p).any fun node => decide (node ≠ Node.dir) then
      ⟨fs, some ⟨GIOErrorEnum.NOT_DIRECTORY, "Error creating directory: Not a directory"⟩⟩
    else
      ⟨fs ++ (missing_directories fs file).map fun p => (p, Node.dir), none⟩

/-- GLib `g_path_get_basename`: `.` for the empty string, `/` for a string
of slashes, otherwise what stands between the last slash and the trailing
slashes. -/
def g_path_get_basename (file_name : String) : String :=
  if file_name.data = [] then "."
  else
    let trimmed := file_name.data.reverse.dropWhile fun c => decide (c = '/')
    if trimmed = [] then "/"
    else ⟨(trimmed.takeWhile fun c => decide (c ≠ '/')).reverse⟩

/-- libsoup `soup_uri_get_path`. -/
def soup_uri_get_path (uri : SoupURI) : String :=
  uri.path

/-- What `fetch_archive` hands back: the file system, the directory it
returns (`none` for `NULL`), the error in `*error` afterwards, and the
events. -/
structure Fetch where
  fs : FS
  result : Option GFile
  error : Option GError
  log : List Event

/-- GLib `g_error_matches` within the `G_IO_ERROR` domain. -/
def g_error_matches (error : GError) (code : GIOErrorEnum) : Bool :=
  decide (error.code = code)

/-- Source `fetch_archive`; `none` when an external command never comes
back. The archive name taken from the URL is used as one path segment. The
caller hands in an empty `*error`; an error that `download_archive` leaves
there although it returns `TRUE` stays in front of a later one. -/
def fetch_archive (w : Services) (h : Host) (url : String) (sha : Option String)
    (module_name : String) (destination : GFile) (fs : FS) : Option Fetch :=
  let source_dir := g_file_get_child destination module_name
  let made := g_file_make_directory_with_parents source_dir fs
  let uri := h.soup_uri_new url
  let archive_name := g_path_get_basename (soup_uri_get_path uri)
  let archive_file := g_file_get_child source_dir archive_name
  let fetched : Option Fetch :=
    let d := download_archive w uri sha archive_file made.fs
    if d.ok = false then some ⟨d.fs, none, d.error, [Event.download uri archive_file]⟩
    else
      match extract_archive h source_dir archive_file 1 d.fs with
      | none => none
      | some x =>
        match x.error with
        | some e => some ⟨x.fs, none, g_propagate_error d.error (some e),
            [Event.download uri archive_file, Event.extract source_dir archive_file 1] ++ x.log⟩
        | none => some ⟨x.fs, some source_dir, d.error,
            [Event.download uri archive_file, Event.extract source_dir archive_file 1] ++ x.log⟩
  match made.error with
  | some local_error =>
    if ¬ g_error_matches local_error GIOErrorEnum.EXISTS then
      some ⟨made.fs, none, some local_error, []⟩
    else fetched
  | none => fetched

/-! ## Examples for the command runner and the extraction -/

/-- A child whose exit and whose splice both report an error. -/
def child_both_errors : Child :=
  ⟨fs_module, some ⟨GIOErrorEnum.FAILED, "Child process exited with code 1"⟩, [104, 105],
    some ⟨GIOErrorEnum.FAILED, "Error splicing file: Input/output error"⟩, true⟩

/-- A host on which every process ends like `child_both_errors`. -/
def host_both_errors : Host :=
  ⟨fun _ _ _ _ => Except.ok child_both_errors, [], fun _ => ⟨"https", "example.org", "/"⟩⟩

/-- A host on which every extraction tool unpacks the tree
`pkg-1.0/{configure, src/{main.c}}` into its working directory, the
temporary directory gets the name `.uncompressAB12CD`, and every URL is
`https://example.org/dist/pkg-1.0.zip`. -/
def host_unpack : Host :=
  ⟨fun dir _ _ fs =>
      match dir with
      | some cwd =>
        Except.ok ⟨fs ++ [(cwd ++ ["pkg-1.0"], Node.dir),
          (cwd ++ ["pkg-1.0", "configure"], Node.file [35]),
          (cwd ++ ["pkg-1.0", "src"], Node.dir),
          (cwd ++ ["pkg-1.0", "src", "main.c"], Node.file [105])], none, [], none, false⟩
      | none => Except.error ⟨GIOErrorEnum.FAILED, "no working directory"⟩,
    [⟨'A', 'B', '1', '2', 'C', 'D'⟩],
    fun _ => ⟨"https", "example.org", "/dist/pkg-1.0.zip"⟩⟩

/-- The module directory with a downloaded zip archive in it. -/
def fs_zip : FS :=
  fs_module ++ [(["srv", "mod", "pkg-1.0.zip"], Node.file [80, 75])]

/-- The module directory of `fs_zip` after `unzip` ran in the staging
directory `.uncompressAB12CD`. -/
def fs_unzipped : FS :=
  fs_zip ++ [(["srv", "mod", ".uncompressAB12CD"], Node.dir),
    (["srv", "mod", ".uncompressAB12CD", "pkg-1.0"], Node.dir),
    (["srv", "mod", ".uncompressAB12CD", "pkg-1.0", "configure"], Node.file [35]),
    (["srv", "mod", ".uncompressAB12CD", "pkg-1.0", "src"], Node.dir),
    (["srv", "mod", ".uncompressAB12CD", "pkg-1.0", "src", "main.c"], Node.file [105])]

/-- The module directory with a downloaded rpm archive in it. -/
def fs_rpm : FS :=
  fs_module ++ [(["srv", "mod", "pkg-1.0.rpm"], Node.file [237, 171, 238, 219])]

/-- The module directory of `fs_rpm` after the rpm command ran in the
staging directory `.uncompressAB12CD`. -/
def fs_unrpmed : FS :=
  fs_rpm ++ [(["srv", "mod", ".uncompressAB12CD"], Node.dir),
    (["srv", "mod", ".uncompressAB12CD", "pkg-1.0"], Node.dir),
    (["srv", "mod", ".uncompressAB12CD", "pkg-1.0", "configure"], Node.file [35]),
    (["srv", "mod", ".uncompressAB12CD", "pkg-1.0", "src"], Node.dir),
    (["srv", "mod", ".uncompressAB12CD", "pkg-1.0", "src", "main.c"], Node.file [105])]

/-- The module directory after `services_ok` delivered the archive
`pkg-1.0.zip` into it and `unzip` ran in the staging directory
`.uncompressAB12CD`. -/
def fs_fetched_unzipped : FS :=
  fs_module ++ [(["srv", "mod", "pkg-1.0.zip"], Node.file [1, 2, 3]),
    (["srv", "mod", ".uncompressAB12CD"], Node.dir),
    (["srv", "mod", ".uncompressAB12CD", "pkg-1.0"], Node.dir),
    (["srv", "mod", ".uncompressAB12CD", "pkg-1.0", "configure"], Node.file [35]),
    (["srv", "mod", ".uncompressAB12CD", "pkg-1.0", "src"], Node.dir),
    (["srv", "mod", ".uncompressAB12CD", "pkg-1.0", "src", "main.c"], Node.file [105])]

/-! ## Auxiliary notions for the command runner -/

/-- The `SpawnData` of `archive_spawnv` at its call of `g_main_loop_run`:
zeroed, `refs` set to 1 and incremented when the output is captured. -/
def archive_spawnv_data (capture : Bool) : SpawnData :=
  let data : SpawnData := ⟨none, none, ⟨0⟩, 1⟩
  if capture then { data with refs := data.refs + 1 } else data

/-- The states the `SpawnData` goes through during `g_main_loop_run`: one
after each completion the loop dispatches. -/
def g_main_loop_states : List Completion → SpawnData → List SpawnData
  | [], _ => []
  | c :: rest, data =>
    if data.loop.quits > 0 then []
    else c.dispatch data :: g_main_loop_states rest (c.dispatch data)

/-- A destination that already holds `b.txt`, next to a source that holds
`a.txt` and `b.txt`, enumerated in this order. -/
def fs_late_clash : FS :=
  [([], Node.dir), (["dest"], Node.dir), (["dest", "b.txt"], Node.file [9]),
    (["src"], Node.dir), (["src", "a.txt"], Node.file [1]), (["src", "b.txt"], Node.file [2])]

/-! ## Auxiliary notions for the type detection -/

/-- The suffix checks of `get_type` in the order of the source: the suffixes
each `if` tests and the type it returns. -/
def suffix_checks : List (List String × ArchiveType) :=
  [([".tar"], TAR),
    ([".tar.gz", ".tgz", ".taz"], TAR_GZIP),
    ([".tar.Z", ".taZ"], TAR_COMPRESS),
    ([".tar.bz2", ".tz2", ".tbz2", ".tbz"], TAR_BZIP2),
    ([".tar.lz"], TAR_LZIP),
    ([".tar.lzma", ".tlz"], TAR_LZMA),
    ([".tar.lzo"], TAR_LZOP),
    ([".tar.xz"], TAR_XZ),
    ([".zip"], ZIP),
    ([".rpm"], RPM)]

/-- Whether a check matches a name: the name ends with one of its suffixes. -/
def check_matches (lower : String) (check : List String × ArchiveType) : Bool :=
  check.1.any fun suffix => g_str_has_suffix lower suffix

/-- The type detection with the checks performed in a given order: the type
of the first check that matches, `UNKNOWN` when none does. -/
def get_type_by (checks : List (List String × ArchiveType)) (lower : String) : ArchiveType :=
  match checks.find? (check_matches lower) with
  | some check => check.2
  | none => UNKNOWN

/-! ## Auxiliary notions for the recursion of the flattener -/

/-- Source `strip_components_into` with a budget for the nesting of its
recursive calls: the call with `level - 1` is made while the budget lasts,
and a recursive call that would nest deeper than `budget` is answered by
`overrun` instead. -/
def strip_components_within (overrun : GFile → FS → Outcome) (dest : GFile) :
    Nat → GFile → Int → FS → Outcome
  | 0, src, level, fs => strip_components_body overrun dest src level.toNat fs
  | budget + 1, src, level, fs =>
    strip_components_body
      (fun child fs1 => strip_components_within overrun dest budget child (level - 1) fs1)
      dest src level.toNat fs

/-- The number of non-directory entries in the trees of `dest` and `src`
taken together. -/
def count_files (dest src : GFile) (fs : FS) : Nat :=
  (fs.filter fun e =>
    decide (e.2 ≠ Node.dir) && (decide (dest <+: e.1) || decide (src <+: e.1))).length

/-! ## Auxiliary notions for the extraction -/

/-- A host on which every extraction tool unpacks the tree
`pkg-1.0/{configure, pkg-1.0.zip}` into its working directory: the wrapper
directory holds an entry with the name of the archive itself. The temporary
directory gets the name `.uncompressAB12CD`, and every URL is
`https://example.org/dist/pkg-1.0.zip`. -/
def host_clash : Host :=
  ⟨fun dir _ _ fs =>
      match dir with
      | some cwd =>
        Except.ok ⟨fs ++ [(cwd ++ ["pkg-1.0"], Node.dir),
          (cwd ++ ["pkg-1.0", "configure"], Node.file [35]),
          (cwd ++ ["pkg-1.0", "pkg-1.0.zip"], Node.file [80, 75])], none, [], none, false⟩
      | none => Except.error ⟨GIOErrorEnum.FAILED, "no working directory"⟩,
    [⟨'A', 'B', '1', '2', 'C', 'D'⟩],
    fun _ => ⟨"https", "example.org", "/dist/pkg-1.0.zip"⟩⟩

/-! # Properties -/

/-! ## Suffix checks -/

theorem g_str_has_suffix_iff (str suffix : String) :
    g_str_has_suffix str suffix = true ↔ suffix.data <:+ str.data := by
  unfold g_str_has_suffix
  split
  · rename_i h
    constructor
    · intro h'; cases h'
    · intro h'; have := h'.length_le; omega
  · rw [List.suffix_iff_eq_drop, decide_eq_true_eq]
    exact eq_comm

/-- When `s` is a suffix of `str` and `s` is a proper suffix of no `t`,
whether `t` is a suffix of `str` is decided by comparing `t` with `s`. -/
theorem g_str_has_suffix_of_suffix {str s : String} (t : String)
    (h : g_str_has_suffix str s = true) (hn : s.data <:+ t.data → s.data = t.data) :
    g_str_has_suffix str t = decide (t.data <:+ s.data) := by
  rw [g_str_has_suffix_iff] at h
  by_cases ht : t.data <:+ s.data
  · rw [decide_eq_true ht, g_str_has_suffix_iff]
    exact ht.trans h
  · rw [decide_eq_false ht]
    cases hb : g_str_has_suffix str t
    · rfl
    · rw [g_str_has_suffix_iff] at hb
      rcases List.suffix_or_suffix_of_suffix h hb with h1 | h1
      · exact absurd (by rw [hn h1]) ht
      · exact absurd h1 ht

theorem g_ascii_tolower_ne_Z (c : Char) : g_ascii_tolower c ≠ 'Z' := by
  unfold g_ascii_tolower
  split
  · rename_i h
    obtain ⟨h1, h2⟩ := h
    generalize c.toNat = n at h1 h2
    interval_cases n <;> decide
  · rename_i h
    intro hc
    subst hc
    exact h (by decide)

theorem g_ascii_strdown_no_Z (str suffix : String) (hZ : 'Z' ∈ suffix.data) :
    g_str_has_suffix (g_ascii_strdown str) suffix = false := by
  cases hb : g_str_has_suffix (g_ascii_strdown str) suffix
  · rfl
  · rw [g_str_has_suffix_iff] at hb
    have := hb.subset hZ
    simp only [g_ascii_strdown, List.mem_map] at this
    obtain ⟨c, _, hc⟩ := this
    exact absurd hc (g_ascii_tolower_ne_Z c)

/-- C1: whenever the lower-cased base name ends with a documented suffix,
`get_type` returns the type documented for that suffix, whatever the letter
case of the original name. -/
theorem get_type_recognized (archivefile : GFile) (s : String) (t : ArchiveType)
    (hmem : (s, t) ∈ [(".tar", TAR), (".tar.gz", TAR_GZIP), (".tgz", TAR_GZIP),
      (".taz", TAR_GZIP), (".tar.bz2", TAR_BZIP2), (".tz2", TAR_BZIP2),
      (".tbz2", TAR_BZIP2), (".tbz", TAR_BZIP2), (".tar.lz", TAR_LZIP),
      (".tar.lzma", TAR_LZMA), (".tlz", TAR_LZMA), (".tar.lzo", TAR_LZOP),
      (".tar.xz", TAR_XZ), (".zip", ZIP), (".rpm", RPM)])
    (h : g_str_has_suffix (g_ascii_strdown (g_file_get_basename archivefile)) s = true) :
    get_type archivefile = t := by
  have key : ∀ p ∈ [(".tar", TAR), (".tar.gz", TAR_GZIP), (".tgz", TAR_GZIP),
      (".taz", TAR_GZIP), (".tar.bz2", TAR_BZIP2), (".tz2", TAR_BZIP2),
      (".tbz2", TAR_BZIP2), (".tbz", TAR_BZIP2), (".tar.lz", TAR_LZIP),
      (".tar.lzma", TAR_LZMA), (".tlz", TAR_LZMA), (".tar.lzo", TAR_LZOP),
      (".tar.xz", TAR_XZ), (".zip", ZIP), (".rpm", RPM)],
      g_str_has_suffix (g_ascii_strdown (g_file_get_basename archivefile)) p.1 = true →
      get_type archivefile = p.2 := by
    intro p hp hs
    have e := fun u => g_str_has_suffix_of_suffix u hs
    unfold get_type
    fin_cases hp
    all_goals
      simp only [e ".tar" (by decide), e ".tar.gz" (by decide), e ".tgz" (by decide),
        e ".taz" (by decide), e ".tar.Z" (by decide), e ".taZ" (by decide),
        e ".tar.bz2" (by decide), e ".tz2" (by decide), e ".tbz2" (by decide),
        e ".tbz" (by decide), e ".tar.lz" (by decide), e ".tar.lzma" (by decide),
        e ".tlz" (by decide), e ".tar.lzo" (by decide), e ".tar.xz" (by decide),
        e ".zip" (by decide), e ".rpm" (by decide)]
      decide
  exact key (s, t) hmem h

theorem get_type_recognized_witness :
    g_str_has_suffix (g_ascii_strdown (g_file_get_basename ["srv", "Pkg-1.0.TAR.GZ"])) ".tar.gz" = true
      ∧ get_type ["srv", "Pkg-1.0.TAR.GZ"] = TAR_GZIP :=
  ⟨by decide, get_type_recognized ["srv", "Pkg-1.0.TAR.GZ"] ".tar.gz" TAR_GZIP (by decide) (by decide)⟩


/-- C2: on the capital-Z names the code does not return `TAR_COMPRESS`:
`pkg.tar.Z` is lower-cased to `pkg.tar.z`, which no check matches, and
`pkg.taZ` is lower-cased to `pkg.taz`, which the gzip check takes. -/
theorem get_type_capital_Z :
    get_type ["srv", "pkg.tar.Z"] = UNKNOWN ∧ get_type ["srv", "pkg.taZ"] = TAR_GZIP := by
  decide

/-- C3: when the lower-cased base name ends with none of the recognized
suffixes, `get_type` returns `UNKNOWN`. -/
theorem get_type_unrecognized (archivefile : GFile)
    (h : ∀ s ∈ [".tar", ".tar.gz", ".tgz", ".taz", ".tar.bz2", ".tz2", ".tbz2", ".tbz",
      ".tar.lz", ".tar.lzma", ".tlz", ".tar.lzo", ".tar.xz", ".zip", ".rpm"],
      g_str_has_suffix (g_ascii_strdown (g_file_get_basename archivefile)) s = false) :
    get_type archivefile = UNKNOWN := by
  unfold get_type
  simp only [h _ (by decide : ".tar" ∈ _), h ".tar.gz" (by decide), h ".tgz" (by decide),
    h ".taz" (by decide), h ".tar.bz2" (by decide), h ".tz2" (by decide),
    h ".tbz2" (by decide), h ".tbz" (by decide), h ".tar.lz" (by decide),
    h ".tar.lzma" (by decide), h ".tlz" (by decide), h ".tar.lzo" (by decide),
    h ".tar.xz" (by decide), h ".zip" (by decide), h ".rpm" (by decide),
    g_ascii_strdown_no_Z _ ".tar.Z" (by decide), g_ascii_strdown_no_Z _ ".taZ" (by decide)]
  decide

theorem get_type_unrecognized_witness :
    (∀ s ∈ [".tar", ".tar.gz", ".tgz", ".taz", ".tar.bz2", ".tz2", ".tbz2", ".tbz",
      ".tar.lz", ".tar.lzma", ".tlz", ".tar.lzo", ".tar.xz", ".zip", ".rpm"],
      g_str_has_suffix (g_ascii_strdown (g_file_get_basename ["srv", "Pkg.7Z"])) s = false)
      ∧ get_type ["srv", "Pkg.7Z"] = UNKNOWN ∧ get_type ["srv", "README"] = UNKNOWN :=
  ⟨by decide, get_type_unrecognized ["srv", "Pkg.7Z"] (by decide), by decide⟩

/-- C4: `is_tar`, the ordinal range test `TAR <= t <= TAR_XZ`, is true exactly
on the eight tar variants: it agrees with the explicit set and is false for
`UNKNOWN`, `RPM` and `ZIP`. -/
theorem is_tar_iff (t : ArchiveType) :
    (is_tar t = true ↔ t ∈ [TAR, TAR_GZIP, TAR_COMPRESS, TAR_BZIP2, TAR_LZIP, TAR_LZMA,
        TAR_LZOP, TAR_XZ])
      ∧ is_tar t = is_tar_family t
      ∧ is_tar UNKNOWN = false ∧ is_tar RPM = false ∧ is_tar ZIP = false := by
  cases t <;> decide

/-- C5: `tar_decompress_flag` gives each compressed tar variant its flag, gives
no flag to plain `TAR` and to every non-tar type, and distinct variants get
distinct flags. -/
theorem tar_decompress_flag_table :
    tar_decompress_flag TAR_GZIP = some "-z"
      ∧ tar_decompress_flag TAR_COMPRESS = some "-Z"
      ∧ tar_decompress_flag TAR_BZIP2 = some "-j"
      ∧ tar_decompress_flag TAR_LZIP = some "--lzip"
      ∧ tar_decompress_flag TAR_LZMA = some "--lzma"
      ∧ tar_decompress_flag TAR_LZOP = some "--lzop"
      ∧ tar_decompress_flag TAR_XZ = some "-J"
      ∧ tar_decompress_flag TAR = none
      ∧ (∀ t, is_tar t = false → tar_decompress_flag t = none)
      ∧ (∀ t, (tar_decompress_flag t).isSome = true ↔
          t ∈ [TAR_GZIP, TAR_COMPRESS, TAR_BZIP2, TAR_LZIP, TAR_LZMA, TAR_LZOP, TAR_XZ])
      ∧ (∀ t u, (tar_decompress_flag t).isSome = true →
          tar_decompress_flag t = tar_decompress_flag u → t = u) := by
  refine ⟨by decide, by decide, by decide, by decide, by decide, by decide, by decide,
    by decide, ?_, ?_, ?_⟩
  · intro t; cases t <;> decide
  · intro t; cases t <;> decide
  · intro t u; cases t <;> cases u <;> decide


/-! ## Looking up entries -/

theorem FS.lookup_cons (q : GFile) (node : Node) (rest : FS) (path : GFile) :
    FS.lookup ((q, node) :: rest) path = if q = path then some node else FS.lookup rest path :=
  rfl

theorem FS.lookup_eq_none_iff (fs : FS) (path : GFile) :
    fs.lookup path = none ↔ ∀ e ∈ fs, e.1 ≠ path := by
  induction fs with
  | nil => simp [FS.lookup]
  | cons hd tl ih =>
    obtain ⟨q, node⟩ := hd
    rw [FS.lookup_cons]
    by_cases h : q = path
    · simp only [h, if_true]
      constructor
      · intro h'; cases h'
      · intro h'; exact absurd rfl (h' (path, node) (List.mem_cons_self _ _))
    · simp only [h, if_false, ih]
      constructor
      · intro h' e he
        rcases List.mem_cons.mp he with rfl | he
        · exact h
        · exact h' e he
      · intro h' e he
        exact h' e (List.mem_cons_of_mem _ he)

theorem FS.mem_of_lookup {fs : FS} {path : GFile} {node : Node}
    (h : fs.lookup path = some node) : (path, node) ∈ fs := by
  induction fs with
  | nil => simp [FS.lookup] at h
  | cons hd tl ih =>
    obtain ⟨q, n⟩ := hd
    rw [FS.lookup_cons] at h
    by_cases hq : q = path
    · simp only [hq, if_true, Option.some.injEq] at h
      simp [hq, h]
    · simp only [hq, if_false] at h
      exact List.mem_cons_of_mem _ (ih h)

theorem FS.lookup_of_mem {fs : FS} (hnd : (fs.map Prod.fst).Nodup) {path : GFile} {node : Node}
    (h : (path, node) ∈ fs) : fs.lookup path = some node := by
  induction fs with
  | nil => simp at h
  | cons hd tl ih =>
    obtain ⟨q, n⟩ := hd
    simp only [List.map_cons, List.nodup_cons, List.mem_map, not_exists, not_and] at hnd
    rw [FS.lookup_cons]
    rcases List.mem_cons.mp h with h1 | h1
    · cases h1; simp
    · have : q ≠ path := fun hq => hnd.1 (path, node) h1 hq.symm
      simp only [this, if_false]
      exact ih hnd.2 h1

theorem FS.lookup_append (fs gs : FS) (path : GFile) :
    FS.lookup (fs ++ gs) path = (fs.lookup path).orElse fun _ => gs.lookup path := by
  induction fs with
  | nil => simp [FS.lookup]
  | cons hd tl ih =>
    obtain ⟨q, n⟩ := hd
    by_cases hq : q = path
    · simp [FS.lookup_cons, hq]
    · simp [FS.lookup_cons, hq, ih]

/-- Looking up after every entry at `file` got the content `node`. -/
theorem FS.lookup_map_replace (fs : FS) (file : GFile) (node : Node) (path : GFile) :
    FS.lookup (fs.map fun e => if e.1 = file then (e.1, node) else e) path =
      if path = file then (fs.lookup path).map fun _ => node else fs.lookup path := by
  induction fs with
  | nil => simp [FS.lookup]
  | cons hd tl ih =>
    obtain ⟨q, n⟩ := hd
    simp only [List.map_cons]
    by_cases hq : q = file
    · by_cases hp : path = file
      · simp [FS.lookup_cons, hq, hp]
      · have : ¬ file = path := fun h => hp h.symm
        simp [FS.lookup_cons, hq, hp, this, ih]
    · by_cases hp : q = path
      · have : ¬ path = file := fun h => hq (hp.trans h)
        simp [FS.lookup_cons, hq, hp, this]
      · simp [FS.lookup_cons, hq, hp, ih]

/-- A successful `g_file_replace_contents` leaves exactly `contents` at
`file` and every other path as it was. -/
theorem g_file_replace_contents_ok (file : GFile) (contents : GBytes) (fs : FS)
    (hparent : fs.lookup file.dropLast = some Node.dir) (hne : file ≠ [])
    (hnd : fs.lookup file ≠ some Node.dir) :
    (g_file_replace_contents file contents fs).error = none
      ∧ (g_file_replace_contents file contents fs).fs.lookup file = some (Node.file contents)
      ∧ ∀ q, q ≠ file → (g_file_replace_contents file contents fs).fs.lookup q = fs.lookup q := by
  unfold g_file_replace_contents
  cases hl : fs.lookup file with
  | none =>
    simp only [hparent, hne, ne_eq, not_true_eq_false, or_self, if_false, true_and]
    constructor
    · simp [FS.lookup_append, hl, FS.lookup]
    · intro q hq
      have : ¬ file = q := fun h => hq h.symm
      rw [FS.lookup_append]
      cases fs.lookup q <;> simp [FS.lookup, this]
  | some node =>
    cases node with
    | dir => exact absurd hl hnd
    | file old =>
      simp only [true_and]
      constructor
      · rw [FS.lookup_map_replace]; simp [hl]
      · intro q hq
        rw [FS.lookup_map_replace]; simp [hq]

/-- What `download_uri` returns for a body that is not empty and was copied
without a failure. -/
theorem download_uri_clean (w : Services) (uri : SoupURI) (content : GBytes)
    (hget : w.http_get uri = Except.ok content) (hclean : w.splice_error uri = none)
    (hne : content ≠ []) : download_uri w uri = ⟨some content, none⟩ := by
  have hlen : ¬ ((content.length : Int) = 0) := by
    intro h0
    exact hne (List.length_eq_zero.mp (by exact_mod_cast h0))
  simp [download_uri, g_output_stream_splice, hget, hclean, hlen]

/-- What `download_uri` returns for an empty body: `NULL`, and no error. -/
theorem download_uri_empty (w : Services) (uri : SoupURI)
    (hget : w.http_get uri = Except.ok []) (hclean : w.splice_error uri = none) :
    download_uri w uri = ⟨none, none⟩ := by
  simp [download_uri, g_output_stream_splice, hget, hclean]

/-- When the bytes arrived, are not empty and have the expected digest,
`download_archive` is the whole-buffer write of exactly those bytes:
whenever the path can be written, `TRUE` is returned without an error, the
archive file holds the bytes, whatever it held before, and nothing else
changes. -/
theorem download_archive_written (w : Services) (uri : SoupURI) (sha : String)
    (archive_file : GFile) (fs : FS) (content : GBytes)
    (hget : w.http_get uri = Except.ok content) (hclean : w.splice_error uri = none)
    (hne : content ≠ []) (hsha : w.sha256_hex content = sha)
    (hparent : fs.lookup archive_file.dropLast = some Node.dir) (hnr : archive_file ≠ [])
    (hnd : fs.lookup archive_file ≠ some Node.dir) :
    download_archive w uri (some sha) archive_file fs
        = ⟨(g_file_replace_contents archive_file content fs).fs, true, none⟩
      ∧ (download_archive w uri (some sha) archive_file fs).fs.lookup archive_file
          = some (Node.file content)
      ∧ ∀ q, q ≠ archive_file →
          (download_archive w uri (some sha) archive_file fs).fs.lookup q = fs.lookup q := by
  obtain ⟨h1, h2, h3⟩ := g_file_replace_contents_ok archive_file content fs hparent hnr hnd
  have h : download_archive w uri (some sha) archive_file fs
      = ⟨(g_file_replace_contents archive_file content fs).fs, true, none⟩ := by
    simp [download_archive, download_uri_clean w uri content hget hclean hne, hsha, g_strcmp0,
      h1, g_propagate_error]
  rw [h]
  exact ⟨rfl, h2, h3⟩

/-- When the bytes arrived, are not empty and do not have the expected
digest, `download_archive` returns `FALSE` without touching the file system,
and the message of its error contains both digests. -/
theorem download_archive_mismatch (w : Services) (uri : SoupURI) (sha : String)
    (archive_file : GFile) (fs : FS) (content : GBytes)
    (hget : w.http_get uri = Except.ok content) (hclean : w.splice_error uri = none)
    (hne : content ≠ []) (hsha : w.sha256_hex content ≠ sha) :
    ∃ e, download_archive w uri (some sha) archive_file fs = ⟨fs, false, some e⟩
      ∧ sha.data <:+: e.message.data
      ∧ (w.sha256_hex content).data <:+: e.message.data := by
  refine ⟨⟨GIOErrorEnum.FAILED, "Wrong sha256 for " ++ g_file_get_path archive_file
    ++ ", expected " ++ sha ++ ", was " ++ w.sha256_hex content⟩, ?_, ?_, ?_⟩
  · simp [download_archive, download_uri_clean w uri content hget hclean hne, hsha, g_strcmp0,
      printf_s, g_propagate_error]
    intro h; split at h <;> simp at h
  · exact ⟨("Wrong sha256 for " ++ g_file_get_path archive_file ++ ", expected ").data,
      (", was " ++ w.sha256_hex content).data, by simp [String.data_append]⟩
  · exact ⟨("Wrong sha256 for " ++ g_file_get_path archive_file ++ ", expected " ++ sha
      ++ ", was ").data, [], by simp [String.data_append]⟩

/-- A request that fails makes `download_archive` return `FALSE` with the
error of the request, without touching the file system. -/
theorem download_archive_request_failed (w : Services) (uri : SoupURI) (sha : Option String)
    (archive_file : GFile) (fs : FS) (e : GError) (hget : w.http_get uri = Except.error e) :
    download_archive w uri sha archive_file fs = ⟨fs, false, some e⟩ := by
  simp [download_archive, download_uri, hget]

/-- C6: on a response whose body is empty `download_archive` does not get as
far as the digest. `g_output_stream_splice` returns the count 0, the test
`!g_output_stream_splice (...)` takes it for a failure, `download_uri`
returns `NULL` with no error set, and `download_archive` returns `FALSE`
without an error and without writing, whatever the expected digest is: also
when it is the digest of the empty byte sequence, where the claim asks for
the empty file to be written and success to be reported. -/
theorem download_archive_empty_body :
    (∀ (w : Services) (uri : SoupURI) (sha : Option String) (archive_file : GFile) (fs : FS),
        w.http_get uri = Except.ok [] → w.splice_error uri = none →
        g_output_stream_splice w uri [] = (0, none)
          ∧ download_uri w uri = ⟨none, none⟩
          ∧ download_archive w uri sha archive_file fs = ⟨fs, false, none⟩)
      ∧ services_empty.sha256_hex []
        = "e3b0c44298fc1c149afbf4c8996fb92427ae41e4649b934ca495991b7852b855"
      ∧ download_archive services_empty ⟨"https", "example.org", "/dist/empty.tar"⟩
          (some "e3b0c44298fc1c149afbf4c8996fb92427ae41e4649b934ca495991b7852b855")
          ["srv", "mod", "empty.tar"] fs_module
        = ⟨fs_module, false, none⟩
      ∧ (download_archive services_empty ⟨"https", "example.org", "/dist/empty.tar"⟩
          (some "e3b0c44298fc1c149afbf4c8996fb92427ae41e4649b934ca495991b7852b855")
          ["srv", "mod", "empty.tar"] fs_module).fs.lookup ["srv", "mod", "empty.tar"]
        = none := by
  refine ⟨?_, by decide, by decide, by decide⟩
  intro w uri sha archive_file fs hget hclean
  refine ⟨by simp [g_output_stream_splice, hclean], download_uri_empty w uri hget hclean, ?_⟩
  simp [download_archive, download_uri_empty w uri hget hclean]

/-- C7: on a response whose body is empty and whose digest is not the
expected one, `download_archive` returns `FALSE` and writes nothing, but it
sets no error at all, so there is no message that names the two digests:
the `return NULL` of `download_uri` comes before the digest is computed.
And a failure of the copy itself is not caught by the same test: with the
bytes `1 2 3` delivered before it, the file is written and `TRUE` is
returned when their digest is the expected one, with the error of the copy
left set; when it is not, the error returned is that of the copy, not the
one that names the digests. -/
theorem download_archive_empty_body_mismatch :
    services_empty.sha256_hex [] ≠ "abc"
      ∧ download_archive services_empty ⟨"https", "example.org", "/dist/empty.tar"⟩
          (some "abc") ["srv", "mod", "empty.tar"] fs_module
        = ⟨fs_module, false, none⟩
      ∧ download_uri services_broken ⟨"https", "example.org", "/dist/pkg.tar"⟩
        = ⟨some [1, 2, 3], some ⟨GIOErrorEnum.FAILED, "Error receiving data: Connection reset by peer"⟩⟩
      ∧ download_archive services_broken ⟨"https", "example.org", "/dist/pkg.tar"⟩
          (some "abc") ["srv", "mod", "pkg.tar"] fs_module
        = ⟨fs_module ++ [(["srv", "mod", "pkg.tar"], Node.file [1, 2, 3])], true,
            some ⟨GIOErrorEnum.FAILED, "Error receiving data: Connection reset by peer"⟩⟩
      ∧ download_archive services_broken ⟨"https", "example.org", "/dist/pkg.tar"⟩
          (some "abd") ["srv", "mod", "pkg.tar"] fs_module
        = ⟨fs_module, false, some ⟨GIOErrorEnum.FAILED, "Error receiving data: Connection reset by peer"⟩⟩ := by
  decide

/-! ## Well-formed file systems -/

theorem FS.WF.parent {fs : FS} (h : fs.WF) {p : GFile} {name : String} {node : Node}
    (hl : fs.lookup (p ++ [name]) = some node) : fs.lookup p = some Node.dir := by
  have := h.2 _ (FS.mem_of_lookup hl) (by simp)
  simpa using this

theorem FS.WF.ancestor {fs : FS} (h : fs.WF) (p r : GFile) (hr : r ≠ []) :
    ∀ {node : Node}, fs.lookup (p ++ r) = some node → fs.lookup p = some Node.dir := by
  induction r using List.reverseRecOn with
  | nil => exact absurd rfl hr
  | append_singleton r x ih =>
    intro node hl
    rw [← List.append_assoc] at hl
    have hp := h.parent hl
    by_cases hr' : r = []
    · subst hr'; simpa using hp
    · exact ih hr' hp

/-- In a well-formed file system nothing lies below a path that does not exist. -/
theorem FS.WF.free {fs : FS} (h : fs.WF) {b : GFile} (hb : fs.lookup b = none) :
    ∀ e ∈ fs, ¬ b <+: e.1 := by
  intro e he hpre
  obtain ⟨r, hr⟩ := hpre
  have hl : fs.lookup (b ++ r) = some e.2 := by
    rw [hr]; exact FS.lookup_of_mem h.1 he
  by_cases hr' : r = []
  · subst hr'; simp [hb] at hl
  · have := h.ancestor b r hr' hl
    simp [hb] at this

theorem FS.WF.free_of_lookup {fs : FS} (h : fs.WF) {b q : GFile} {node : Node}
    (hb : fs.lookup b = none) (hq : fs.lookup q = some node) : ¬ b <+: q :=
  h.free hb _ (FS.mem_of_lookup hq)

/-! ## Renaming -/

theorem rename_path_append (a b r : GFile) : rename_path a b (a ++ r) = b ++ r := by
  simp [rename_path]

theorem rename_path_outside {a q : GFile} (b : GFile) (h : ¬ a <+: q) :
    rename_path a b q = q := by
  simp [rename_path, h]

theorem rename_path_below (a b q : GFile) (h : a <+: q) : b <+: rename_path a b q := by
  simp [rename_path, h]

theorem rename_path_inj {a b p q : GFile} (hp : ¬ b <+: p) (hq : ¬ b <+: q)
    (h : rename_path a b p = rename_path a b q) : p = q := by
  by_cases h1 : a <+: p
  · by_cases h2 : a <+: q
    · obtain ⟨r1, rfl⟩ := h1
      obtain ⟨r2, rfl⟩ := h2
      rw [rename_path_append, rename_path_append] at h
      rw [List.append_cancel_left h]
    · rw [rename_path_outside b h2] at h
      exact absurd (h ▸ rename_path_below a b p h1) hq
  · by_cases h2 : a <+: q
    · rw [rename_path_outside b h1] at h
      exact absurd (h ▸ rename_path_below a b q h2) hp
    · rwa [rename_path_outside b h1, rename_path_outside b h2] at h

theorem FS.lookup_map_of_inj (f : GFile → GFile) (fs : FS) (p : GFile)
    (hinj : ∀ e ∈ fs, f e.1 = f p → e.1 = p) :
    FS.lookup (fs.map fun e => (f e.1, e.2)) (f p) = fs.lookup p := by
  induction fs with
  | nil => rfl
  | cons hd tl ih =>
    obtain ⟨q, n⟩ := hd
    simp only [List.map_cons, FS.lookup_cons]
    by_cases hq : q = p
    · simp [hq]
    · have : ¬ f q = f p := fun h => hq (hinj (q, n) (List.mem_cons_self _ _) h)
      simp only [hq, this, if_false]
      exact ih fun e he => hinj e (List.mem_cons_of_mem _ he)

theorem FS.lookup_map_none (f : GFile → GFile) (fs : FS) (q : GFile)
    (h : ∀ e ∈ fs, f e.1 ≠ q) :
    FS.lookup (fs.map fun e => (f e.1, e.2)) q = none := by
  rw [FS.lookup_eq_none_iff]
  intro e he
  obtain ⟨e0, he0, rfl⟩ := List.mem_map.mp he
  exact h e0 he0

/-- A path outside both the renamed tree and its new place is not affected. -/
theorem FS.lookup_rename_stay {fs : FS} {a b q : GFile} (hfree : ∀ e ∈ fs, ¬ b <+: e.1)
    (ha : ¬ a <+: q) (hb : ¬ b <+: q) : (fs.rename a b).lookup q = fs.lookup q := by
  have h := FS.lookup_map_of_inj (rename_path a b) fs q
    (fun e he heq => rename_path_inj (hfree e he) hb heq)
  rwa [rename_path_outside b ha] at h

/-- What was at `a ++ r` is at `b ++ r` after the rename. -/
theorem FS.lookup_rename_moved {fs : FS} {a b : GFile} (hfree : ∀ e ∈ fs, ¬ b <+: e.1)
    (hab : ¬ a <+: b) (hba : ¬ b <+: a) (r : GFile) :
    (fs.rename a b).lookup (b ++ r) = fs.lookup (a ++ r) := by
  have hbr : ¬ b <+: a ++ r := by
    intro h
    rcases List.prefix_or_prefix_of_prefix h (List.prefix_append a r) with h1 | h1
    · exact hba h1
    · exact hab h1
  have h := FS.lookup_map_of_inj (rename_path a b) fs (a ++ r)
    (fun e he heq => rename_path_inj (hfree e he) hbr heq)
  rwa [rename_path_append] at h

/-- Nothing is left at or below `a` after the rename. -/
theorem FS.lookup_rename_gone {fs : FS} {a b q : GFile}
    (hab : ¬ a <+: b) (hba : ¬ b <+: a) (hq : a <+: q) :
    (fs.rename a b).lookup q = none := by
  apply FS.lookup_map_none
  intro e _ heq
  by_cases h1 : a <+: e.1
  · have h2 := rename_path_below a b e.1 h1
    rw [heq] at h2
    rcases List.prefix_or_prefix_of_prefix h2 hq with h3 | h3
    · exact hba h3
    · exact hab h3
  · rw [rename_path_outside b h1] at heq
    exact h1 (heq ▸ hq)

/-- The two outcomes of `g_file_move`: it fails and changes nothing, or
all its checks passed and the tree was renamed. -/
theorem g_file_move_cases (a b : GFile) (fs : FS) :
    (∃ e, g_file_move a b fs = ⟨fs, some e⟩ ∧ (fs.lookup b ≠ none → fs.lookup a ≠ none →
        e.code = GIOErrorEnum.EXISTS))
      ∨ (g_file_move a b fs = ⟨fs.rename a b, none⟩ ∧ fs.lookup a ≠ none ∧ fs.lookup b = none
          ∧ fs.lookup b.dropLast = some Node.dir ∧ b ≠ [] ∧ ¬ a <+: b) := by
  cases ha : fs.lookup a with
  | none =>
    exact Or.inl ⟨⟨GIOErrorEnum.NOT_FOUND, "Error moving file: No such file or directory"⟩,
      by simp [g_file_move, ha], fun _ h => absurd rfl h⟩
  | some na =>
    cases hb : fs.lookup b with
    | some nb =>
      exact Or.inl ⟨⟨GIOErrorEnum.EXISTS, "Target file exists"⟩,
        by simp [g_file_move, ha, hb], fun _ _ => rfl⟩
    | none =>
      by_cases h1 : fs.lookup b.dropLast ≠ some Node.dir ∨ b = []
      · exact Or.inl ⟨⟨GIOErrorEnum.NOT_FOUND, "Error moving file: No such file or directory"⟩,
          by simp only [g_file_move, ha, hb, h1, if_true], fun h => absurd rfl h⟩
      · by_cases h2 : a <+: b
        · exact Or.inl ⟨⟨GIOErrorEnum.INVALID_FILENAME, "Invalid filename"⟩,
            by simp only [g_file_move, ha, hb, h1, h2, if_true, if_false],
            fun h => absurd rfl h⟩
        · refine Or.inr ⟨by simp only [g_file_move, ha, hb, h1, h2, if_false],
            by simp, rfl, ?_, ?_, h2⟩
          · by_contra h; exact h1 (Or.inl h)
          · intro h; exact h1 (Or.inr h)

/-- The facts a successful move on a well-formed file system rests on. -/
theorem g_file_move_clean {a b : GFile} {fs : FS} (hwf : fs.WF)
    (ha : fs.lookup a ≠ none) (hb : fs.lookup b = none) :
    (∀ e ∈ fs, ¬ b <+: e.1) ∧ ¬ b <+: a := by
  refine ⟨hwf.free hb, ?_⟩
  cases h : fs.lookup a with
  | none => exact absurd h ha
  | some node => exact hwf.free_of_lookup hb h

theorem FS.WF.rename {fs : FS} (hwf : fs.WF) {a b : GFile}
    (ha : fs.lookup a ≠ none) (hb : fs.lookup b = none)
    (hparent : fs.lookup b.dropLast = some Node.dir) (hne : b ≠ []) (hab : ¬ a <+: b) :
    (fs.rename a b).WF := by
  obtain ⟨hfree, hba⟩ := g_file_move_clean hwf ha hb
  constructor
  · have : (fs.rename a b).map Prod.fst = (fs.map Prod.fst).map (rename_path a b) := by
      simp [FS.rename, List.map_map, Function.comp_def]
    rw [this]
    apply List.Nodup.map_on _ hwf.1
    intro x hx y hy hxy
    obtain ⟨ex, hex, rfl⟩ := List.mem_map.mp hx
    obtain ⟨ey, hey, rfl⟩ := List.mem_map.mp hy
    exact rename_path_inj (hfree ex hex) (hfree ey hey) hxy
  · intro e' he' hne'
    obtain ⟨e, he, rfl⟩ := List.mem_map.mp he'
    simp only at hne' ⊢
    by_cases h1 : a <+: e.1
    · obtain ⟨r, hr⟩ := h1
      rw [← hr, rename_path_append]
      by_cases hr' : r = []
      · subst hr'
        rw [List.append_nil]
        have hb1 : ¬ a <+: b.dropLast := fun h => hab (h.trans ( List.dropLast_prefix b))
        have hb2 : ¬ b <+: b.dropLast := by
          intro h
          have h1 := h.length_le
          have h2 : 0 < b.length := List.length_pos.mpr hne
          simp at h1
          omega
        rw [FS.lookup_rename_stay hfree hb1 hb2]
        exact hparent
      · rw [List.dropLast_append_of_ne_nil _ hr', FS.lookup_rename_moved hfree hab hba]
        have := hwf.2 e he (by rw [← hr]; simp [hr'])
        rwa [← hr, List.dropLast_append_of_ne_nil _ hr'] at this
    · rw [rename_path_outside b h1] at hne' ⊢
      have hp := hwf.2 e he hne'
      have hb1 : ¬ a <+: e.1.dropLast := fun h => h1 (h.trans ( List.dropLast_prefix _))
      have hb2 : ¬ b <+: e.1.dropLast := hwf.free_of_lookup hb hp
      rw [FS.lookup_rename_stay hfree hb1 hb2]
      exact hp

/-- A move keeps a file system well-formed. -/
theorem g_file_move_wf (a b : GFile) {fs : FS} (hwf : fs.WF) : (g_file_move a b fs).fs.WF := by
  rcases g_file_move_cases a b fs with ⟨e, h, _⟩ | ⟨h, ha, hb, hp, hne, hab⟩
  · rw [h]; exact hwf
  · rw [h]; exact hwf.rename ha hb hp hne hab

/-- A move keeps every entry that is not in the moved tree. -/
theorem g_file_move_keeps (a b : GFile) {fs : FS} (hwf : fs.WF) {q : GFile} {node : Node}
    (hq : fs.lookup q = some node) (ha : ¬ a <+: q) :
    (g_file_move a b fs).fs.lookup q = some node := by
  rcases g_file_move_cases a b fs with ⟨e, h, _⟩ | ⟨h, ha', hb, hp, hne, hab⟩
  · rw [h]; exact hq
  · rw [h]
    obtain ⟨hfree, _⟩ := g_file_move_clean hwf ha' hb
    simp only
    rw [FS.lookup_rename_stay hfree ha (hwf.free_of_lookup hb hq)]
    exact hq

/-! ## Deleting -/

theorem FS.lookup_remove (fs : FS) (file q : GFile) :
    (fs.remove file).lookup q = if q = file then none else fs.lookup q := by
  induction fs with
  | nil => simp [FS.remove, FS.lookup]
  | cons hd tl ih =>
    obtain ⟨p, n⟩ := hd
    unfold FS.remove at ih ⊢
    by_cases hp : p = file
    · subst hp
      simp only [List.filter_cons, ne_eq, not_true_eq_false, decide_False, Bool.false_eq_true,
        if_false, ih, FS.lookup_cons]
      by_cases hq : q = p
      · simp [hq]
      · have : ¬ p = q := fun h => hq h.symm
        simp [hq, this]
    · simp only [List.filter_cons, ne_eq, hp, not_false_eq_true, decide_True, if_true,
        FS.lookup_cons, ih]
      by_cases hq : p = q
      · have : ¬ q = file := fun h => hp (hq.trans h)
        simp [hq, this]
      · simp [hq]

/-! ## Children -/

theorem child_info?_eq_some {dir : GFile} {e : GFile × Node} {info : GFileInfo} :
    child_info? dir e = some info ↔
      e.1 = dir ++ [info.name] ∧ info.file_type = e.2.file_type := by
  unfold child_info?
  cases hl : e.1.getLast? with
  | none =>
    constructor
    · intro h; cases h
    · rintro ⟨h, _⟩
      rw [h] at hl
      simp at hl
  | some name =>
    have hd : e.1.dropLast ++ [name] = e.1 :=
      List.dropLast_append_getLast? name (by rw [hl]; exact rfl)
    simp only
    constructor
    · intro h
      split at h
      · rename_i hdir
        cases h
        exact ⟨by rw [← hd, hdir], rfl⟩
      · cases h
    · rintro ⟨h1, h2⟩
      have hn : name = info.name := by
        rw [h1, List.getLast?_concat] at hl
        exact (Option.some.inj hl).symm
      have hdir : e.1.dropLast = dir := by rw [h1, List.dropLast_concat]
      simp only [hdir, if_true, hn]
      cases info
      simp_all

theorem FS.mem_children {fs : FS} {dir : GFile} {info : GFileInfo} :
    info ∈ fs.children dir ↔
      ∃ e ∈ fs, e.1 = dir ++ [info.name] ∧ info.file_type = e.2.file_type := by
  unfold FS.children
  rw [List.mem_filterMap]
  constructor
  · rintro ⟨e, he, h⟩; exact ⟨e, he, child_info?_eq_some.mp h⟩
  · rintro ⟨e, he, h⟩; exact ⟨e, he, child_info?_eq_some.mpr h⟩

/-- An existing child of `dir` is among the infos, with its type. -/
theorem FS.mem_children_of_lookup {fs : FS} {dir : GFile} {name : String} {node : Node}
    (h : fs.lookup (dir ++ [name]) = some node) :
    (⟨name, node.file_type⟩ : GFileInfo) ∈ fs.children dir :=
  FS.mem_children.mpr ⟨_, FS.mem_of_lookup h, rfl, rfl⟩

theorem FS.lookup_of_mem_children {fs : FS} (hwf : fs.WF) {dir : GFile} {info : GFileInfo}
    (h : info ∈ fs.children dir) :
    ∃ node, fs.lookup (dir ++ [info.name]) = some node ∧ info.file_type = node.file_type := by
  obtain ⟨e, he, h1, h2⟩ := FS.mem_children.mp h
  exact ⟨e.2, by rw [← h1]; exact FS.lookup_of_mem hwf.1 he, h2⟩

theorem FS.children_names_nodup {fs : FS} (hnd : (fs.map Prod.fst).Nodup) (dir : GFile) :
    ((fs.children dir).map GFileInfo.name).Nodup := by
  induction fs with
  | nil => simp [FS.children]
  | cons hd tl ih =>
    simp only [List.map_cons, List.nodup_cons] at hnd
    have ih' := ih hnd.2
    unfold FS.children at ih' ⊢
    rw [List.filterMap_cons]
    cases hc : child_info? dir hd with
    | none => exact ih'
    | some info =>
      simp only [List.map_cons, List.nodup_cons]
      refine ⟨?_, ih'⟩
      intro hmem
      obtain ⟨info', hi', hname⟩ := List.mem_map.mp hmem
      obtain ⟨e, he, h1, _⟩ := FS.mem_children.mp hi'
      have h0 := (child_info?_eq_some.mp hc).1
      apply hnd.1
      rw [h0, ← hname, ← h1]
      exact List.mem_map_of_mem _ he

theorem FS.children_eq_nil_iff (fs : FS) (dir : GFile) :
    fs.children dir = [] ↔ ∀ e ∈ fs, e.1 = [] ∨ e.1.dropLast ≠ dir := by
  unfold FS.children
  rw [List.filterMap_eq_nil_iff]
  constructor
  · intro h e he
    by_cases hne : e.1 = []
    · exact Or.inl hne
    · right
      intro hd
      have := h e he
      have hx : child_info? dir e = some ⟨e.1.getLast hne, e.2.file_type⟩ :=
        child_info?_eq_some.mpr ⟨by rw [← hd, List.dropLast_append_getLast], rfl⟩
      rw [this] at hx
      cases hx
  · intro h e he
    cases hc : child_info? dir e with
    | none => rfl
    | some info =>
      have h1 := (child_info?_eq_some.mp hc).1
      rcases h e he with h2 | h2
      · rw [h2] at h1; simp at h1
      · rw [h1, List.dropLast_concat] at h2
        exact absurd rfl h2

theorem FS.WF.remove {fs : FS} (hwf : fs.WF) {file : GFile} (hc : fs.children file = []) :
    (fs.remove file).WF := by
  constructor
  · have : (fs.remove file).map Prod.fst = (fs.map Prod.fst).filter fun p => decide (p ≠ file) := by
      simp [FS.remove, List.filter_map, Function.comp_def]
    rw [this]
    exact hwf.1.filter _
  · intro e he hne
    have he' : e ∈ fs := (List.mem_filter.mp he).1
    rw [FS.lookup_remove]
    have hp := hwf.2 e he' hne
    rcases (FS.children_eq_nil_iff fs file).mp hc e he' with h | h
    · exact absurd h hne
    · simp [h, hp]

/-- The two outcomes of `g_file_delete`. -/
theorem g_file_delete_cases (file : GFile) (fs : FS) :
    (∃ e, g_file_delete file fs = ⟨fs, some e⟩)
      ∨ (g_file_delete file fs = ⟨fs.remove file, none⟩ ∧ fs.lookup file ≠ none
          ∧ fs.children file = []) := by
  cases hl : fs.lookup file with
  | none =>
    exact Or.inl ⟨⟨GIOErrorEnum.NOT_FOUND, "Error removing file: No such file or directory"⟩,
      by simp [g_file_delete, hl]⟩
  | some node =>
    by_cases hc : fs.children file = []
    · exact Or.inr ⟨by simp [g_file_delete, hl, hc], by simp, hc⟩
    · exact Or.inl ⟨⟨GIOErrorEnum.NOT_EMPTY, "Error removing file: Directory not empty"⟩,
        by simp [g_file_delete, hl, hc]⟩

theorem g_file_delete_wf (file : GFile) {fs : FS} (hwf : fs.WF) :
    (g_file_delete file fs).fs.WF := by
  rcases g_file_delete_cases file fs with ⟨e, h⟩ | ⟨h, _, hc⟩
  · rw [h]; exact hwf
  · rw [h]; exact hwf.remove hc

theorem g_file_delete_keeps (file : GFile) {fs : FS} {q : GFile} (hq : q ≠ file) :
    (g_file_delete file fs).fs.lookup q = fs.lookup q := by
  rcases g_file_delete_cases file fs with ⟨e, h⟩ | ⟨h, _, hc⟩
  · rw [h]
  · rw [h]; simp [FS.lookup_remove, hq]

/-- A successful `g_file_delete` leaves nothing at the path. -/
theorem g_file_delete_gone (file : GFile) (fs : FS) (h : (g_file_delete file fs).error = none) :
    fs.lookup file ≠ none ∧ (g_file_delete file fs).fs.lookup file = none := by
  rcases g_file_delete_cases file fs with ⟨e, he⟩ | ⟨he, hl, _⟩
  · rw [he] at h; cases h
  · rw [he]; exact ⟨hl, by simp [FS.lookup_remove]⟩

/-! ## The loop of the flattener, turn by turn -/

theorem strip_components_loop_cons (recurse : GFile → FS → Outcome) (dest : GFile)
    (dir_enum : GFileEnumerator) (level : Nat) (info : GFileInfo) (rest : List GFileInfo)
    (fs : FS) :
    strip_components_loop recurse dest dir_enum level (info :: rest) fs =
      match (strip_components_step recurse dest dir_enum level info fs).error with
      | some _ => strip_components_step recurse dest dir_enum level info fs
      | none => strip_components_loop recurse dest dir_enum level rest
          (strip_components_step recurse dest dir_enum level info fs).fs := by
  rw [strip_components_loop]
  unfold strip_components_step
  by_cases h : info.file_type = GFileType.DIRECTORY ∧ level > 0
  · simp only [h, and_self, if_true]
    rcases recurse (g_file_enumerator_get_child dir_enum info) fs with ⟨fs1, _ | e⟩ <;> rfl
  · simp only [h, if_false]
    rcases g_file_move (g_file_enumerator_get_child dir_enum info)
      (g_file_get_child dest info.name) fs with ⟨fs1, _ | e⟩ <;> rfl

/-- At level 0 the loop never makes the recursive call. -/
theorem strip_components_loop_level_zero (r1 r2 : GFile → FS → Outcome) (dest : GFile)
    (dir_enum : GFileEnumerator) (infos : List GFileInfo) :
    ∀ fs, strip_components_loop r1 dest dir_enum 0 infos fs
      = strip_components_loop r2 dest dir_enum 0 infos fs := by
  induction infos with
  | nil => intro fs; rfl
  | cons info rest ih =>
    intro fs
    rw [strip_components_loop_cons, strip_components_loop_cons]
    simp only [strip_components_step, gt_iff_lt, lt_self_iff_false, and_false, if_false, ih]

theorem strip_components_nat_eq (dest : GFile) (level : Nat) (src : GFile) (fs : FS) :
    strip_components_nat dest level src fs =
      strip_components_body (strip_components_recurse dest level) dest src level fs := by
  cases level <;> rfl

/-- The call fails at once, changing nothing, when `src` is not a directory. -/
theorem strip_components_body_not_dir (recurse : GFile → FS → Outcome) (dest src : GFile)
    (level : Nat) (fs : FS) (h : fs.lookup src ≠ some Node.dir) :
    ∃ e, strip_components_body recurse dest src level fs = ⟨fs, some e⟩ := by
  unfold strip_components_body g_file_enumerate_children
  cases hl : fs.lookup src with
  | none => exact ⟨_, rfl⟩
  | some node =>
    cases node with
    | dir => exact absurd hl h
    | file c => exact ⟨_, rfl⟩

/-- On a directory the call runs the loop over the children and, when the
loop succeeded, deletes `src`. -/
theorem strip_components_body_dir (recurse : GFile → FS → Outcome) (dest src : GFile)
    (level : Nat) (fs : FS) (h : fs.lookup src = some Node.dir) :
    strip_components_body recurse dest src level fs =
      match (strip_components_loop recurse dest ⟨src, fs.children src, none⟩ level
          (fs.children src) fs).error with
      | some _ => strip_components_loop recurse dest ⟨src, fs.children src, none⟩ level
          (fs.children src) fs
      | none => g_file_delete src (strip_components_loop recurse dest
          ⟨src, fs.children src, none⟩ level (fs.children src) fs).fs := by
  unfold strip_components_body g_file_enumerate_children
  simp only [h]
  rcases strip_components_loop recurse dest ⟨src, fs.children src, none⟩ level
    (fs.children src) fs with ⟨fs1, _ | e⟩ <;> rfl

/-- A property of the file system that every turn keeps is kept by the loop. -/
theorem strip_components_loop_inv (P : FS → Prop) (recurse : GFile → FS → Outcome)
    (dest : GFile) (dir_enum : GFileEnumerator) (level : Nat) (infos : List GFileInfo)
    (hstep : ∀ info ∈ infos, ∀ fs, P fs →
      P (strip_components_step recurse dest dir_enum level info fs).fs) :
    ∀ fs, P fs → P (strip_components_loop recurse dest dir_enum level infos fs).fs := by
  induction infos with
  | nil => intro fs h; exact h
  | cons info rest ih =>
    intro fs h
    rw [strip_components_loop_cons]
    have h1 := hstep info (List.mem_cons_self _ _) fs h
    cases he : (strip_components_step recurse dest dir_enum level info fs).error with
    | some e => exact h1
    | none => exact ih (fun i hi => hstep i (List.mem_cons_of_mem _ hi)) _ h1

/-- A property of the file system that is kept by every move out of the tree
below `src0` and by every deletion in it is kept by the flattener. -/
theorem strip_components_nat_inv (P : FS → Prop) (dest src0 : GFile)
    (hmove : ∀ a n fs, src0 <+: a → P fs → P (g_file_move (a ++ [n]) (dest ++ [n]) fs).fs)
    (hdel : ∀ d fs, src0 <+: d → P fs → P (g_file_delete d fs).fs) :
    ∀ level src fs, src0 <+: src → P fs → P (strip_components_nat dest level src fs).fs := by
  intro level
  induction level with
  | zero =>
    intro src fs hsrc h
    rw [strip_components_nat_eq]
    by_cases hd : fs.lookup src = some Node.dir
    · rw [strip_components_body_dir _ _ _ _ _ hd]
      have hl := strip_components_loop_inv P (strip_components_recurse dest 0) dest
        ⟨src, fs.children src, none⟩ 0 (fs.children src) (by
          intro info _ fs1 h1
          simp only [strip_components_step, gt_iff_lt, lt_self_iff_false, and_false, if_false]
          exact hmove src info.name fs1 hsrc h1) fs h
      cases he : (strip_components_loop (strip_components_recurse dest 0) dest
        ⟨src, fs.children src, none⟩ 0 (fs.children src) fs).error with
      | some e => exact hl
      | none => exact hdel src _ hsrc hl
    · obtain ⟨e, he⟩ := strip_components_body_not_dir (strip_components_recurse dest 0) dest
        src 0 fs hd
      rw [he]; exact h
  | succ level ih =>
    intro src fs hsrc h
    rw [strip_components_nat_eq]
    by_cases hd : fs.lookup src = some Node.dir
    · rw [strip_components_body_dir _ _ _ _ _ hd]
      have hl := strip_components_loop_inv P (strip_components_recurse dest (level + 1)) dest
        ⟨src, fs.children src, none⟩ (level + 1) (fs.children src) (by
          intro info _ fs1 h1
          unfold strip_components_step
          split
          · exact ih (src ++ [info.name]) fs1 (hsrc.trans (List.prefix_append _ _)) h1
          · exact hmove src info.name fs1 hsrc h1) fs h
      cases he : (strip_components_loop (strip_components_recurse dest (level + 1)) dest
        ⟨src, fs.children src, none⟩ (level + 1) (fs.children src) fs).error with
      | some e => exact hl
      | none => exact hdel src _ hsrc hl
    · obtain ⟨e, he⟩ := strip_components_body_not_dir
        (strip_components_recurse dest (level + 1)) dest src (level + 1) fs hd
      rw [he]; exact h

/-- The flattener keeps a file system well-formed. -/
theorem strip_components_nat_wf (dest : GFile) (level : Nat) (src : GFile) {fs : FS}
    (hwf : fs.WF) : (strip_components_nat dest level src fs).fs.WF :=
  strip_components_nat_inv FS.WF dest src (fun a n _ _ h => g_file_move_wf (a ++ [n]) _ h)
    (fun d _ _ h => g_file_delete_wf d h) level src fs (List.prefix_refl _) hwf

/-- The flattener keeps every entry that lies outside the source tree. -/
theorem strip_components_nat_keeps (dest : GFile) (level : Nat) (src : GFile) {fs : FS}
    (hwf : fs.WF) {q : GFile} {node : Node} (hq : fs.lookup q = some node)
    (hout : ¬ src <+: q) :
    (strip_components_nat dest level src fs).fs.lookup q = some node :=
  (strip_components_nat_inv (fun fs1 => fs1.WF ∧ fs1.lookup q = some node) dest src
    (fun a n _ ha h => ⟨g_file_move_wf (a ++ [n]) _ h.1,
      g_file_move_keeps (a ++ [n]) _ h.1 h.2
        (fun hp => hout ((ha.trans (List.prefix_append _ _)).trans hp))⟩)
    (fun d _ hd h => ⟨g_file_delete_wf d h.1, by
      rw [g_file_delete_keeps d (fun hqd : q = d => hout (by rw [hqd]; exact hd))]; exact h.2⟩)
    level src fs (List.prefix_refl _) ⟨hwf, hq⟩).2

/-! ## What a turn of the loop keeps -/

theorem strip_components_step_wf (dest : GFile) (dir_enum : GFileEnumerator) (level : Nat)
    (info : GFileInfo) {fs : FS} (hwf : fs.WF) :
    (strip_components_step (strip_components_recurse dest level) dest dir_enum level
      info fs).fs.WF := by
  unfold strip_components_step
  split
  · cases level with
    | zero => exact hwf
    | succ k => exact strip_components_nat_wf dest k _ hwf
  · exact g_file_move_wf _ _ hwf

/-- A turn on the child `info` keeps every entry outside that child's tree. -/
theorem strip_components_step_keeps (dest : GFile) (dir_enum : GFileEnumerator)
    (level : Nat) (info : GFileInfo) {fs : FS} (hwf : fs.WF) {q : GFile} {node : Node}
    (hq : fs.lookup q = some node) (hout : ¬ dir_enum.container ++ [info.name] <+: q) :
    (strip_components_step (strip_components_recurse dest level) dest dir_enum level
      info fs).fs.lookup q = some node := by
  unfold strip_components_step
  split
  · cases level with
    | zero => exact hq
    | succ k => exact strip_components_nat_keeps dest k _ hwf hq hout
  · exact g_file_move_keeps _ _ hwf hq hout

theorem strip_components_loop_wf (dest : GFile) (dir_enum : GFileEnumerator) (level : Nat)
    (infos : List GFileInfo) {fs : FS} (hwf : fs.WF) :
    (strip_components_loop (strip_components_recurse dest level) dest dir_enum level
      infos fs).fs.WF :=
  strip_components_loop_inv FS.WF _ dest dir_enum level infos
    (fun info _ _ h => strip_components_step_wf dest dir_enum level info h) fs hwf

/-- The loop keeps every entry outside the trees of the children it visits. -/
theorem strip_components_loop_keeps (dest : GFile) (dir_enum : GFileEnumerator) (level : Nat)
    (infos : List GFileInfo) {fs : FS} (hwf : fs.WF) {q : GFile} {node : Node}
    (hq : fs.lookup q = some node)
    (hout : ∀ info ∈ infos, ¬ dir_enum.container ++ [info.name] <+: q) :
    (strip_components_loop (strip_components_recurse dest level) dest dir_enum level
      infos fs).fs.lookup q = some node :=
  (strip_components_loop_inv (fun fs1 => fs1.WF ∧ fs1.lookup q = some node) _ dest dir_enum
    level infos
    (fun info hi _ h => ⟨strip_components_step_wf dest dir_enum level info h.1,
      strip_components_step_keeps dest dir_enum level info h.1 h.2 (hout info hi)⟩)
    fs ⟨hwf, hq⟩).2

/-! ## Paths of the source and of the destination -/

theorem child_prefix_child {src : GFile} {x y : String} {q : GFile}
    (h : src ++ [x] <+: src ++ y :: q) : x = y := by
  have h1 : [x] <+: y :: q := (List.prefix_append_right_inj src).mp h
  obtain ⟨t, ht⟩ := h1
  simp only [List.singleton_append, List.cons.injEq] at ht
  exact ht.1

/-- A child of the source is not above a child of the destination unless
the destination lies in the source. -/
theorem not_child_prefix_dest {dest src : GFile} (hds : ¬ src <+: dest) (x name : String) :
    ¬ src ++ [x] <+: dest ++ [name] := by
  intro h
  rcases List.prefix_concat_iff.mp h with h1 | h1
  · have := List.append_inj' h1 rfl
    exact hds (this.1 ▸ List.prefix_refl _)
  · exact hds ((List.prefix_append _ _).trans h1)

/-- The entries a call moves are still the ones it moves after a change that
keeps what exists below the child they are reached through. -/
theorem MovedBy.keeps {fs fs1 : FS} :
    ∀ (ds : List String) (level : Nat) (src : GFile) (name : String),
      (∀ q node, src ++ [first_segment ds name] <+: q → fs.lookup q = some node →
        fs1.lookup q = some node) →
      MovedBy fs level src ds name → MovedBy fs1 level src ds name := by
  intro ds
  induction ds with
  | nil =>
    intro level src name hk h
    obtain ⟨node, hl, hn⟩ := h
    exact ⟨node, hk _ _ (List.prefix_refl _) hl, hn⟩
  | cons d ds ih =>
    intro level src name hk h
    obtain ⟨h0, h1, h2⟩ := h
    refine ⟨h0, hk _ _ (List.prefix_refl _) h1, ih (level - 1) (src ++ [d]) name ?_ h2⟩
    intro q node hq hl
    exact hk q node ((List.prefix_append _ _).trans hq) hl

theorem MovedBy.first_exists {fs : FS} {level : Nat} {src : GFile} {ds : List String}
    {name : String} (h : MovedBy fs level src ds name) :
    ∃ node, fs.lookup (src ++ [first_segment ds name]) = some node := by
  cases ds with
  | nil =>
    obtain ⟨node, hl, _⟩ := h
    exact ⟨node, hl⟩
  | cons d ds => exact ⟨Node.dir, h.2.1⟩

/-! ## No overwrite -/

/-- The loop fails when an entry it is to move has its name taken in the
destination: the turn that reaches the entry cannot succeed. -/
theorem strip_components_loop_fails (dest src : GFile) (hds : ¬ src <+: dest)
    (level : Nat) (ds : List String) (name : String) (cont : List GFileInfo)
    (hrec : ∀ k, level = k + 1 → ∀ (src1 : GFile) (fs1 : FS) (ds1 : List String),
      fs1.WF → ¬ src1 <+: dest → fs1.lookup (dest ++ [name]) ≠ none →
      MovedBy fs1 k src1 ds1 name → (strip_components_nat dest k src1 fs1).error ≠ none) :
    ∀ (infos : List GFileInfo) (fs : FS), fs.WF → (infos.map GFileInfo.name).Nodup →
      (∀ info ∈ infos, ∃ node, fs.lookup (src ++ [info.name]) = some node
        ∧ info.file_type = node.file_type) →
      fs.lookup (dest ++ [name]) ≠ none → MovedBy fs level src ds name →
      first_segment ds name ∈ infos.map GFileInfo.name →
      (strip_components_loop (strip_components_recurse dest level) dest ⟨src, cont, none⟩
        level infos fs).error ≠ none := by
  intro infos
  induction infos with
  | nil => intro fs _ _ _ _ _ hmem; simp at hmem
  | cons info rest ih =>
    intro fs hwf hnd hvalid hq hmoved hmem
    rw [strip_components_loop_cons]
    cases herr : (strip_components_step (strip_components_recurse dest level) dest
      ⟨src, cont, none⟩ level info fs).error with
    | some e => simp [herr]
    | none =>
      simp only
      simp only [List.map_cons, List.nodup_cons] at hnd
      by_cases hfirst : info.name = first_segment ds name
      · exfalso
        obtain ⟨node, hl, hty⟩ := hvalid info (List.mem_cons_self _ _)
        cases ds with
        | nil =>
          simp only [first_segment] at hfirst
          obtain ⟨node1, hl1, hn1⟩ := hmoved
          rw [hfirst, hl1] at hl
          cases hl
          have hstep : strip_components_step (strip_components_recurse dest level) dest
              ⟨src, cont, none⟩ level info fs
              = g_file_move (src ++ [name]) (dest ++ [name]) fs := by
            unfold strip_components_step
            have : ¬ (info.file_type = GFileType.DIRECTORY ∧ level > 0) := by
              rintro ⟨h1, h2⟩
              rw [hty] at h1
              cases node with
              | file c => cases h1
              | dir => have := hn1 rfl; omega
            simp only [this, if_false, g_file_enumerator_get_child, g_file_get_child, hfirst]
          rw [hstep] at herr
          rcases g_file_move_cases (src ++ [name]) (dest ++ [name]) fs with
            ⟨e, he, _⟩ | ⟨_, _, hb, _⟩
          · rw [he] at herr; cases herr
          · exact hq hb
        | cons d ds1 =>
          simp only [first_segment] at hfirst
          obtain ⟨hpos, hdir, hsub⟩ := hmoved
          cases level with
          | zero => omega
          | succ k =>
            rw [hfirst, hdir] at hl
            cases hl
            have hstep : strip_components_step (strip_components_recurse dest (k + 1)) dest
                ⟨src, cont, none⟩ (k + 1) info fs
                = strip_components_nat dest k (src ++ [d]) fs := by
              unfold strip_components_step
              have : info.file_type = GFileType.DIRECTORY ∧ k + 1 > 0 := ⟨hty, by omega⟩
              simp only [this, and_self, if_true, g_file_enumerator_get_child,
                g_file_get_child, hfirst, strip_components_recurse]
            rw [hstep] at herr
            exact hrec k rfl (src ++ [d]) fs ds1 hwf
              (fun h => hds ((List.prefix_append _ _).trans h)) hq hsub herr
      · have hmem' : first_segment ds name ∈ rest.map GFileInfo.name := by
          simp only [List.map_cons, List.mem_cons] at hmem
          rcases hmem with h | h
          · exact absurd h.symm hfirst
          · exact h
        have hwf1 := strip_components_step_wf dest ⟨src, cont, none⟩ level info hwf
        have hkeep : ∀ q node, ¬ src ++ [info.name] <+: q → fs.lookup q = some node →
            (strip_components_step (strip_components_recurse dest level) dest
              ⟨src, cont, none⟩ level info fs).fs.lookup q = some node :=
          fun q node hout hl =>
            strip_components_step_keeps dest ⟨src, cont, none⟩ level info hwf hl hout
        apply ih _ hwf1 hnd.2
        · intro info1 hi1
          obtain ⟨node, hl, hty⟩ := hvalid info1 (List.mem_cons_of_mem _ hi1)
          refine ⟨node, hkeep _ _ ?_ hl, hty⟩
          intro hp
          have := List.append_inj' (hp.eq_of_length (by simp)) rfl
          simp only [List.cons.injEq, and_true] at this
          exact hnd.1 (this.2 ▸ List.mem_map_of_mem _ hi1)
        · cases hd : fs.lookup (dest ++ [name]) with
          | none => exact absurd hd hq
          | some node =>
            rw [hkeep _ _ (not_child_prefix_dest hds _ _) hd]
            simp
        · apply MovedBy.keeps ds level src name _ hmoved
          intro q node hpre hl
          apply hkeep q node _ hl
          intro hp
          obtain ⟨t, rfl⟩ := hpre
          rw [List.append_assoc] at hp
          exact hfirst (child_prefix_child hp)
        · exact hmem'

/-- The call fails when an entry it is to move has its name taken in the
destination. -/
theorem strip_components_nat_fails (dest : GFile) (name : String) :
    ∀ (level : Nat) (src : GFile) (fs : FS) (ds : List String), fs.WF → ¬ src <+: dest →
      fs.lookup (dest ++ [name]) ≠ none → MovedBy fs level src ds name →
      (strip_components_nat dest level src fs).error ≠ none := by
  intro level
  induction level using Nat.strong_induction_on with
  | _ level ih =>
    intro src fs ds hwf hds hq hmoved
    rw [strip_components_nat_eq]
    by_cases hd : fs.lookup src = some Node.dir
    · rw [strip_components_body_dir _ _ _ _ _ hd]
      have hfail := strip_components_loop_fails dest src hds level ds name (fs.children src)
        (fun k hk src1 fs1 ds1 h1 h2 h3 h4 => ih k (by omega) src1 fs1 ds1 h1 h2 h3 h4)
        (fs.children src) fs hwf (FS.children_names_nodup hwf.1 src)
        (fun info hi => FS.lookup_of_mem_children hwf hi) hq hmoved (by
          obtain ⟨node, hl⟩ := hmoved.first_exists
          exact List.mem_map_of_mem GFileInfo.name (FS.mem_children_of_lookup hl))
      cases he : (strip_components_loop (strip_components_recurse dest level) dest
        ⟨src, fs.children src, none⟩ level (fs.children src) fs).error with
      | none => exact absurd he hfail
      | some e => simp [he]
    · obtain ⟨e, he⟩ := strip_components_body_not_dir (strip_components_recurse dest level)
        dest src level fs hd
      rw [he]; simp

/-! ## What the flattener leaves unchanged -/

theorem FS.WF.lookup_above {fs : FS} (hwf : fs.WF) {p q : GFile} (hp : p <+: q)
    (hq : fs.lookup q ≠ none) : fs.lookup p ≠ none := by
  intro hnone
  cases h : fs.lookup q with
  | none => exact hq h
  | some node => exact hwf.free_of_lookup hnone h hp

/-- A move changes nothing at a path outside the moved tree and
outside the place it is moved to. -/
theorem g_file_move_same (a b : GFile) {fs : FS} (hwf : fs.WF) {q : GFile}
    (ha : ¬ a <+: q) (hb : fs.lookup b = none → ¬ b <+: q) :
    (g_file_move a b fs).fs.lookup q = fs.lookup q := by
  rcases g_file_move_cases a b fs with ⟨e, h, _⟩ | ⟨h, ha', hb', _⟩
  · rw [h]
  · rw [h]
    exact FS.lookup_rename_stay (g_file_move_clean hwf ha' hb').1 ha (hb hb')

/-- The flattener changes nothing at a path that is outside the source tree
and not below a name that is still free in the destination. -/
theorem strip_components_nat_same (dest : GFile) (level : Nat) (src : GFile) {fs : FS}
    (hwf : fs.WF) {q : GFile} (hout : ¬ src <+: q)
    (hq : ∀ n, dest ++ [n] <+: q → fs.lookup (dest ++ [n]) ≠ none) :
    (strip_components_nat dest level src fs).fs.lookup q = fs.lookup q := by
  have h := strip_components_nat_inv
    (fun fs1 => fs1.WF ∧ fs1.lookup q = fs.lookup q
      ∧ ∀ n, dest ++ [n] <+: q → fs1.lookup (dest ++ [n]) ≠ none) dest src
    (by
      intro a n fs1 ha ⟨h1, h2, h3⟩
      have hsrc : src <+: a ++ [n] := ha.trans (List.prefix_append _ _)
      refine ⟨g_file_move_wf _ _ h1, ?_, ?_⟩
      · rw [g_file_move_same _ _ h1 (fun hp => hout (hsrc.trans hp))
          (fun hnone hp => h3 n hp hnone)]
        exact h2
      · intro n1 hn1
        cases hl : fs1.lookup (dest ++ [n1]) with
        | none => exact absurd hl (h3 n1 hn1)
        | some node =>
          rw [g_file_move_keeps _ _ h1 hl (fun hp => hout ((hsrc.trans hp).trans hn1))]
          simp)
    (by
      intro d fs1 hd ⟨h1, h2, h3⟩
      refine ⟨g_file_delete_wf d h1, ?_, ?_⟩
      · rw [g_file_delete_keeps d (fun hqd : q = d => hout (by rw [hqd]; exact hd))]
        exact h2
      · intro n1 hn1
        rw [g_file_delete_keeps d (fun hqd : dest ++ [n1] = d =>
          hout (by rw [← hqd] at hd; exact hd.trans hn1))]
        exact h3 n1 hn1)
    level src fs (List.prefix_refl _) ⟨hwf, rfl, hq⟩
  exact h.2.1

/-- A turn on the child `info` changes nothing at a path outside that
child's tree and not below a name that is still free in the destination. -/
theorem strip_components_step_same (dest : GFile) (dir_enum : GFileEnumerator)
    (level : Nat) (info : GFileInfo) {fs : FS} (hwf : fs.WF) {q : GFile}
    (hout : ¬ dir_enum.container ++ [info.name] <+: q)
    (hq : ∀ n, dest ++ [n] <+: q → fs.lookup (dest ++ [n]) ≠ none) :
    (strip_components_step (strip_components_recurse dest level) dest dir_enum level
      info fs).fs.lookup q = fs.lookup q := by
  unfold strip_components_step
  split
  · cases level with
    | zero => rfl
    | succ k => exact strip_components_nat_same dest k _ hwf hout hq
  · exact g_file_move_same _ _ hwf hout (fun hnone hp => hq info.name hp hnone)

/-- The loop changes nothing at a path outside the trees of the children it
visits and not below a name that is still free in the destination. -/
theorem strip_components_loop_same (dest : GFile) (dir_enum : GFileEnumerator) (level : Nat)
    (infos : List GFileInfo) {fs : FS} (hwf : fs.WF) {q : GFile}
    (hout : ∀ info ∈ infos, ¬ dir_enum.container ++ [info.name] <+: q)
    (hq : ∀ n, dest ++ [n] <+: q → fs.lookup (dest ++ [n]) ≠ none) :
    (strip_components_loop (strip_components_recurse dest level) dest dir_enum level
      infos fs).fs.lookup q = fs.lookup q := by
  have h := strip_components_loop_inv
    (fun fs1 => fs1.WF ∧ fs1.lookup q = fs.lookup q
      ∧ ∀ n, dest ++ [n] <+: q → fs1.lookup (dest ++ [n]) ≠ none) _ dest dir_enum level infos
    (by
      intro info hi fs1 ⟨h1, h2, h3⟩
      refine ⟨strip_components_step_wf dest dir_enum level info h1, ?_, ?_⟩
      · rw [strip_components_step_same dest dir_enum level info h1 (hout info hi) h3]
        exact h2
      · intro n1 hn1
        cases hl : fs1.lookup (dest ++ [n1]) with
        | none => exact absurd hl (h3 n1 hn1)
        | some node =>
          rw [strip_components_step_keeps dest dir_enum level info h1 hl
            (fun hp => hout info hi (hp.trans hn1))]
          simp)
    fs ⟨hwf, rfl, hq⟩
  exact h.2.1

/-- A name of the destination above an existing entry of the source tree
exists, when the destination is not in the source. -/
theorem dest_child_above_source {dest src : GFile} (hds : ¬ src <+: dest) {fs : FS}
    (hwf : fs.WF) {y : String} (hy : fs.lookup (src ++ [y]) ≠ none) (t : GFile) :
    ∀ n, dest ++ [n] <+: src ++ y :: t → fs.lookup (dest ++ [n]) ≠ none := by
  intro n hn
  have hpre : src ++ [y] <+: src ++ y :: t := by
    rw [List.prefix_append_right_inj]; exact ⟨t, rfl⟩
  rcases List.prefix_or_prefix_of_prefix hn hpre with h | h
  · exact hwf.lookup_above h hy
  · exact absurd h (not_child_prefix_dest hds y n)

/-! ## Where the moved entries end up -/

theorem MovedBy.exists {fs : FS} :
    ∀ (ds : List String) (level : Nat) (src : GFile) (name : String),
      MovedBy fs level src ds name → fs.lookup (src ++ ds ++ [name]) ≠ none := by
  intro ds
  induction ds with
  | nil =>
    intro level src name h
    obtain ⟨node, hl, _⟩ := h
    simp [hl]
  | cons d ds ih =>
    intro level src name h
    have := ih (level - 1) (src ++ [d]) name h.2.2
    simpa [List.append_assoc] using this

/-- A child of the source is not below a name that is free in the
destination while the source exists. -/
theorem not_child_prefix_below {dest src : GFile} (hds : ¬ src <+: dest) {fs : FS}
    (hwf : fs.WF) (hsrc : fs.lookup src ≠ none) {name : String}
    (hnone : fs.lookup (dest ++ [name]) = none) (x : String) (r : GFile) :
    ¬ src ++ [x] <+: dest ++ name :: r := by
  intro h
  have hpre : dest ++ [name] <+: dest ++ name :: r := by
    rw [List.prefix_append_right_inj]; exact ⟨r, rfl⟩
  rcases List.prefix_or_prefix_of_prefix h hpre with h1 | h1
  · exact not_child_prefix_dest hds x name h1
  · rcases List.prefix_concat_iff.mp h1 with h2 | h2
    · have := List.append_inj' h2 rfl
      exact hds (this.1 ▸ List.prefix_refl _)
    · exact hwf.lookup_above h2 hsrc hnone

/-- The turn that reaches an entry the call moves, when it succeeds, puts
the entry with all below it under its base name in the destination. -/
theorem strip_components_step_moved (dest src : GFile) (hds : ¬ src <+: dest)
    (level : Nat) (ds : List String) (name : String) (cont : List GFileInfo)
    (hrec : ∀ k, level = k + 1 → ∀ (src1 : GFile) (fs1 : FS) (ds1 : List String),
      fs1.WF → ¬ src1 <+: dest → MovedBy fs1 k src1 ds1 name →
      (strip_components_nat dest k src1 fs1).error = none →
      ∀ r, (strip_components_nat dest k src1 fs1).fs.lookup (dest ++ name :: r)
        = fs1.lookup (src1 ++ ds1 ++ name :: r))
    (info : GFileInfo) (fs : FS) (hwf : fs.WF)
    (hvalid : ∃ node, fs.lookup (src ++ [info.name]) = some node
      ∧ info.file_type = node.file_type)
    (hmoved : MovedBy fs level src ds name) (hfirst : info.name = first_segment ds name)
    (herr : (strip_components_step (strip_components_recurse dest level) dest
      ⟨src, cont, none⟩ level info fs).error = none) :
    ∀ r, (strip_components_step (strip_components_recurse dest level) dest
      ⟨src, cont, none⟩ level info fs).fs.lookup (dest ++ name :: r)
        = fs.lookup (src ++ ds ++ name :: r) := by
  obtain ⟨node, hl, hty⟩ := hvalid
  cases ds with
  | nil =>
    simp only [first_segment] at hfirst
    obtain ⟨node1, hl1, hn1⟩ := hmoved
    rw [hfirst, hl1] at hl
    cases hl
    have hstep : strip_components_step (strip_components_recurse dest level) dest
        ⟨src, cont, none⟩ level info fs
        = g_file_move (src ++ [name]) (dest ++ [name]) fs := by
      unfold strip_components_step
      have : ¬ (info.file_type = GFileType.DIRECTORY ∧ level > 0) := by
        rintro ⟨h1, h2⟩
        rw [hty] at h1
        cases node with
        | file c => cases h1
        | dir => have := hn1 rfl; omega
      simp only [this, if_false, g_file_enumerator_get_child, g_file_get_child, hfirst]
    rw [hstep] at herr ⊢
    intro r
    rcases g_file_move_cases (src ++ [name]) (dest ++ [name]) fs with
      ⟨e, he, _⟩ | ⟨he, ha, hb, _, _, hab⟩
    · rw [he] at herr; cases herr
    · rw [he]
      obtain ⟨hfree, hba⟩ := g_file_move_clean hwf ha hb
      have := FS.lookup_rename_moved hfree hab hba r
      simpa [List.append_assoc] using this
  | cons d ds1 =>
    simp only [first_segment] at hfirst
    obtain ⟨hpos, hdir, hsub⟩ := hmoved
    cases level with
    | zero => omega
    | succ k =>
      rw [hfirst, hdir] at hl
      cases hl
      have hstep : strip_components_step (strip_components_recurse dest (k + 1)) dest
          ⟨src, cont, none⟩ (k + 1) info fs
          = strip_components_nat dest k (src ++ [d]) fs := by
        unfold strip_components_step
        have : info.file_type = GFileType.DIRECTORY ∧ k + 1 > 0 := ⟨hty, by omega⟩
        simp only [this, and_self, if_true, g_file_enumerator_get_child,
          g_file_get_child, hfirst, strip_components_recurse]
      rw [hstep] at herr ⊢
      intro r
      have := hrec k rfl (src ++ [d]) fs ds1 hwf
        (fun h => hds ((List.prefix_append _ _).trans h)) hsub herr r
      simpa [List.append_assoc] using this

/-- A turn on another child keeps the remaining infos right. -/
theorem strip_components_step_valid (dest src : GFile) (cont : List GFileInfo) (level : Nat)
    (info : GFileInfo) (rest : List GFileInfo) {fs : FS} (hwf : fs.WF)
    (hnd : info.name ∉ rest.map GFileInfo.name)
    (hvalid : ∀ i ∈ rest, ∃ node, fs.lookup (src ++ [i.name]) = some node
      ∧ i.file_type = node.file_type) :
    ∀ i ∈ rest, ∃ node, (strip_components_step (strip_components_recurse dest level) dest
      ⟨src, cont, none⟩ level info fs).fs.lookup (src ++ [i.name]) = some node
      ∧ i.file_type = node.file_type := by
  intro i hi
  obtain ⟨node, hl, hty⟩ := hvalid i hi
  refine ⟨node, strip_components_step_keeps dest ⟨src, cont, none⟩ level info hwf hl ?_, hty⟩
  intro hp
  have := List.append_inj' (hp.eq_of_length (by simp)) rfl
  simp only [List.cons.injEq, and_true] at this
  exact hnd (this.2 ▸ List.mem_map_of_mem _ hi)

/-- A turn on another child keeps the entries the call moves through the
child `first_segment ds name`. -/
theorem strip_components_step_moved_by (dest src : GFile) (cont : List GFileInfo)
    (level : Nat) (info : GFileInfo) {fs : FS} (hwf : fs.WF) {ds : List String}
    {name : String} (hne : info.name ≠ first_segment ds name)
    (hmoved : MovedBy fs level src ds name) :
    MovedBy (strip_components_step (strip_components_recurse dest level) dest
      ⟨src, cont, none⟩ level info fs).fs level src ds name := by
  apply MovedBy.keeps ds level src name _ hmoved
  intro q node hpre hl
  apply strip_components_step_keeps dest ⟨src, cont, none⟩ level info hwf hl
  intro hp
  obtain ⟨t, rfl⟩ := hpre
  rw [List.append_assoc] at hp
  exact hne (child_prefix_child hp)

theorem first_segment_path (src : GFile) (ds : List String) (name : String) (r : GFile) :
    ∃ t, src ++ ds ++ name :: r = src ++ first_segment ds name :: t := by
  cases ds with
  | nil => exact ⟨r, by simp [first_segment]⟩
  | cons d ds1 => exact ⟨ds1 ++ name :: r, by simp [first_segment]⟩

/-- When the loop succeeds, every entry it was to move is in the destination
under its base name, with all that was below it. -/
theorem strip_components_loop_moved (dest src : GFile) (hds : ¬ src <+: dest)
    (level : Nat) (ds : List String) (name : String) (cont : List GFileInfo)
    (hfails : ∀ k, level = k + 1 → ∀ (src1 : GFile) (fs1 : FS) (ds1 : List String),
      fs1.WF → ¬ src1 <+: dest → fs1.lookup (dest ++ [name]) ≠ none →
      MovedBy fs1 k src1 ds1 name → (strip_components_nat dest k src1 fs1).error ≠ none)
    (hrec : ∀ k, level = k + 1 → ∀ (src1 : GFile) (fs1 : FS) (ds1 : List String),
      fs1.WF → ¬ src1 <+: dest → MovedBy fs1 k src1 ds1 name →
      (strip_components_nat dest k src1 fs1).error = none →
      ∀ r, (strip_components_nat dest k src1 fs1).fs.lookup (dest ++ name :: r)
        = fs1.lookup (src1 ++ ds1 ++ name :: r)) :
    ∀ (infos : List GFileInfo) (fs : FS), fs.WF → (infos.map GFileInfo.name).Nodup →
      (∀ info ∈ infos, ∃ node, fs.lookup (src ++ [info.name]) = some node
        ∧ info.file_type = node.file_type) →
      fs.lookup src ≠ none → MovedBy fs level src ds name →
      first_segment ds name ∈ infos.map GFileInfo.name →
      (strip_components_loop (strip_components_recurse dest level) dest ⟨src, cont, none⟩
        level infos fs).error = none →
      ∀ r, (strip_components_loop (strip_components_recurse dest level) dest
        ⟨src, cont, none⟩ level infos fs).fs.lookup (dest ++ name :: r)
          = fs.lookup (src ++ ds ++ name :: r) := by
  intro infos
  induction infos with
  | nil => intro fs _ _ _ _ _ hmem; simp at hmem
  | cons info rest ih =>
    intro fs hwf hnd hvalid hsrc hmoved hmem hok r
    have hnone : fs.lookup (dest ++ [name]) = none := by
      by_contra hq
      exact strip_components_loop_fails dest src hds level ds name cont hfails
        (info :: rest) fs hwf hnd hvalid hq hmoved hmem hok
    rw [strip_components_loop_cons] at hok ⊢
    cases herr : (strip_components_step (strip_components_recurse dest level) dest
      ⟨src, cont, none⟩ level info fs).error with
    | some e => rw [herr] at hok; simp only at hok; rw [herr] at hok; cases hok
    | none =>
      rw [herr] at hok
      simp only at hok ⊢
      simp only [List.map_cons, List.nodup_cons] at hnd
      have hwf1 := strip_components_step_wf dest ⟨src, cont, none⟩ level info hwf
      by_cases hfirst : info.name = first_segment ds name
      · have hm := strip_components_step_moved dest src hds level ds name cont hrec info fs
          hwf (hvalid info (List.mem_cons_self _ _)) hmoved hfirst herr
        rw [strip_components_loop_same dest ⟨src, cont, none⟩ level rest hwf1
          (fun i _ => not_child_prefix_below hds hwf hsrc hnone i.name r)]
        · exact hm r
        · intro n hn
          have hn' : dest ++ [n] <+: dest ++ name :: r := hn
          rw [child_prefix_child hn', hm []]
          exact MovedBy.exists ds level src name hmoved
      · have hmem' : first_segment ds name ∈ rest.map GFileInfo.name := by
          simp only [List.map_cons, List.mem_cons] at hmem
          rcases hmem with h | h
          · exact absurd h.symm hfirst
          · exact h
        rw [ih _ hwf1 hnd.2
          (strip_components_step_valid dest src cont level info rest hwf hnd.1
            (fun i hi => hvalid i (List.mem_cons_of_mem _ hi)))
          (by
            cases hs : fs.lookup src with
            | none => exact absurd hs hsrc
            | some node =>
              rw [strip_components_step_keeps dest ⟨src, cont, none⟩ level info hwf hs
                (fun hp => by have := hp.length_le; simp at this)]
              simp)
          (strip_components_step_moved_by dest src cont level info hwf hfirst hmoved)
          hmem' hok r]
        obtain ⟨t, ht⟩ := first_segment_path src ds name r
        rw [ht]
        obtain ⟨node, hl⟩ := hmoved.first_exists
        apply strip_components_step_same dest ⟨src, cont, none⟩ level info hwf
        · intro hp
          exact hfirst (child_prefix_child hp)
        · exact dest_child_above_source hds hwf (by simp [hl]) t

/-- When the call succeeds, every entry it was to move is in the destination
under its base name, with all that was below it. -/
theorem strip_components_nat_moved (dest : GFile) (name : String) :
    ∀ (level : Nat) (src : GFile) (fs : FS) (ds : List String), fs.WF → ¬ src <+: dest →
      MovedBy fs level src ds name →
      (strip_components_nat dest level src fs).error = none →
      ∀ r, (strip_components_nat dest level src fs).fs.lookup (dest ++ name :: r)
        = fs.lookup (src ++ ds ++ name :: r) := by
  intro level
  induction level using Nat.strong_induction_on with
  | _ level ih =>
    intro src fs ds hwf hds hmoved hok r
    have hnone : fs.lookup (dest ++ [name]) = none := by
      by_contra hq
      exact strip_components_nat_fails dest name level src fs ds hwf hds hq hmoved hok
    rw [strip_components_nat_eq] at hok ⊢
    by_cases hd : fs.lookup src = some Node.dir
    · rw [strip_components_body_dir _ _ _ _ _ hd] at hok ⊢
      have hsrc : fs.lookup src ≠ none := by simp [hd]
      cases he : (strip_components_loop (strip_components_recurse dest level) dest
        ⟨src, fs.children src, none⟩ level (fs.children src) fs).error with
      | some e => rw [he] at hok; simp only at hok; rw [he] at hok; cases hok
      | none =>
        simp only
        have hm := strip_components_loop_moved dest src hds level ds name (fs.children src)
          (fun k _ src1 fs1 ds1 h1 h2 h3 h4 =>
            strip_components_nat_fails dest name k src1 fs1 ds1 h1 h2 h3 h4)
          (fun k hk src1 fs1 ds1 h1 h2 h3 h4 => ih k (by omega) src1 fs1 ds1 h1 h2 h3 h4)
          (fs.children src) fs hwf (FS.children_names_nodup hwf.1 src)
          (fun info hi => FS.lookup_of_mem_children hwf hi) hsrc hmoved (by
            obtain ⟨node, hl⟩ := hmoved.first_exists
            exact List.mem_map_of_mem GFileInfo.name (FS.mem_children_of_lookup hl)) he r
        rw [g_file_delete_keeps src, hm]
        intro hq
        have hpre : dest ++ [name] <+: src := by
          rw [← hq, List.prefix_append_right_inj]; exact ⟨r, rfl⟩
        exact hwf.lookup_above hpre hsrc hnone
    · obtain ⟨e, he⟩ := strip_components_body_not_dir (strip_components_recurse dest level)
        dest src level fs hd
      rw [he] at hok; cases hok

/-! ## Two source entries with one base name -/

/-- The loop fails when its first turn reaches one of two entries with the
same base name and a later turn reaches the other. -/
theorem strip_components_loop_clash_first (dest src : GFile) (hds : ¬ src <+: dest)
    (level : Nat) (ds1 ds2 : List String) (name : String) (cont : List GFileInfo)
    (info : GFileInfo) (rest : List GFileInfo) (fs : FS) (hwf : fs.WF)
    (hnd : ((info :: rest).map GFileInfo.name).Nodup)
    (hvalid : ∀ i ∈ info :: rest, ∃ node, fs.lookup (src ++ [i.name]) = some node
      ∧ i.file_type = node.file_type)
    (h1 : MovedBy fs level src ds1 name) (h2 : MovedBy fs level src ds2 name)
    (hf1 : info.name = first_segment ds1 name) (hf2 : info.name ≠ first_segment ds2 name)
    (hm2 : first_segment ds2 name ∈ (info :: rest).map GFileInfo.name) :
    (strip_components_loop (strip_components_recurse dest level) dest ⟨src, cont, none⟩
      level (info :: rest) fs).error ≠ none := by
  rw [strip_components_loop_cons]
  cases herr : (strip_components_step (strip_components_recurse dest level) dest
    ⟨src, cont, none⟩ level info fs).error with
  | some e => simp [herr]
  | none =>
    simp only
    simp only [List.map_cons, List.nodup_cons] at hnd
    have hm := strip_components_step_moved dest src hds level ds1 name cont
      (fun k _ src1 fs1 t1 a b c d => strip_components_nat_moved dest name k src1 fs1 t1 a b c d)
      info fs hwf (hvalid info (List.mem_cons_self _ _)) h1 hf1 herr []
    apply strip_components_loop_fails dest src hds level ds2 name cont
      (fun k _ src1 fs1 t1 a b c d => strip_components_nat_fails dest name k src1 fs1 t1 a b c d)
      rest _ (strip_components_step_wf dest ⟨src, cont, none⟩ level info hwf) hnd.2
      (strip_components_step_valid dest src cont level info rest hwf hnd.1
        (fun i hi => hvalid i (List.mem_cons_of_mem _ hi)))
    · rw [hm]; exact MovedBy.exists ds1 level src name h1
    · exact strip_components_step_moved_by dest src cont level info hwf hf2 h2
    · simp only [List.map_cons, List.mem_cons] at hm2
      rcases hm2 with h | h
      · exact absurd h.symm hf2
      · exact h

/-- The loop fails when it is to move two entries with the same base name. -/
theorem strip_components_loop_clash (dest src : GFile) (hds : ¬ src <+: dest)
    (level : Nat) (ds1 ds2 : List String) (name : String) (cont : List GFileInfo)
    (hne : ds1 ≠ ds2)
    (hrec : ∀ k, level = k + 1 → ∀ (src1 : GFile) (fs1 : FS) (t1 t2 : List String),
      fs1.WF → ¬ src1 <+: dest → t1 ≠ t2 → MovedBy fs1 k src1 t1 name →
      MovedBy fs1 k src1 t2 name → (strip_components_nat dest k src1 fs1).error ≠ none) :
    ∀ (infos : List GFileInfo) (fs : FS), fs.WF → (infos.map GFileInfo.name).Nodup →
      (∀ info ∈ infos, ∃ node, fs.lookup (src ++ [info.name]) = some node
        ∧ info.file_type = node.file_type) →
      MovedBy fs level src ds1 name → MovedBy fs level src ds2 name →
      first_segment ds1 name ∈ infos.map GFileInfo.name →
      first_segment ds2 name ∈ infos.map GFileInfo.name →
      (strip_components_loop (strip_components_recurse dest level) dest ⟨src, cont, none⟩
        level infos fs).error ≠ none := by
  intro infos
  induction infos with
  | nil => intro fs _ _ _ _ _ hmem; simp at hmem
  | cons info rest ih =>
    intro fs hwf hnd hvalid h1 h2 hm1 hm2
    by_cases hf1 : info.name = first_segment ds1 name
    · by_cases hf2 : info.name = first_segment ds2 name
      · -- both entries are reached through this child
        rw [strip_components_loop_cons]
        cases herr : (strip_components_step (strip_components_recurse dest level) dest
          ⟨src, cont, none⟩ level info fs).error with
        | some e => simp [herr]
        | none =>
          exfalso
          obtain ⟨node, hl, hty⟩ := hvalid info (List.mem_cons_self _ _)
          cases ds1 with
          | nil =>
            cases ds2 with
            | nil => exact hne rfl
            | cons d t2 =>
              simp only [first_segment] at hf1 hf2
              obtain ⟨node1, hl1, hn1⟩ := h1
              obtain ⟨hpos, hdir, _⟩ := h2
              rw [← hf2, hf1, hl1] at hdir
              cases hdir
              have := hn1 rfl
              omega
          | cons d t1 =>
            cases ds2 with
            | nil =>
              simp only [first_segment] at hf1 hf2
              obtain ⟨node2, hl2, hn2⟩ := h2
              obtain ⟨hpos, hdir, _⟩ := h1
              rw [← hf1, hf2, hl2] at hdir
              cases hdir
              have := hn2 rfl
              omega
            | cons d2 t2 =>
              simp only [first_segment] at hf1 hf2
              have hd : d2 = d := by rw [← hf1, ← hf2]
              subst hd
              obtain ⟨hpos, hdir, hsub1⟩ := h1
              obtain ⟨_, _, hsub2⟩ := h2
              cases level with
              | zero => omega
              | succ k =>
                rw [hf1, hdir] at hl
                cases hl
                have hstep : strip_components_step (strip_components_recurse dest (k + 1))
                    dest ⟨src, cont, none⟩ (k + 1) info fs
                    = strip_components_nat dest k (src ++ [d2]) fs := by
                  unfold strip_components_step
                  have : info.file_type = GFileType.DIRECTORY ∧ k + 1 > 0 := ⟨hty, by omega⟩
                  simp only [this, and_self, if_true, g_file_enumerator_get_child,
                    g_file_get_child, hf1, strip_components_recurse]
                rw [hstep] at herr
                exact hrec k rfl (src ++ [d2]) fs t1 t2 hwf
                  (fun h => hds ((List.prefix_append _ _).trans h))
                  (fun h => hne (by rw [h])) hsub1 hsub2 herr
      · exact strip_components_loop_clash_first dest src hds level ds1 ds2 name cont info rest
          fs hwf hnd hvalid h1 h2 hf1 hf2 hm2
    · by_cases hf2 : info.name = first_segment ds2 name
      · exact strip_components_loop_clash_first dest src hds level ds2 ds1 name cont info rest
          fs hwf hnd hvalid h2 h1 hf2 hf1 hm1
      · rw [strip_components_loop_cons]
        cases herr : (strip_components_step (strip_components_recurse dest level) dest
          ⟨src, cont, none⟩ level info fs).error with
        | some e => simp [herr]
        | none =>
          simp only
          simp only [List.map_cons, List.nodup_cons] at hnd
          apply ih _ (strip_components_step_wf dest ⟨src, cont, none⟩ level info hwf) hnd.2
            (strip_components_step_valid dest src cont level info rest hwf hnd.1
              (fun i hi => hvalid i (List.mem_cons_of_mem _ hi)))
            (strip_components_step_moved_by dest src cont level info hwf hf1 h1)
            (strip_components_step_moved_by dest src cont level info hwf hf2 h2)
          · simp only [List.map_cons, List.mem_cons] at hm1
            rcases hm1 with h | h
            · exact absurd h.symm hf1
            · exact h
          · simp only [List.map_cons, List.mem_cons] at hm2
            rcases hm2 with h | h
            · exact absurd h.symm hf2
            · exact h

/-- The call fails when it is to move two entries with the same base name. -/
theorem strip_components_nat_clash (dest : GFile) (name : String) :
    ∀ (level : Nat) (src : GFile) (fs : FS) (ds1 ds2 : List String), fs.WF →
      ¬ src <+: dest → ds1 ≠ ds2 → MovedBy fs level src ds1 name →
      MovedBy fs level src ds2 name →
      (strip_components_nat dest level src fs).error ≠ none := by
  intro level
  induction level using Nat.strong_induction_on with
  | _ level ih =>
    intro src fs ds1 ds2 hwf hds hne h1 h2
    rw [strip_components_nat_eq]
    by_cases hd : fs.lookup src = some Node.dir
    · rw [strip_components_body_dir _ _ _ _ _ hd]
      have hfail := strip_components_loop_clash dest src hds level ds1 ds2 name
        (fs.children src) hne
        (fun k hk src1 fs1 t1 t2 a b c d e => ih k (by omega) src1 fs1 t1 t2 a b c d e)
        (fs.children src) fs hwf (FS.children_names_nodup hwf.1 src)
        (fun info hi => FS.lookup_of_mem_children hwf hi) h1 h2
        (by
          obtain ⟨node, hl⟩ := h1.first_exists
          exact List.mem_map_of_mem GFileInfo.name (FS.mem_children_of_lookup hl))
        (by
          obtain ⟨node, hl⟩ := h2.first_exists
          exact List.mem_map_of_mem GFileInfo.name (FS.mem_children_of_lookup hl))
      cases he : (strip_components_loop (strip_components_recurse dest level) dest
        ⟨src, fs.children src, none⟩ level (fs.children src) fs).error with
      | none => exact absurd he hfail
      | some e => simp [he]
    · obtain ⟨e, he⟩ := strip_components_body_not_dir (strip_components_recurse dest level)
        dest src level fs hd
      rw [he]; simp

/-! ## Where an entry of the destination comes from -/

/-- A successful call leaves nothing at `src`. -/
theorem strip_components_nat_gone (dest : GFile) (level : Nat) (src : GFile) (fs : FS)
    (hok : (strip_components_nat dest level src fs).error = none) :
    fs.lookup src = some Node.dir
      ∧ (strip_components_nat dest level src fs).fs.lookup src = none := by
  rw [strip_components_nat_eq] at hok ⊢
  by_cases hd : fs.lookup src = some Node.dir
  · refine ⟨hd, ?_⟩
    rw [strip_components_body_dir _ _ _ _ _ hd] at hok ⊢
    cases he : (strip_components_loop (strip_components_recurse dest level) dest
      ⟨src, fs.children src, none⟩ level (fs.children src) fs).error with
    | some e => rw [he] at hok; simp only at hok; rw [he] at hok; cases hok
    | none =>
      rw [he] at hok
      simp only at hok ⊢
      exact (g_file_delete_gone src _ hok).2
  · obtain ⟨e, he⟩ := strip_components_body_not_dir (strip_components_recurse dest level)
      dest src level fs hd
    rw [he] at hok; cases hok

/-- A successful turn leaves nothing at the child it worked on. -/
theorem strip_components_step_gone (dest src : GFile) (cont : List GFileInfo) (level : Nat)
    (info : GFileInfo) {fs : FS} (hwf : fs.WF)
    (herr : (strip_components_step (strip_components_recurse dest level) dest
      ⟨src, cont, none⟩ level info fs).error = none) :
    (strip_components_step (strip_components_recurse dest level) dest
      ⟨src, cont, none⟩ level info fs).fs.lookup (src ++ [info.name]) = none := by
  unfold strip_components_step at herr ⊢
  split at herr
  · rename_i h
    simp only [h, and_self, if_true]
    cases level with
    | zero => exact absurd h.2 (by omega)
    | succ k => exact (strip_components_nat_gone dest k _ fs herr).2
  · rename_i h
    simp only [h, if_false]
    simp only [g_file_enumerator_get_child, g_file_get_child] at herr ⊢
    rcases g_file_move_cases (src ++ [info.name]) (dest ++ [info.name]) fs with
      ⟨e, he, _⟩ | ⟨he, ha, hb, _, _, hab⟩
    · rw [he] at herr; cases herr
    · rw [he]
      exact FS.lookup_rename_gone hab (g_file_move_clean hwf ha hb).2 (List.prefix_refl _)

/-- A name of the destination above a child of the existing source exists. -/
theorem dest_child_above_child {dest src : GFile} (hds : ¬ src <+: dest) {fs : FS}
    (hwf : fs.WF) (hsrc : fs.lookup src ≠ none) (y : String) :
    ∀ n, dest ++ [n] <+: src ++ [y] → fs.lookup (dest ++ [n]) ≠ none := by
  intro n hn
  rcases List.prefix_concat_iff.mp hn with h | h
  · have := List.append_inj' h rfl
    exact absurd (this.1 ▸ List.prefix_refl _) hds
  · exact hwf.lookup_above h hsrc

/-- Whatever the loop leaves at a name of the destination that was free is
one of the entries it was to move, with all that was below it. -/
theorem strip_components_loop_origin (dest src : GFile) (hds : ¬ src <+: dest)
    (level : Nat) (name : String) (cont : List GFileInfo)
    (hrec : ∀ k, level = k + 1 → ∀ (src1 : GFile) (fs1 : FS),
      fs1.WF → ¬ src1 <+: dest → fs1.lookup (dest ++ [name]) = none →
      ∀ node, (strip_components_nat dest k src1 fs1).fs.lookup (dest ++ [name]) = some node →
      ∃ ds, MovedBy fs1 k src1 ds name
        ∧ ∀ r, (strip_components_nat dest k src1 fs1).fs.lookup (dest ++ name :: r)
          = fs1.lookup (src1 ++ ds ++ name :: r)) :
    ∀ (infos : List GFileInfo) (fs : FS), fs.WF → (infos.map GFileInfo.name).Nodup →
      (∀ info ∈ infos, ∃ node, fs.lookup (src ++ [info.name]) = some node
        ∧ info.file_type = node.file_type) →
      fs.lookup src ≠ none → fs.lookup (dest ++ [name]) = none →
      ∀ node, (strip_components_loop (strip_components_recurse dest level) dest
        ⟨src, cont, none⟩ level infos fs).fs.lookup (dest ++ [name]) = some node →
      ∃ ds, MovedBy fs level src ds name
        ∧ ∀ r, (strip_components_loop (strip_components_recurse dest level) dest
          ⟨src, cont, none⟩ level infos fs).fs.lookup (dest ++ name :: r)
            = fs.lookup (src ++ ds ++ name :: r) := by
  intro infos
  induction infos with
  | nil =>
    intro fs _ _ _ _ hnone node h
    simp only [strip_components_loop] at h
    rw [hnone] at h; cases h
  | cons info rest ih =>
    intro fs hwf hnd hvalid hsrc hnone node hres
    simp only [List.map_cons, List.nodup_cons] at hnd
    have hwf1 := strip_components_step_wf dest ⟨src, cont, none⟩ level info hwf
    obtain ⟨node0, hl0, hty0⟩ := hvalid info (List.mem_cons_self _ _)
    cases hcur : (strip_components_step (strip_components_recurse dest level) dest
      ⟨src, cont, none⟩ level info fs).fs.lookup (dest ++ [name]) with
    | none =>
      -- this turn put nothing at the name
      rw [strip_components_loop_cons] at hres ⊢
      cases herr : (strip_components_step (strip_components_recurse dest level) dest
        ⟨src, cont, none⟩ level info fs).error with
      | some e =>
        rw [herr] at hres; simp only at hres
        rw [hcur] at hres; cases hres
      | none =>
        rw [herr] at hres
        simp only at hres ⊢
        have hsrc1 : (strip_components_step (strip_components_recurse dest level) dest
            ⟨src, cont, none⟩ level info fs).fs.lookup src ≠ none := by
          cases hs : fs.lookup src with
          | none => exact absurd hs hsrc
          | some n0 =>
            rw [strip_components_step_keeps dest ⟨src, cont, none⟩ level info hwf hs
              (fun hp => by have := hp.length_le; simp at this)]
            simp
        obtain ⟨ds, hm, hlook⟩ := ih _ hwf1 hnd.2
          (strip_components_step_valid dest src cont level info rest hwf hnd.1
            (fun i hi => hvalid i (List.mem_cons_of_mem _ hi))) hsrc1 hcur node hres
        have hgone := strip_components_step_gone dest src cont level info hwf herr
        have hy : info.name ≠ first_segment ds name := by
          intro h
          obtain ⟨n1, hl1⟩ := hm.first_exists
          rw [← h, hgone] at hl1; cases hl1
        have hsame : ∀ t, (strip_components_step (strip_components_recurse dest level)
            dest ⟨src, cont, none⟩ level info fs).fs.lookup
              (src ++ first_segment ds name :: t) = fs.lookup (src ++ first_segment ds name :: t) := by
          have h0 : (strip_components_step (strip_components_recurse dest level)
              dest ⟨src, cont, none⟩ level info fs).fs.lookup
                (src ++ [first_segment ds name]) = fs.lookup (src ++ [first_segment ds name]) :=
            strip_components_step_same dest ⟨src, cont, none⟩ level info hwf
              (fun hp => hy (child_prefix_child hp))
              (dest_child_above_child hds hwf hsrc _)
          have hex : fs.lookup (src ++ [first_segment ds name]) ≠ none := by
            obtain ⟨n1, hl1⟩ := hm.first_exists
            rw [← h0, hl1]; simp
          intro t
          exact strip_components_step_same dest ⟨src, cont, none⟩ level info hwf
            (fun hp => hy (child_prefix_child hp))
            (dest_child_above_source hds hwf hex t)
        refine ⟨ds, MovedBy.keeps ds level src name ?_ hm, ?_⟩
        · intro q n1 hpre hl
          obtain ⟨t, rfl⟩ := hpre
          have e : src ++ [first_segment ds name] ++ t = src ++ first_segment ds name :: t := by
            simp
          rw [e] at hl ⊢
          rw [← hsame t]; exact hl
        · intro r
          rw [hlook r]
          obtain ⟨t, ht⟩ := first_segment_path src ds name r
          rw [ht]; exact hsame t
    | some node1 =>
      -- this turn put the entry at the name; the later turns leave it alone
      have hfinal : ∀ r, (strip_components_loop (strip_components_recurse dest level) dest
          ⟨src, cont, none⟩ level (info :: rest) fs).fs.lookup (dest ++ name :: r)
          = (strip_components_step (strip_components_recurse dest level) dest
            ⟨src, cont, none⟩ level info fs).fs.lookup (dest ++ name :: r) := by
        intro r
        rw [strip_components_loop_cons]
        cases herr : (strip_components_step (strip_components_recurse dest level) dest
          ⟨src, cont, none⟩ level info fs).error with
        | some e => rfl
        | none =>
          simp only
          apply strip_components_loop_same dest ⟨src, cont, none⟩ level rest hwf1
            (fun i _ => not_child_prefix_below hds hwf hsrc hnone i.name r)
          intro n hn
          have hn' : dest ++ [n] <+: dest ++ name :: r := hn
          rw [child_prefix_child hn', hcur]; simp
      by_cases hbr : info.file_type = GFileType.DIRECTORY ∧ level > 0
      · -- the turn was a recursive call
        cases level with
        | zero => exact absurd hbr.2 (by omega)
        | succ k =>
          have hstep : strip_components_step (strip_components_recurse dest (k + 1)) dest
              ⟨src, cont, none⟩ (k + 1) info fs
              = strip_components_nat dest k (src ++ [info.name]) fs := by
            unfold strip_components_step
            simp only [hbr, and_self, if_true, g_file_enumerator_get_child,
              g_file_get_child, strip_components_recurse]
          rw [hstep] at hcur
          obtain ⟨ds1, hm1, hlook1⟩ := hrec k rfl (src ++ [info.name]) fs hwf
            (fun h => hds ((List.prefix_append _ _).trans h)) hnone node1 hcur
          have hdir : fs.lookup (src ++ [info.name]) = some Node.dir := by
            rw [hl0]
            cases node0 with
            | dir => rfl
            | file c => rw [hty0] at hbr; exact absurd hbr.1 (by simp [Node.file_type])
          refine ⟨info.name :: ds1, ⟨by omega, hdir, hm1⟩, ?_⟩
          intro r
          rw [hfinal r, hstep, hlook1 r]
          simp [List.append_assoc]
      · -- the turn was a move
        have hstep : strip_components_step (strip_components_recurse dest level) dest
            ⟨src, cont, none⟩ level info fs
            = g_file_move (src ++ [info.name]) (dest ++ [info.name]) fs := by
          unfold strip_components_step
          simp only [hbr, if_false, g_file_enumerator_get_child, g_file_get_child]
        rw [hstep] at hcur
        have hname : info.name = name := by
          by_contra hne
          rw [g_file_move_same _ _ hwf (not_child_prefix_dest hds _ _)
            (fun _ hp => hne (child_prefix_child hp)), hnone] at hcur
          cases hcur
        rcases g_file_move_cases (src ++ [info.name]) (dest ++ [info.name]) fs with
          ⟨e, he, _⟩ | ⟨he, ha, hb, _, _, hab⟩
        · rw [he] at hcur; simp only at hcur
          rw [hnone] at hcur; cases hcur
        · refine ⟨[], ⟨node0, by rw [← hname]; exact hl0, ?_⟩, ?_⟩
          · intro hd
            by_contra hlv
            apply hbr
            refine ⟨by rw [hty0, hd]; rfl, by omega⟩
          · intro r
            rw [hfinal r, hstep, he]
            obtain ⟨hfree, hba⟩ := g_file_move_clean hwf ha hb
            have := FS.lookup_rename_moved hfree hab hba r
            simpa [List.append_assoc, hname] using this

/-- Whatever the call leaves at a name of the destination that was free is
one of the entries it was to move, with all that was below it. -/
theorem strip_components_nat_origin (dest : GFile) (name : String) :
    ∀ (level : Nat) (src : GFile) (fs : FS), fs.WF → ¬ src <+: dest →
      fs.lookup (dest ++ [name]) = none →
      ∀ node, (strip_components_nat dest level src fs).fs.lookup (dest ++ [name]) = some node →
      ∃ ds, MovedBy fs level src ds name
        ∧ ∀ r, (strip_components_nat dest level src fs).fs.lookup (dest ++ name :: r)
          = fs.lookup (src ++ ds ++ name :: r) := by
  intro level
  induction level using Nat.strong_induction_on with
  | _ level ih =>
    intro src fs hwf hds hnone node hres
    rw [strip_components_nat_eq] at hres ⊢
    by_cases hd : fs.lookup src = some Node.dir
    · have hsrc : fs.lookup src ≠ none := by simp [hd]
      rw [strip_components_body_dir _ _ _ _ _ hd] at hres ⊢
      have horigin := strip_components_loop_origin dest src hds level name (fs.children src)
        (fun k hk src1 fs1 a b c n1 d => ih k (by omega) src1 fs1 a b c n1 d)
        (fs.children src) fs hwf (FS.children_names_nodup hwf.1 src)
        (fun info hi => FS.lookup_of_mem_children hwf hi) hsrc hnone
      cases he : (strip_components_loop (strip_components_recurse dest level) dest
        ⟨src, fs.children src, none⟩ level (fs.children src) fs).error with
      | some e =>
        rw [he] at hres
        simp only at hres ⊢
        exact horigin node hres
      | none =>
        rw [he] at hres
        simp only at hres ⊢
        have hne : ∀ r, dest ++ name :: r ≠ src := by
          intro r hq
          have hpre : dest ++ [name] <+: src := by
            rw [← hq, List.prefix_append_right_inj]; exact ⟨r, rfl⟩
          exact hwf.lookup_above hpre hsrc hnone
        rw [g_file_delete_keeps src (hne [])] at hres
        obtain ⟨ds, hm, hlook⟩ := horigin node hres
        refine ⟨ds, hm, fun r => ?_⟩
        rw [g_file_delete_keeps src (hne r)]
        exact hlook r
    · obtain ⟨e, he⟩ := strip_components_body_not_dir (strip_components_recurse dest level)
        dest src level fs hd
      rw [he] at hres; simp only at hres
      rw [hnone] at hres; cases hres

/-! ## The flattener: the stated properties -/

/-- C8, as the code has it: a call with level 0 (or any level that is not
positive) is not a no-op. Whenever it reports success the source directory
existed and has been deleted, so the tree has changed, and every former
child of the source, directory or not, is in the destination under its base
name with all that was below it. -/
theorem strip_components_into_level_zero (dest src : GFile) (level : Int) (fs : FS)
    (hlevel : level ≤ 0)
    (hok : (strip_components_into dest src level fs).error = none) :
    fs.lookup src = some Node.dir
      ∧ (strip_components_into dest src level fs).fs.lookup src = none
      ∧ (strip_components_into dest src level fs).fs ≠ fs
      ∧ (fs.WF → ¬ src <+: dest → ∀ name, fs.lookup (src ++ [name]) ≠ none →
          ∀ r, (strip_components_into dest src level fs).fs.lookup (dest ++ name :: r)
            = fs.lookup (src ++ name :: r)) := by
  have h0 : level.toNat = 0 := by omega
  unfold strip_components_into at hok ⊢
  rw [h0] at hok ⊢
  obtain ⟨hdir, hgone⟩ := strip_components_nat_gone dest 0 src fs hok
  refine ⟨hdir, hgone, ?_, ?_⟩
  · intro h
    rw [h, hdir] at hgone
    cases hgone
  · intro hwf hds name hex r
    cases hl : fs.lookup (src ++ [name]) with
    | none => exact absurd hl hex
    | some node =>
      have := strip_components_nat_moved dest name 0 src fs [] hwf hds
        ⟨node, hl, fun _ => rfl⟩ hok r
      simpa using this

theorem strip_components_into_level_zero_witness :
    (strip_components_into ["dest"] ["src"] 0 (fs_example [97] [98])).fs.lookup ["src"] = none
      ∧ (strip_components_into ["dest"] ["src"] 0 (fs_example [97] [98])).fs.lookup
          ["dest", "sub", "b.txt"] = some (Node.file [98]) :=
  let h := strip_components_into_level_zero ["dest"] ["src"] 0 (fs_example [97] [98])
    (by decide) (by decide)
  ⟨h.2.1, h.2.2.2 (by decide) (by decide) "sub" (by decide) ["b.txt"]⟩

/-- C8, as stated, fails: with level 0 on `/src/{a.txt, sub/{b.txt}}` the
call succeeds, moves `a.txt` and `sub` into `/dest` and deletes `/src`. -/
theorem strip_components_into_level_zero_not_noop :
    strip_components_into ["dest"] ["src"] 0 (fs_example [97] [98])
        = ⟨[([], Node.dir), (["dest"], Node.dir), (["dest", "a.txt"], Node.file [97]),
            (["dest", "sub"], Node.dir), (["dest", "sub", "b.txt"], Node.file [98])], none⟩
      ∧ (strip_components_into ["dest"] ["src"] 0 (fs_example [97] [98])).fs
        ≠ fs_example [97] [98] := by
  decide

/-- C9, as the code has it: with level 1 on `/src/{a.txt, sub/{b.txt}}` and
an empty `/dest` the call succeeds and leaves `a.txt` and `b.txt` directly in
`/dest`: `sub` is entered by the recursive call and deleted, not moved, and
`/src` no longer exists. -/
theorem strip_components_into_level_one_example (ca cb : GBytes) :
    strip_components_into ["dest"] ["src"] 1 (fs_example ca cb)
      = ⟨[([], Node.dir), (["dest"], Node.dir), (["dest", "a.txt"], Node.file ca),
          (["dest", "b.txt"], Node.file cb)], none⟩ := by
  rfl

/-- C9, as stated, fails: after the call with level 1 there is no
`/dest/sub`, and `b.txt` lies directly in `/dest`. -/
theorem strip_components_into_level_one_dissolves :
    ¬ ((strip_components_into ["dest"] ["src"] 1 (fs_example [97] [98])).error = none
      ∧ (strip_components_into ["dest"] ["src"] 1 (fs_example [97] [98])).fs.lookup
          ["dest", "a.txt"] = some (Node.file [97])
      ∧ (strip_components_into ["dest"] ["src"] 1 (fs_example [97] [98])).fs.lookup
          ["dest", "sub"] = some Node.dir
      ∧ (strip_components_into ["dest"] ["src"] 1 (fs_example [97] [98])).fs.lookup
          ["dest", "sub", "b.txt"] = some (Node.file [98])
      ∧ (strip_components_into ["dest"] ["src"] 1 (fs_example [97] [98])).fs.lookup
          ["src"] = none) := by
  decide

/-- C10: on a well-formed file system, with the destination not inside the
source, a call that is to move an entry `name` fails when the destination
already has an entry `name` and also when it is to move a second entry
`name` from another directory. What the destination held at `name` before is
unchanged, at the entry and below it; a name that was free holds at the end,
if anything, one of the source entries of that name exactly as it was in the
source. -/
theorem strip_components_into_no_overwrite (dest src : GFile) (level : Int) (fs : FS)
    (name : String) (ds1 ds2 : List String) (hwf : fs.WF) (hds : ¬ src <+: dest)
    (h1 : MovedBy fs level.toNat src ds1 name)
    (hclash : fs.lookup (dest ++ [name]) ≠ none
      ∨ (ds2 ≠ ds1 ∧ MovedBy fs level.toNat src ds2 name)) :
    (strip_components_into dest src level fs).error ≠ none
      ∧ (fs.lookup (dest ++ [name]) ≠ none → ∀ r, ¬ src <+: dest ++ name :: r →
          (strip_components_into dest src level fs).fs.lookup (dest ++ name :: r)
            = fs.lookup (dest ++ name :: r))
      ∧ (fs.lookup (dest ++ [name]) = none → ∀ node,
          (strip_components_into dest src level fs).fs.lookup (dest ++ [name]) = some node →
          ∃ ds, MovedBy fs level.toNat src ds name
            ∧ ∀ r, (strip_components_into dest src level fs).fs.lookup (dest ++ name :: r)
              = fs.lookup (src ++ ds ++ name :: r)) := by
  unfold strip_components_into
  refine ⟨?_, ?_, ?_⟩
  · rcases hclash with h | ⟨hne, h2⟩
    · exact strip_components_nat_fails dest name _ src fs ds1 hwf hds h h1
    · exact strip_components_nat_clash dest name _ src fs ds2 ds1 hwf hds hne h2 h1
  · intro hex r hout
    apply strip_components_nat_same dest _ src hwf hout
    intro n hn
    have hn' : dest ++ [n] <+: dest ++ name :: r := hn
    rw [child_prefix_child hn']
    exact hex
  · intro hnone node hres
    exact strip_components_nat_origin dest name _ src fs hwf hds hnone node hres

theorem strip_components_into_no_overwrite_witness :
    ((strip_components_into ["dest"] ["src"] 1 fs_taken).error ≠ none
        ∧ (strip_components_into ["dest"] ["src"] 1 fs_taken).fs.lookup ["dest", "a.txt"]
          = some (Node.file [1]))
      ∧ (strip_components_into ["dest"] ["src"] 1 fs_twins).error ≠ none :=
  let h := strip_components_into_no_overwrite ["dest"] ["src"] 1 fs_taken "a.txt" [] []
    (by decide) (by decide) ⟨Node.file [2], by decide, fun h => by cases h⟩
    (Or.inl (by decide))
  ⟨⟨h.1, h.2.1 (by decide) [] (by decide)⟩,
    (strip_components_into_no_overwrite ["dest"] ["src"] 1 fs_twins "f" ["x"] ["y"]
      (by decide) (by decide)
      ⟨by decide, by decide, Node.file [1], by decide, fun h => by cases h⟩
      (Or.inr ⟨by decide, by decide, by decide, Node.file [2], by decide,
        fun h => by cases h⟩)).1⟩

/-! ## The command runner -/

/-- The wait of `archive_spawnv` ends for every child, with both results
stored: the loop is quit by the last completion, whichever comes first. -/
theorem g_main_loop_run_completions (c : Child) (capture : Bool) :
    g_main_loop_run (c.completions capture)
        (if capture then ⟨none, none, ⟨0⟩, 1 + 1⟩ else ⟨none, none, ⟨0⟩, 1⟩)
      = some ⟨c.wait_error, if capture then c.splice_error else none, ⟨1⟩, 0⟩ := by
  cases capture with
  | false => rfl
  | true =>
    cases hf : c.splice_first with
    | false =>
      simp only [Child.completions, hf, if_true]
      rfl
    | true =>
      simp only [Child.completions, hf, if_true]
      rfl

/-- The result of `archive_spawnv` for a child that was started. -/
theorem archive_spawnv_started (h : Host) (dir : Option GFile) (capture : Bool)
    (argv : List String) (fs : FS) (c : Child)
    (hspawn : h.spawn dir argv capture fs = Except.ok c) :
    archive_spawnv h dir capture argv fs = some
      (match c.wait_error with
        | some e => ⟨c.fs, some e, none, [Event.spawn dir argv], archive_spawnv_calls capture⟩
        | none =>
          if capture then
            match c.splice_error with
            | some e =>
              ⟨c.fs, some e, none, [Event.spawn dir argv], archive_spawnv_calls capture⟩
            | none =>
              ⟨c.fs, none, some (c.stdout ++ [0]), [Event.spawn dir argv],
                archive_spawnv_calls capture⟩
          else ⟨c.fs, none, none, [Event.spawn dir argv], archive_spawnv_calls capture⟩) := by
  unfold archive_spawnv
  simp only [hspawn]
  have hrun := g_main_loop_run_completions c capture
  cases capture with
  | false =>
    simp only [Bool.false_eq_true, if_false] at hrun ⊢
    rw [hrun]
    cases c.wait_error <;> rfl
  | true =>
    simp only [if_true] at hrun ⊢
    rw [hrun]
    cases c.wait_error with
    | some e => rfl
    | none => cases c.splice_error <;> rfl

/-- The call `archive_spawnv` always comes back, and it asks for exactly
one process. -/
theorem archive_spawnv_returns (h : Host) (dir : Option GFile) (capture : Bool)
    (argv : List String) (fs : FS) :
    ∃ r, archive_spawnv h dir capture argv fs = some r ∧ r.log = [Event.spawn dir argv] := by
  cases hs : h.spawn dir argv capture fs with
  | error e =>
    exact ⟨⟨fs, some e, none, [Event.spawn dir argv], [SpawnCall.launcher_spawnv]⟩,
      by simp [archive_spawnv, hs], rfl⟩
  | ok c =>
    refine ⟨_, archive_spawnv_started h dir capture argv fs c hs, ?_⟩
    cases c.wait_error with
    | some e => rfl
    | none =>
      cases capture with
      | false => rfl
      | true => cases c.splice_error <;> rfl

/-- C20: once the process was started, `archive_spawnv` comes back and its
result goes by priority: the process-level error if there is one (a splice
error is dropped and no output is set); otherwise, when output is captured,
the splice error if there is one; otherwise success, the output being the
captured bytes followed by one NUL byte when output is captured. -/
theorem archive_spawnv_priority (h : Host) (dir : Option GFile) (capture : Bool)
    (argv : List String) (fs : FS) (c : Child)
    (hspawn : h.spawn dir argv capture fs = Except.ok c) :
    ∃ r, archive_spawnv h dir capture argv fs = some r
      ∧ (∀ e, c.wait_error = some e → r.error = some e ∧ r.output = none)
      ∧ (∀ e, c.wait_error = none → capture = true → c.splice_error = some e →
          r.error = some e ∧ r.output = none)
      ∧ (c.wait_error = none → capture = true → c.splice_error = none →
          r.error = none ∧ r.output = some (c.stdout ++ [0]))
      ∧ (c.wait_error = none → capture = false → r.error = none ∧ r.output = none) := by
  refine ⟨_, archive_spawnv_started h dir capture argv fs c hspawn, ?_, ?_, ?_, ?_⟩
  · intro e he
    simp [he]
  · intro e hw hc hs
    simp [hw, hc, hs]
  · intro hw hc hs
    simp [hw, hc, hs]
  · intro hw hc
    simp [hw, hc]

theorem archive_spawnv_priority_witness :
    ∃ r, archive_spawnv host_both_errors none true ["ls"] fs_module = some r
      ∧ r.error = some ⟨GIOErrorEnum.FAILED, "Child process exited with code 1"⟩
      ∧ r.output = none :=
  match archive_spawnv_priority host_both_errors none true ["ls"] fs_module
    child_both_errors rfl with
  | ⟨r, hr, h1, _⟩ => ⟨r, hr, h1 _ rfl⟩

/-! ## The flattener deletes its source -/

/-- C11: whenever `strip_components_into` reports success, at any level, the
source directory existed and is gone, and on a well-formed file system
nothing at all is left of the source tree, so no directory the call
recursed into exists any more. When the loop over the children succeeded,
the call is the final `g_file_delete` of the source: a failure of that
deletion is the failure of the call. -/
theorem strip_components_into_source_gone (dest src : GFile) (level : Int) (fs : FS) :
    ((strip_components_into dest src level fs).error = none →
        fs.lookup src = some Node.dir
          ∧ (strip_components_into dest src level fs).fs.lookup src = none
          ∧ (fs.WF → ∀ q, src <+: q →
              (strip_components_into dest src level fs).fs.lookup q = none))
      ∧ (fs.lookup src = some Node.dir →
          (strip_components_loop (strip_components_recurse dest level.toNat) dest
            ⟨src, fs.children src, none⟩ level.toNat (fs.children src) fs).error = none →
          strip_components_into dest src level fs
            = g_file_delete src (strip_components_loop
                (strip_components_recurse dest level.toNat) dest
                ⟨src, fs.children src, none⟩ level.toNat (fs.children src) fs).fs) := by
  unfold strip_components_into
  constructor
  · intro hok
    obtain ⟨hdir, hgone⟩ := strip_components_nat_gone dest level.toNat src fs hok
    refine ⟨hdir, hgone, ?_⟩
    intro hwf q hq
    have hwf1 := strip_components_nat_wf dest level.toNat src hwf
    cases hl : (strip_components_nat dest level.toNat src fs).fs.lookup q with
    | none => rfl
    | some node => exact absurd hq (hwf1.free_of_lookup hgone hl)
  · intro hdir hloop
    rw [strip_components_nat_eq, strip_components_body_dir _ _ _ _ _ hdir, hloop]

/-! ## Extraction, type by type -/

/-- The argument vector `archive_spawn` builds: `argv0` and the variable
arguments in front of the first `NULL`. -/
theorem archive_spawn_until_null (h : Host) (dir : Option GFile) (capture : Bool)
    (argv0 : String) (args : List String) (rest : List (Option String)) (fs : FS) :
    archive_spawn h dir capture argv0 (args.map some ++ none :: rest) fs
      = archive_spawnv h dir capture (argv0 :: args) fs := by
  unfold archive_spawn
  congr 2
  induction args with
  | nil => simp [List.takeWhile]
  | cons a tl ih =>
    simp only [List.map_cons, List.cons_append, List.takeWhile_cons, Option.isSome_some,
      if_true, List.filterMap_cons, id_eq, List.cons.injEq, true_and]
    exact ih

theorem archive_spawn_argv (h : Host) (dir : Option GFile) (capture : Bool) (argv0 : String)
    (args : List String) (last : Option String) (fs : FS) :
    archive_spawn h dir capture argv0 (args.map some ++ [last, none]) fs
      = archive_spawnv h dir capture (argv0 :: args ++ last.toList) fs := by
  cases last with
  | none =>
    simpa using archive_spawn_until_null h dir capture argv0 args [none] fs
  | some f =>
    have := archive_spawn_until_null h dir capture argv0 (args ++ [f]) [] fs
    simpa using this

/-- The run of `extract_archive` on an archive of the tar family. -/
theorem extract_archive_tar_run (h : Host) (destination archive_file : GFile)
    (strip_components : Int) (fs : FS) (htar : is_tar (get_type archive_file) = true) :
    ∃ r, archive_spawnv h (some destination) false
          (["tar", "xf", g_file_get_path archive_file, "--no-same-owner",
              "--strip-components=" ++ printf_u strip_components]
            ++ (tar_decompress_flag (get_type archive_file)).toList) fs = some r
      ∧ extract_archive h destination archive_file strip_components fs
        = some ⟨r.fs, r.error, [Event.spawn (some destination)
            (["tar", "xf", g_file_get_path archive_file, "--no-same-owner",
                "--strip-components=" ++ printf_u strip_components]
              ++ (tar_decompress_flag (get_type archive_file)).toList)]⟩
      ∧ (0 ≤ strip_components → strip_components < 4294967296 →
          printf_u strip_components = toString strip_components.toNat) := by
  obtain ⟨r, hr, hlog⟩ := archive_spawnv_returns h (some destination) false
    (["tar", "xf", g_file_get_path archive_file, "--no-same-owner",
        "--strip-components=" ++ printf_u strip_components]
      ++ (tar_decompress_flag (get_type archive_file)).toList) fs
  refine ⟨r, hr, ?_, ?_⟩
  · have hsp := archive_spawn_argv h (some destination) false "tar"
      ["xf", g_file_get_path archive_file, "--no-same-owner",
        "--strip-components=" ++ printf_u strip_components]
      (tar_decompress_flag (get_type archive_file)) fs
    simp only [List.map_cons, List.map_nil, List.cons_append, List.nil_append] at hsp hr
    simp only [List.cons_append, List.nil_append] at hlog
    simp only [extract_archive, htar, if_true, tar, hsp, hr, List.cons_append,
      List.nil_append, hlog]
  · intro h0 h1
    unfold printf_u
    rw [Int.emod_eq_of_lt h0 h1]

/-- C12: for an archive of the tar family `extract_archive` is one run of
`tar` in the destination with the arguments `xf`, the archive path,
`--no-same-owner`, `--strip-components=` followed by the level as `%u`
prints it, and the decompression flag when the type has one. It comes back,
its outcome is that of the command, and the command is its only event: no
temporary directory, no call of `strip_components_into`. -/
theorem extract_archive_tar (h : Host) (destination archive_file : GFile)
    (strip_components : Int) (fs : FS) (htar : is_tar (get_type archive_file) = true) :
    ∃ r, archive_spawnv h (some destination) false
          (["tar", "xf", g_file_get_path archive_file, "--no-same-owner",
              "--strip-components=" ++ printf_u strip_components]
            ++ (tar_decompress_flag (get_type archive_file)).toList) fs = some r
      ∧ extract_archive h destination archive_file strip_components fs
        = some ⟨r.fs, r.error, [Event.spawn (some destination)
            (["tar", "xf", g_file_get_path archive_file, "--no-same-owner",
                "--strip-components=" ++ printf_u strip_components]
              ++ (tar_decompress_flag (get_type archive_file)).toList)]⟩
      ∧ (0 ≤ strip_components → strip_components < 4294967296 →
          printf_u strip_components = toString strip_components.toNat) :=
  extract_archive_tar_run h destination archive_file strip_components fs htar


theorem extract_archive_tar_witness :
    ∃ r, archive_spawnv host_unpack (some ["srv", "mod"]) false
          ["tar", "xf", "/srv/mod/pkg-1.0.tar.gz", "--no-same-owner", "--strip-components=1",
            "-z"] fs_module = some r
      ∧ extract_archive host_unpack ["srv", "mod"] ["srv", "mod", "pkg-1.0.tar.gz"] 1 fs_module
        = some ⟨r.fs, r.error, [Event.spawn (some ["srv", "mod"])
            ["tar", "xf", "/srv/mod/pkg-1.0.tar.gz", "--no-same-owner", "--strip-components=1",
              "-z"]]⟩ :=
  match extract_archive_tar host_unpack ["srv", "mod"] ["srv", "mod", "pkg-1.0.tar.gz"] 1
    fs_module (by decide) with
  | ⟨r, h1, h2, _⟩ => ⟨r, h1, h2⟩

theorem g_file_get_basename_child (dir : GFile) (name : String) :
    g_file_get_basename (dir ++ [name]) = name := by
  simp [g_file_get_basename, List.getLast?_concat]

theorem TmpDraw.toString_length (d : TmpDraw) : d.toString.length = 6 := rfl

/-- A successful `g_mkdtemp` loop created a directory that did not exist,
named by one of the draws. -/
theorem g_mkdtemp_try_ok (parent : GFile) (stem : String) :
    ∀ (draws : List TmpDraw) (fs : FS) (path : GFile) (fs1 : FS),
      g_mkdtemp_try parent stem draws fs = Except.ok (path, fs1) →
      (∃ d ∈ draws, path = parent ++ [stem ++ d.toString]) ∧ fs.lookup path = none
        ∧ fs1 = fs ++ [(path, Node.dir)] := by
  intro draws
  induction draws with
  | nil => intro fs path fs1 h; simp [g_mkdtemp_try] at h
  | cons d rest ih =>
    intro fs path fs1 h
    rw [g_mkdtemp_try] at h
    cases hm : mkdir (parent ++ [stem ++ d.toString]) fs with
    | ok fs2 =>
      rw [hm] at h
      simp only [Except.ok.injEq, Prod.mk.injEq] at h
      obtain ⟨rfl, rfl⟩ := h
      refine ⟨⟨d, List.mem_cons_self _ _, rfl⟩, ?_⟩
      unfold mkdir at hm
      split at hm
      · cases hm
      · cases hm
      · split at hm
        · cases hm
        · rename_i hfree
          simp only [Except.ok.injEq] at hm
          refine ⟨?_, hm.symm⟩
          by_contra hne
          exact hfree (Or.inr hne)
    | error e =>
      rw [hm] at h
      cases e with
      | EEXIST =>
        simp only at h
        obtain ⟨⟨d1, hd1, hp⟩, h2, h3⟩ := ih fs path fs1 h
        exact ⟨⟨d1, List.mem_cons_of_mem _ hd1, hp⟩, h2, h3⟩
      | ENOENT => simp at h
      | ENOTDIR => simp at h
      | EINVAL => simp at h

theorem g_mkdtemp_uncompress (draws : List TmpDraw) (dest : GFile) (fs : FS) :
    g_mkdtemp draws (g_file_get_child dest ".uncompressXXXXXX") fs
      = g_mkdtemp_try dest ".uncompress" (draws.take 100) fs := by
  unfold g_mkdtemp g_file_get_child
  rw [g_file_get_basename_child]
  have h1 : g_str_has_suffix ".uncompressXXXXXX" "XXXXXX" = true := by decide
  have h2 : (⟨(".uncompressXXXXXX" : String).data.take
      ((".uncompressXXXXXX" : String).data.length - 6)⟩ : String) = ".uncompress" := by decide
  simp only [h1, true_and, ne_eq, List.append_eq_nil, List.cons_ne_self, and_false,
    not_false_eq_true, if_true, List.dropLast_concat, h2]

/-- The staging directory `create_uncompress_directory` chooses: the
destination itself, untouched, when `strip_components` is not positive;
otherwise a new directory `.uncompress` plus the six characters of a draw
in the destination, or an error that leaves the file system as it was. -/
theorem create_uncompress_directory_spec (h : Host) (dest : GFile) (strip_components : Int)
    (fs : FS) :
    (strip_components ≤ 0 →
        create_uncompress_directory h dest strip_components fs = ⟨fs, Except.ok dest, []⟩)
      ∧ (strip_components > 0 →
          (create_uncompress_directory h dest strip_components fs).log
              = [Event.mkdtemp (dest ++ [".uncompressXXXXXX"])]
            ∧ (∀ e, (create_uncompress_directory h dest strip_components fs).dir
                = Except.error e →
                (create_uncompress_directory h dest strip_components fs).fs = fs)
            ∧ ∀ staging, (create_uncompress_directory h dest strip_components fs).dir
                = Except.ok staging →
                (∃ d ∈ h.tmp_draws, staging = dest ++ [".uncompress" ++ d.toString]
                    ∧ d.toString.length = 6)
                  ∧ fs.lookup staging = none
                  ∧ (create_uncompress_directory h dest strip_components fs).fs
                    = fs ++ [(staging, Node.dir)]) := by
  constructor
  · intro hle
    have : ¬ strip_components > 0 := by omega
    simp [create_uncompress_directory, this]
  · intro hpos
    unfold create_uncompress_directory
    simp only [hpos, if_true, g_mkdtemp_uncompress]
    cases hm : g_mkdtemp_try dest ".uncompress" (List.take 100 h.tmp_draws) fs with
    | error e =>
      refine ⟨rfl, fun _ _ => rfl, ?_⟩
      intro staging hs
      cases hs
    | ok p =>
      obtain ⟨path, fs1⟩ := p
      refine ⟨rfl, ?_, ?_⟩
      · intro e he; cases he
      · intro staging hs
        simp only [Except.ok.injEq] at hs
        subst hs
        obtain ⟨⟨d, hd, hp⟩, h2, h3⟩ := g_mkdtemp_try_ok dest ".uncompress" _ fs path fs1 hm
        exact ⟨⟨d, List.mem_of_mem_take hd, hp, rfl⟩, h2, h3⟩

/-- The run of `extract_archive` on a zip archive. -/
theorem extract_archive_zip_run (h : Host) (destination archive_file : GFile)
    (strip_components : Int) (fs : FS) (hzip : get_type archive_file = ZIP) :
    (strip_components ≤ 0 →
        create_uncompress_directory h destination strip_components fs
          = ⟨fs, Except.ok destination, []⟩)
      ∧ (strip_components > 0 →
          ∀ staging, (create_uncompress_directory h destination strip_components fs).dir
            = Except.ok staging →
            (∃ d ∈ h.tmp_draws, staging = destination ++ [".uncompress" ++ d.toString]
                ∧ d.toString.length = 6)
              ∧ fs.lookup staging = none
              ∧ (create_uncompress_directory h destination strip_components fs).fs
                = fs ++ [(staging, Node.dir)])
      ∧ (∀ e, (create_uncompress_directory h destination strip_components fs).dir
          = Except.error e →
          extract_archive h destination archive_file strip_components fs
            = some ⟨(create_uncompress_directory h destination strip_components fs).fs,
                some e, (create_uncompress_directory h destination strip_components fs).log⟩)
      ∧ (∀ staging, (create_uncompress_directory h destination strip_components fs).dir
          = Except.ok staging →
          ∃ r, archive_spawnv h (some staging) false ["unzip", g_file_get_path archive_file]
                (create_uncompress_directory h destination strip_components fs).fs = some r
            ∧ r.log = [Event.spawn (some staging) ["unzip", g_file_get_path archive_file]]
            ∧ extract_archive h destination archive_file strip_components fs
              = some (if r.error = none ∧ strip_components > 0 then
                  ⟨(strip_components_into destination staging strip_components r.fs).fs,
                    (strip_components_into destination staging strip_components r.fs).error,
                    (create_uncompress_directory h destination strip_components fs).log
                      ++ r.log ++ [Event.strip destination staging strip_components]⟩
                else
                  ⟨r.fs, r.error,
                    (create_uncompress_directory h destination strip_components fs).log
                      ++ r.log⟩)) := by
  have hnt : is_tar ZIP = false := by decide
  refine ⟨(create_uncompress_directory_spec h destination strip_components fs).1,
    fun hpos => ((create_uncompress_directory_spec h destination strip_components fs).2
      hpos).2.2, ?_, ?_⟩
  · intro e he
    unfold extract_archive
    simp only [hzip, hnt, Bool.false_eq_true, if_false, if_true]
    rcases hc : create_uncompress_directory h destination strip_components fs with
      ⟨fs1, d, log1⟩
    rw [hc] at he
    simp only at he
    subst he
    rfl
  · intro staging hs
    obtain ⟨r, hr, hlog⟩ := archive_spawnv_returns h (some staging) false
      ["unzip", g_file_get_path archive_file]
      (create_uncompress_directory h destination strip_components fs).fs
    refine ⟨r, hr, hlog, ?_⟩
    have hsp := archive_spawn_until_null h (some staging) false "unzip"
      [g_file_get_path archive_file] []
      (create_uncompress_directory h destination strip_components fs).fs
    simp only [List.map_cons, List.map_nil, List.cons_append, List.nil_append] at hsp
    unfold extract_archive
    simp only [hzip, hnt, Bool.false_eq_true, if_false, if_true]
    rcases hc : create_uncompress_directory h destination strip_components fs with
      ⟨fs1, d, log1⟩
    rw [hc] at hs hr hsp
    simp only at hs hr hsp
    subst hs
    simp only [unzip, hsp, hr]
    cases he : r.error with
    | some e => simp
    | none =>
      by_cases hpos : strip_components > 0
      · simp [hpos]
      · simp [hpos]

/-- C13: for a zip archive `extract_archive` takes the staging directory
`create_uncompress_directory` chooses (the destination itself when
`strip_components` is not positive, otherwise a new directory `.uncompress`
plus six drawn characters in the destination), runs `unzip` there with the
archive path as its only argument, and, when the command succeeded, calls
`strip_components_into (destination, staging, strip_components)` exactly
when `strip_components > 0`. -/
theorem extract_archive_zip (h : Host) (destination archive_file : GFile)
    (strip_components : Int) (fs : FS) (hzip : get_type archive_file = ZIP) :
    (strip_components ≤ 0 →
        create_uncompress_directory h destination strip_components fs
          = ⟨fs, Except.ok destination, []⟩)
      ∧ (strip_components > 0 →
          ∀ staging, (create_uncompress_directory h destination strip_components fs).dir
            = Except.ok staging →
            (∃ d ∈ h.tmp_draws, staging = destination ++ [".uncompress" ++ d.toString]
                ∧ d.toString.length = 6)
              ∧ fs.lookup staging = none
              ∧ (create_uncompress_directory h destination strip_components fs).fs
                = fs ++ [(staging, Node.dir)])
      ∧ (∀ e, (create_uncompress_directory h destination strip_components fs).dir
          = Except.error e →
          extract_archive h destination archive_file strip_components fs
            = some ⟨(create_uncompress_directory h destination strip_components fs).fs,
                some e, (create_uncompress_directory h destination strip_components fs).log⟩)
      ∧ (∀ staging, (create_uncompress_directory h destination strip_components fs).dir
          = Except.ok staging →
          ∃ r, archive_spawnv h (some staging) false ["unzip", g_file_get_path archive_file]
                (create_uncompress_directory h destination strip_components fs).fs = some r
            ∧ r.log = [Event.spawn (some staging) ["unzip", g_file_get_path archive_file]]
            ∧ extract_archive h destination archive_file strip_components fs
              = some (if r.error = none ∧ strip_components > 0 then
                  ⟨(strip_components_into destination staging strip_components r.fs).fs,
                    (strip_components_into destination staging strip_components r.fs).error,
                    (create_uncompress_directory h destination strip_components fs).log
                      ++ r.log ++ [Event.strip destination staging strip_components]⟩
                else
                  ⟨r.fs, r.error,
                    (create_uncompress_directory h destination strip_components fs).log
                      ++ r.log⟩)) :=
  extract_archive_zip_run h destination archive_file strip_components fs hzip


theorem extract_archive_zip_witness :
    extract_archive host_unpack ["srv", "mod"] ["srv", "mod", "pkg-1.0.zip"] 1 fs_zip
        = some ⟨(strip_components_into ["srv", "mod"] ["srv", "mod", ".uncompressAB12CD"] 1
              fs_unzipped).fs, none,
            [Event.mkdtemp ["srv", "mod", ".uncompressXXXXXX"],
              Event.spawn (some ["srv", "mod", ".uncompressAB12CD"])
                ["unzip", "/srv/mod/pkg-1.0.zip"],
              Event.strip ["srv", "mod"] ["srv", "mod", ".uncompressAB12CD"] 1]⟩
      ∧ (create_uncompress_directory host_unpack ["srv", "mod"] 0 fs_zip).fs = fs_zip :=
  ⟨by
    obtain ⟨r, hr, _, hx⟩ := (extract_archive_zip host_unpack ["srv", "mod"]
      ["srv", "mod", "pkg-1.0.zip"] 1 fs_zip (by decide)).2.2.2
      ["srv", "mod", ".uncompressAB12CD"] rfl
    have hr' : r = ⟨fs_unzipped, none, none, [Event.spawn
        (some ["srv", "mod", ".uncompressAB12CD"]) ["unzip", "/srv/mod/pkg-1.0.zip"]],
        archive_spawnv_calls false⟩ := by
      have : archive_spawnv host_unpack (some ["srv", "mod", ".uncompressAB12CD"]) false
          ["unzip", g_file_get_path ["srv", "mod", "pkg-1.0.zip"]]
          (create_uncompress_directory host_unpack ["srv", "mod"] 1 fs_zip).fs
          = some ⟨fs_unzipped, none, none, [Event.spawn
            (some ["srv", "mod", ".uncompressAB12CD"]) ["unzip", "/srv/mod/pkg-1.0.zip"]],
            archive_spawnv_calls false⟩ := by
        decide
      rw [this] at hr
      exact (Option.some.inj hr).symm
    rw [hx, hr']
    decide,
   by decide⟩

/-- The run of `extract_archive` on an rpm archive. -/
theorem extract_archive_rpm_run (h : Host) (destination archive_file : GFile)
    (strip_components : Int) (fs : FS) (hrpm : get_type archive_file = RPM) :
    (strip_components ≤ 0 →
        create_uncompress_directory h destination strip_components fs
          = ⟨fs, Except.ok destination, []⟩)
      ∧ (strip_components > 0 →
          ∀ staging, (create_uncompress_directory h destination strip_components fs).dir
            = Except.ok staging →
            (∃ d ∈ h.tmp_draws, staging = destination ++ [".uncompress" ++ d.toString]
                ∧ d.toString.length = 6)
              ∧ fs.lookup staging = none
              ∧ (create_uncompress_directory h destination strip_components fs).fs
                = fs ++ [(staging, Node.dir)])
      ∧ (∀ e, (create_uncompress_directory h destination strip_components fs).dir
          = Except.error e →
          extract_archive h destination archive_file strip_components fs
            = some ⟨(create_uncompress_directory h destination strip_components fs).fs,
                some e, (create_uncompress_directory h destination strip_components fs).log⟩)
      ∧ (∀ staging, (create_uncompress_directory h destination strip_components fs).dir
          = Except.ok staging →
          ∃ r, archive_spawnv h (some staging) false
                ["sh", "-c", "rpm2cpio \"$1\" | cpio -i -d", "sh",
                  g_file_get_path archive_file]
                (create_uncompress_directory h destination strip_components fs).fs = some r
            ∧ r.log = [Event.spawn (some staging)
                ["sh", "-c", "rpm2cpio \"$1\" | cpio -i -d", "sh",
                  g_file_get_path archive_file]]
            ∧ extract_archive h destination archive_file strip_components fs
              = some (if r.error = none ∧ strip_components > 0 then
                  ⟨(strip_components_into destination staging strip_components r.fs).fs,
                    (strip_components_into destination staging strip_components r.fs).error,
                    (create_uncompress_directory h destination strip_components fs).log
                      ++ r.log ++ [Event.strip destination staging strip_components]⟩
                else
                  ⟨r.fs, r.error,
                    (create_uncompress_directory h destination strip_components fs).log
                      ++ r.log⟩)) := by
  have hnt : is_tar RPM = false := by decide
  have hnz : ¬ (RPM = ZIP) := by decide
  refine ⟨(create_uncompress_directory_spec h destination strip_components fs).1,
    fun hpos => ((create_uncompress_directory_spec h destination strip_components fs).2
      hpos).2.2, ?_, ?_⟩
  · intro e he
    unfold extract_archive
    simp only [hrpm, hnt, hnz, Bool.false_eq_true, if_false, if_true]
    rcases hc : create_uncompress_directory h destination strip_components fs with
      ⟨fs1, d, log1⟩
    rw [hc] at he
    simp only at he
    subst he
    rfl
  · intro staging hs
    obtain ⟨r, hr, hlog⟩ := archive_spawnv_returns h (some staging) false
      ["sh", "-c", "rpm2cpio \"$1\" | cpio -i -d", "sh", g_file_get_path archive_file]
      (create_uncompress_directory h destination strip_components fs).fs
    refine ⟨r, hr, hlog, ?_⟩
    unfold extract_archive
    simp only [hrpm, hnt, hnz, Bool.false_eq_true, if_false, if_true]
    rcases hc : create_uncompress_directory h destination strip_components fs with
      ⟨fs1, d, log1⟩
    rw [hc] at hs hr
    simp only at hs hr
    subst hs
    simp only [unrpm, hr]
    cases he : r.error with
    | some e => simp
    | none =>
      by_cases hpos : strip_components > 0
      · simp [hpos]
      · simp [hpos]

/-- C14: for an rpm archive `extract_archive` takes the staging directory
by the rule of the zip case, runs there `sh -c` on the script
`rpm2cpio "$1" | cpio -i -d` with the archive path as `$1`, and, when the
command succeeded, calls
`strip_components_into (destination, staging, strip_components)` exactly
when `strip_components > 0`. -/
theorem extract_archive_rpm (h : Host) (destination archive_file : GFile)
    (strip_components : Int) (fs : FS) (hrpm : get_type archive_file = RPM) :
    (strip_components ≤ 0 →
        create_uncompress_directory h destination strip_components fs
          = ⟨fs, Except.ok destination, []⟩)
      ∧ (strip_components > 0 →
          ∀ staging, (create_uncompress_directory h destination strip_components fs).dir
            = Except.ok staging →
            (∃ d ∈ h.tmp_draws, staging = destination ++ [".uncompress" ++ d.toString]
                ∧ d.toString.length = 6)
              ∧ fs.lookup staging = none
              ∧ (create_uncompress_directory h destination strip_components fs).fs
                = fs ++ [(staging, Node.dir)])
      ∧ (∀ e, (create_uncompress_directory h destination strip_components fs).dir
          = Except.error e →
          extract_archive h destination archive_file strip_components fs
            = some ⟨(create_uncompress_directory h destination strip_components fs).fs,
                some e, (create_uncompress_directory h destination strip_components fs).log⟩)
      ∧ (∀ staging, (create_uncompress_directory h destination strip_components fs).dir
          = Except.ok staging →
          ∃ r, archive_spawnv h (some staging) false
                ["sh", "-c", "rpm2cpio \"$1\" | cpio -i -d", "sh",
                  g_file_get_path archive_file]
                (create_uncompress_directory h destination strip_components fs).fs = some r
            ∧ r.log = [Event.spawn (some staging)
                ["sh", "-c", "rpm2cpio \"$1\" | cpio -i -d", "sh",
                  g_file_get_path archive_file]]
            ∧ extract_archive h destination archive_file strip_components fs
              = some (if r.error = none ∧ strip_components > 0 then
                  ⟨(strip_components_into destination staging strip_components r.fs).fs,
                    (strip_components_into destination staging strip_components r.fs).error,
                    (create_uncompress_directory h destination strip_components fs).log
                      ++ r.log ++ [Event.strip destination staging strip_components]⟩
                else
                  ⟨r.fs, r.error,
                    (create_uncompress_directory h destination strip_components fs).log
                      ++ r.log⟩)) :=
  extract_archive_rpm_run h destination archive_file strip_components fs hrpm


theorem extract_archive_rpm_witness :
    (∃ d ∈ host_unpack.tmp_draws,
        ["srv", "mod", ".uncompressAB12CD"] = ["srv", "mod"] ++ [".uncompress" ++ d.toString]
          ∧ d.toString.length = 6)
      ∧ fs_rpm.lookup ["srv", "mod", ".uncompressAB12CD"] = none
      ∧ (create_uncompress_directory host_unpack ["srv", "mod"] 1 fs_rpm).fs
        = fs_rpm ++ [(["srv", "mod", ".uncompressAB12CD"], Node.dir)]
      ∧ extract_archive host_unpack ["srv", "mod"] ["srv", "mod", "pkg-1.0.rpm"] 1 fs_rpm
        = some ⟨(strip_components_into ["srv", "mod"] ["srv", "mod", ".uncompressAB12CD"] 1
              fs_unrpmed).fs, none,
            [Event.mkdtemp ["srv", "mod", ".uncompressXXXXXX"],
              Event.spawn (some ["srv", "mod", ".uncompressAB12CD"])
                ["sh", "-c", "rpm2cpio \"$1\" | cpio -i -d", "sh", "/srv/mod/pkg-1.0.rpm"],
              Event.strip ["srv", "mod"] ["srv", "mod", ".uncompressAB12CD"] 1]⟩
      ∧ (strip_components_into ["srv", "mod"] ["srv", "mod", ".uncompressAB12CD"] 1
          fs_unrpmed).fs.lookup ["srv", "mod", "src", "main.c"] = some (Node.file [105])
      ∧ extract_archive host_unpack ["srv", "mod"] ["srv", "mod", "pkg-1.0.rpm"] 0 fs_rpm
        = some ⟨fs_rpm ++ [(["srv", "mod", "pkg-1.0"], Node.dir),
              (["srv", "mod", "pkg-1.0", "configure"], Node.file [35]),
              (["srv", "mod", "pkg-1.0", "src"], Node.dir),
              (["srv", "mod", "pkg-1.0", "src", "main.c"], Node.file [105])], none,
            [Event.spawn (some ["srv", "mod"])
              ["sh", "-c", "rpm2cpio \"$1\" | cpio -i -d", "sh", "/srv/mod/pkg-1.0.rpm"]]⟩ :=
  have t1 := extract_archive_rpm host_unpack ["srv", "mod"] ["srv", "mod", "pkg-1.0.rpm"] 1
    fs_rpm (by decide)
  have t0 := extract_archive_rpm host_unpack ["srv", "mod"] ["srv", "mod", "pkg-1.0.rpm"] 0
    fs_rpm (by decide)
  have hstaging := t1.2.1 (by decide) ["srv", "mod", ".uncompressAB12CD"] rfl
  ⟨hstaging.1, hstaging.2.1, hstaging.2.2,
    by
      obtain ⟨r, hr, _, hx⟩ := t1.2.2.2 ["srv", "mod", ".uncompressAB12CD"] rfl
      have hr' : r = ⟨fs_unrpmed, none, none, [Event.spawn
          (some ["srv", "mod", ".uncompressAB12CD"])
          ["sh", "-c", "rpm2cpio \"$1\" | cpio -i -d", "sh", "/srv/mod/pkg-1.0.rpm"]],
          archive_spawnv_calls false⟩ := by
        have : archive_spawnv host_unpack (some ["srv", "mod", ".uncompressAB12CD"]) false
            ["sh", "-c", "rpm2cpio \"$1\" | cpio -i -d", "sh",
              g_file_get_path ["srv", "mod", "pkg-1.0.rpm"]]
            (create_uncompress_directory host_unpack ["srv", "mod"] 1 fs_rpm).fs
            = some ⟨fs_unrpmed, none, none, [Event.spawn
              (some ["srv", "mod", ".uncompressAB12CD"])
              ["sh", "-c", "rpm2cpio \"$1\" | cpio -i -d", "sh", "/srv/mod/pkg-1.0.rpm"]],
              archive_spawnv_calls false⟩ := by
          decide
        rw [this] at hr
        exact (Option.some.inj hr).symm
      rw [hx, hr']
      decide,
    by decide,
    by
      obtain ⟨r, hr, _, hx⟩ := t0.2.2.2 ["srv", "mod"] rfl
      rw [hx]
      have hr' : r = ⟨fs_rpm ++ [(["srv", "mod", "pkg-1.0"], Node.dir),
          (["srv", "mod", "pkg-1.0", "configure"], Node.file [35]),
          (["srv", "mod", "pkg-1.0", "src"], Node.dir),
          (["srv", "mod", "pkg-1.0", "src", "main.c"], Node.file [105])], none, none,
          [Event.spawn (some ["srv", "mod"])
            ["sh", "-c", "rpm2cpio \"$1\" | cpio -i -d", "sh", "/srv/mod/pkg-1.0.rpm"]],
          archive_spawnv_calls false⟩ := by
        have : archive_spawnv host_unpack (some ["srv", "mod"]) false
            ["sh", "-c", "rpm2cpio \"$1\" | cpio -i -d", "sh",
              g_file_get_path ["srv", "mod", "pkg-1.0.rpm"]]
            (create_uncompress_directory host_unpack ["srv", "mod"] 0 fs_rpm).fs
            = some ⟨fs_rpm ++ [(["srv", "mod", "pkg-1.0"], Node.dir),
              (["srv", "mod", "pkg-1.0", "configure"], Node.file [35]),
              (["srv", "mod", "pkg-1.0", "src"], Node.dir),
              (["srv", "mod", "pkg-1.0", "src", "main.c"], Node.file [105])], none, none,
              [Event.spawn (some ["srv", "mod"])
                ["sh", "-c", "rpm2cpio \"$1\" | cpio -i -d", "sh", "/srv/mod/pkg-1.0.rpm"]],
              archive_spawnv_calls false⟩ := by
          decide
        rw [this] at hr
        exact (Option.some.inj hr).symm
      rw [hr']
      decide⟩

/-- C15: for an archive whose type is not recognized `extract_archive`
fails at once with an error whose message contains the archive path; the
file system is untouched and there is no event: no command, no directory. -/
theorem extract_archive_unknown (h : Host) (destination archive_file : GFile)
    (strip_components : Int) (fs : FS) (hunknown : get_type archive_file = UNKNOWN) :
    ∃ e, extract_archive h destination archive_file strip_components fs
          = some ⟨fs, some e, []⟩
      ∧ (g_file_get_path archive_file).data <:+: e.message.data := by
  refine ⟨⟨GIOErrorEnum.FAILED,
    "Unknown archive format of '" ++ g_file_get_path archive_file ++ "'"⟩, ?_, ?_⟩
  · have hnt : is_tar UNKNOWN = false := by decide
    have h1 : ¬ (UNKNOWN = ZIP) := by decide
    have h2 : ¬ (UNKNOWN = RPM) := by decide
    simp only [extract_archive, hunknown, hnt, h1, h2, Bool.false_eq_true, if_false]
  · exact ⟨"Unknown archive format of '".data, "'".data, by simp [String.data_append]⟩

theorem extract_archive_unknown_witness :
    ∃ e, extract_archive host_unpack ["srv", "mod"] ["srv", "mod", "pkg-1.0.7z"] 1 fs_module
          = some ⟨fs_module, some e, []⟩
      ∧ "/srv/mod/pkg-1.0.7z".data <:+: e.message.data :=
  extract_archive_unknown host_unpack ["srv", "mod"] ["srv", "mod", "pkg-1.0.7z"] 1 fs_module
    (by decide)

/-! ## The fetch -/

/-- The call `extract_archive` always comes back. -/
theorem extract_archive_returns (h : Host) (destination archive_file : GFile)
    (strip_components : Int) (fs : FS) :
    ∃ run, extract_archive h destination archive_file strip_components fs = some run := by
  by_cases htar : is_tar (get_type archive_file) = true
  · obtain ⟨r, _, hx, _⟩ := extract_archive_tar_run h destination archive_file strip_components
      fs htar
    exact ⟨_, hx⟩
  · by_cases hzip : get_type archive_file = ZIP
    · have hz := extract_archive_zip_run h destination archive_file strip_components fs hzip
      cases hd : (create_uncompress_directory h destination strip_components fs).dir with
      | error e => exact ⟨_, hz.2.2.1 e hd⟩
      | ok staging =>
        obtain ⟨r, _, _, hx⟩ := hz.2.2.2 staging hd
        exact ⟨_, hx⟩
    · by_cases hrpm : get_type archive_file = RPM
      · have hz := extract_archive_rpm_run h destination archive_file strip_components fs hrpm
        cases hd : (create_uncompress_directory h destination strip_components fs).dir with
        | error e => exact ⟨_, hz.2.2.1 e hd⟩
        | ok staging =>
          obtain ⟨r, _, _, hx⟩ := hz.2.2.2 staging hd
          exact ⟨_, hx⟩
      · exact ⟨⟨fs, some ⟨GIOErrorEnum.FAILED,
          "Unknown archive format of '" ++ g_file_get_path archive_file ++ "'"⟩, []⟩,
          by simp [extract_archive, htar, hzip, hrpm]⟩

/-- A failed `g_file_make_directory_with_parents` changes nothing. -/
theorem g_file_make_directory_with_parents_failed (file : GFile) (fs : FS) (e : GError)
    (he : (g_file_make_directory_with_parents file fs).error = some e) :
    (g_file_make_directory_with_parents file fs).fs = fs := by
  unfold g_file_make_directory_with_parents at he ⊢
  split
  · rfl
  · split
    · rfl
    · rename_i h1 h2
      simp only [h1, h2] at he
      cases he

/-- What `fetch_archive` does once the module directory is there: the
download, and the extraction with level 1 when the download returned
`TRUE`. -/
theorem fetch_archive_proceeds (w : Services) (h : Host) (url : String) (sha : Option String)
    (module_name : String) (destination : GFile) (fs : FS)
    (hmade : ∀ e, (g_file_make_directory_with_parents
      (g_file_get_child destination module_name) fs).error = some e →
      e.code = GIOErrorEnum.EXISTS) :
    fetch_archive w h url sha module_name destination fs =
      if (download_archive w (h.soup_uri_new url) sha
          (g_file_get_child (g_file_get_child destination module_name)
            (g_path_get_basename (soup_uri_get_path (h.soup_uri_new url))))
          (g_file_make_directory_with_parents
            (g_file_get_child destination module_name) fs).fs).ok = false then
        some ⟨(download_archive w (h.soup_uri_new url) sha
          (g_file_get_child (g_file_get_child destination module_name)
            (g_path_get_basename (soup_uri_get_path (h.soup_uri_new url))))
          (g_file_make_directory_with_parents
            (g_file_get_child destination module_name) fs).fs).fs, none,
          (download_archive w (h.soup_uri_new url) sha
          (g_file_get_child (g_file_get_child destination module_name)
            (g_path_get_basename (soup_uri_get_path (h.soup_uri_new url))))
          (g_file_make_directory_with_parents
            (g_file_get_child destination module_name) fs).fs).error,
          [Event.download (h.soup_uri_new url)
            (g_file_get_child (g_file_get_child destination module_name)
            (g_path_get_basename (soup_uri_get_path (h.soup_uri_new url))))]⟩
      else
        (extract_archive h (g_file_get_child destination module_name)
          (g_file_get_child (g_file_get_child destination module_name)
            (g_path_get_basename (soup_uri_get_path (h.soup_uri_new url)))) 1
          (download_archive w (h.soup_uri_new url) sha
          (g_file_get_child (g_file_get_child destination module_name)
            (g_path_get_basename (soup_uri_get_path (h.soup_uri_new url))))
          (g_file_make_directory_with_parents
            (g_file_get_child destination module_name) fs).fs).fs).map fun x =>
          ⟨x.fs,
            match x.error with
            | some _ => none
            | none => some (g_file_get_child destination module_name),
            match x.error with
            | some e => g_propagate_error (download_archive w (h.soup_uri_new url) sha
          (g_file_get_child (g_file_get_child destination module_name)
            (g_path_get_basename (soup_uri_get_path (h.soup_uri_new url))))
          (g_file_make_directory_with_parents
            (g_file_get_child destination module_name) fs).fs).error (some e)
            | none => (download_archive w (h.soup_uri_new url) sha
          (g_file_get_child (g_file_get_child destination module_name)
            (g_path_get_basename (soup_uri_get_path (h.soup_uri_new url))))
          (g_file_make_directory_with_parents
            (g_file_get_child destination module_name) fs).fs).error,
            [Event.download (h.soup_uri_new url)
              (g_file_get_child (g_file_get_child destination module_name)
            (g_path_get_basename (soup_uri_get_path (h.soup_uri_new url)))),
              Event.extract (g_file_get_child destination module_name)
                (g_file_get_child (g_file_get_child destination module_name)
            (g_path_get_basename (soup_uri_get_path (h.soup_uri_new url)))) 1]
              ++ x.log⟩ := by
  unfold fetch_archive
  simp only
  have hrest : ∀ (o : Option Fetch),
      (match (g_file_make_directory_with_parents
          (g_file_get_child destination module_name) fs).error with
        | some local_error =>
          if ¬ g_error_matches local_error GIOErrorEnum.EXISTS = true then
            some ⟨(g_file_make_directory_with_parents
              (g_file_get_child destination module_name) fs).fs,
              none, some local_error, []⟩
          else o
        | none => o) = o := by
    intro o
    cases hm : (g_file_make_directory_with_parents
      (g_file_get_child destination module_name) fs).error with
    | none => rfl
    | some e => simp [g_error_matches, hmade e hm]
  rw [hrest]
  by_cases hd : (download_archive w (h.soup_uri_new url) sha
          (g_file_get_child (g_file_get_child destination module_name)
            (g_path_get_basename (soup_uri_get_path (h.soup_uri_new url))))
          (g_file_make_directory_with_parents
            (g_file_get_child destination module_name) fs).fs).ok = false
  · rw [if_pos hd, if_pos hd]
  · rw [if_neg hd, if_neg hd]
    cases hx : extract_archive h (g_file_get_child destination module_name)
      (g_file_get_child (g_file_get_child destination module_name)
            (g_path_get_basename (soup_uri_get_path (h.soup_uri_new url)))) 1
      (download_archive w (h.soup_uri_new url) sha
          (g_file_get_child (g_file_get_child destination module_name)
            (g_path_get_basename (soup_uri_get_path (h.soup_uri_new url))))
          (g_file_make_directory_with_parents
            (g_file_get_child destination module_name) fs).fs).fs with
    | none => rfl
    | some x =>
      simp only [Option.map_some']
      cases x.error <;> rfl

theorem g_strcmp0_eq_zero (a : String) (b : Option String) (h : g_strcmp0 (some a) b = 0) :
    b = some a := by
  cases b with
  | none => simp [g_strcmp0] at h
  | some s =>
    unfold g_strcmp0 at h
    by_cases hab : a = s
    · rw [hab]
    · simp only [hab, if_false] at h
      split at h <;> simp at h

/-- After a successful `g_file_replace_contents` the file holds the bytes. -/
theorem g_file_replace_contents_persisted (file : GFile) (contents : GBytes) (fs : FS)
    (hok : (g_file_replace_contents file contents fs).error = none) :
    (g_file_replace_contents file contents fs).fs.lookup file = some (Node.file contents) := by
  unfold g_file_replace_contents at hok ⊢
  cases hl : fs.lookup file with
  | none =>
    simp only [hl] at hok ⊢
    split
    · rename_i hbad
      simp only [hbad, if_true] at hok
      cases hok
    · simp [FS.lookup_append, hl, FS.lookup]
  | some node =>
    cases node with
    | dir => simp only [hl] at hok; cases hok
    | file old =>
      rw [FS.lookup_map_replace]
      simp [hl]

/-- A `download_archive` that returned `TRUE` got the bytes, found their
digest equal to the expected one, and persisted them. -/
theorem download_archive_ok (w : Services) (uri : SoupURI) (sha : Option String)
    (archive_file : GFile) (fs : FS)
    (hok : (download_archive w uri sha archive_file fs).ok = true) :
    ∃ content, w.http_get uri = Except.ok content ∧ sha = some (w.sha256_hex content)
      ∧ (download_archive w uri sha archive_file fs).fs.lookup archive_file
        = some (Node.file content) := by
  unfold download_archive download_uri at hok ⊢
  cases hg : w.http_get uri with
  | error e => simp only [hg] at hok; cases hok
  | ok content =>
    simp only [hg] at hok ⊢
    by_cases h0 : (g_output_stream_splice w uri content).1 = 0
    · rw [if_pos h0] at hok
      cases hok
    · rw [if_neg h0] at hok ⊢
      simp only at hok ⊢
      by_cases hs : g_strcmp0 (some (w.sha256_hex content)) sha ≠ 0
      · rw [if_pos hs] at hok
        cases hok
      · rw [if_neg hs] at hok ⊢
        refine ⟨content, rfl, g_strcmp0_eq_zero _ _ (by simpa using hs), ?_⟩
        exact g_file_replace_contents_persisted archive_file content fs
          (by simpa using hok)

/-- C16: `fetch_archive` works in `destination/module_name`. A failure to
create that directory other than `already exists` is returned at once, with
the file system unchanged and before any download; when the directory is
created or exists already the call goes on to the download; and whenever
the call succeeds it returns exactly `destination/module_name`. -/
theorem fetch_archive_source_dir (w : Services) (h : Host) (url : String)
    (sha : Option String) (module_name : String) (destination : GFile) (fs : FS) :
    (∀ e, (g_file_make_directory_with_parents
          (g_file_get_child destination module_name) fs).error = some e →
        e.code ≠ GIOErrorEnum.EXISTS →
        fetch_archive w h url sha module_name destination fs
          = some ⟨fs, none, some e, []⟩)
      ∧ ((∀ e, (g_file_make_directory_with_parents
            (g_file_get_child destination module_name) fs).error = some e →
          e.code = GIOErrorEnum.EXISTS) →
          ∃ run, fetch_archive w h url sha module_name destination fs = some run
            ∧ run.log.head? = some (Event.download (h.soup_uri_new url)
                (g_file_get_child (g_file_get_child destination module_name)
                  (g_path_get_basename (soup_uri_get_path (h.soup_uri_new url))))))
      ∧ (∀ run dir, fetch_archive w h url sha module_name destination fs = some run →
          run.result = some dir → dir = g_file_get_child destination module_name) := by
  have hgo := fetch_archive_proceeds w h url sha module_name destination fs
  have hfatal : ∀ e, (g_file_make_directory_with_parents
        (g_file_get_child destination module_name) fs).error = some e →
      e.code ≠ GIOErrorEnum.EXISTS →
      fetch_archive w h url sha module_name destination fs
        = some ⟨fs, none, some e, []⟩ := by
    intro e he hne
    have hfs := g_file_make_directory_with_parents_failed _ fs e he
    unfold fetch_archive
    simp only [he, g_error_matches, hne, decide_False, Bool.false_eq_true, not_false_eq_true,
      if_true, hfs]
  have hshape : (∀ e, (g_file_make_directory_with_parents
        (g_file_get_child destination module_name) fs).error = some e →
      e.code = GIOErrorEnum.EXISTS) →
      ∃ run, fetch_archive w h url sha module_name destination fs = some run
        ∧ run.log.head? = some (Event.download (h.soup_uri_new url)
            (g_file_get_child (g_file_get_child destination module_name)
              (g_path_get_basename (soup_uri_get_path (h.soup_uri_new url)))))
        ∧ ∀ dir, run.result = some dir →
            dir = g_file_get_child destination module_name := by
    intro hmade
    rw [hgo hmade]
    by_cases hd : (download_archive w (h.soup_uri_new url) sha
        (g_file_get_child (g_file_get_child destination module_name)
          (g_path_get_basename (soup_uri_get_path (h.soup_uri_new url))))
        (g_file_make_directory_with_parents
          (g_file_get_child destination module_name) fs).fs).ok = false
    · rw [if_pos hd]
      exact ⟨_, rfl, rfl, fun dir hdir => by cases hdir⟩
    · rw [if_neg hd]
      obtain ⟨x, hx⟩ := extract_archive_returns h (g_file_get_child destination module_name)
        (g_file_get_child (g_file_get_child destination module_name)
          (g_path_get_basename (soup_uri_get_path (h.soup_uri_new url)))) 1
        (download_archive w (h.soup_uri_new url) sha
          (g_file_get_child (g_file_get_child destination module_name)
            (g_path_get_basename (soup_uri_get_path (h.soup_uri_new url))))
          (g_file_make_directory_with_parents
            (g_file_get_child destination module_name) fs).fs).fs
      simp only [hx, Option.map_some']
      refine ⟨_, rfl, rfl, ?_⟩
      intro dir hdir
      cases hxe : x.error with
      | some e => simp only [hxe] at hdir; cases hdir
      | none =>
        simp only [hxe, Option.some.injEq] at hdir
        exact hdir.symm
  refine ⟨hfatal, fun hmade => ?_, ?_⟩
  · obtain ⟨run, h1, h2, _⟩ := hshape hmade
    exact ⟨run, h1, h2⟩
  · intro run dir hrun hdir
    by_cases hmade : ∀ e, (g_file_make_directory_with_parents
        (g_file_get_child destination module_name) fs).error = some e →
        e.code = GIOErrorEnum.EXISTS
    · obtain ⟨run1, h1, _, h3⟩ := hshape hmade
      rw [h1] at hrun
      cases hrun
      exact h3 dir hdir
    · push_neg at hmade
      obtain ⟨e, he, hne⟩ := hmade
      rw [hfatal e he hne] at hrun
      cases hrun
      cases hdir

/-- C17: once the module directory is there, a `download_archive` that
returns `FALSE`, for whatever reason, ends `fetch_archive`: it returns
`NULL` with the error the download left, and the download is the only
event: no call of `extract_archive`, no command. Any further event in a run
means that the download succeeded: the bytes arrived, their digest equals
the expected one, and the archive file holds them. -/
theorem fetch_archive_download_first (w : Services) (h : Host) (url : String)
    (sha : Option String) (module_name : String) (destination : GFile) (fs : FS)
    (hmade : ∀ e, (g_file_make_directory_with_parents
      (g_file_get_child destination module_name) fs).error = some e →
      e.code = GIOErrorEnum.EXISTS) :
    ((download_archive w (h.soup_uri_new url) sha
          (g_file_get_child (g_file_get_child destination module_name)
            (g_path_get_basename (soup_uri_get_path (h.soup_uri_new url))))
          (g_file_make_directory_with_parents
            (g_file_get_child destination module_name) fs).fs).ok = false →
        fetch_archive w h url sha module_name destination fs
          = some ⟨(download_archive w (h.soup_uri_new url) sha
          (g_file_get_child (g_file_get_child destination module_name)
            (g_path_get_basename (soup_uri_get_path (h.soup_uri_new url))))
          (g_file_make_directory_with_parents
            (g_file_get_child destination module_name) fs).fs).fs, none,
              (download_archive w (h.soup_uri_new url) sha
          (g_file_get_child (g_file_get_child destination module_name)
            (g_path_get_basename (soup_uri_get_path (h.soup_uri_new url))))
          (g_file_make_directory_with_parents
            (g_file_get_child destination module_name) fs).fs).error,
              [Event.download (h.soup_uri_new url)
                (g_file_get_child (g_file_get_child destination module_name)
            (g_path_get_basename (soup_uri_get_path (h.soup_uri_new url))))]⟩)
      ∧ (∀ run, fetch_archive w h url sha module_name destination fs = some run →
          (∃ ev ∈ run.log, ev ≠ Event.download (h.soup_uri_new url)
            (g_file_get_child (g_file_get_child destination module_name)
            (g_path_get_basename (soup_uri_get_path (h.soup_uri_new url))))) →
          ∃ content, w.http_get (h.soup_uri_new url) = Except.ok content
            ∧ sha = some (w.sha256_hex content)
            ∧ (download_archive w (h.soup_uri_new url) sha
          (g_file_get_child (g_file_get_child destination module_name)
            (g_path_get_basename (soup_uri_get_path (h.soup_uri_new url))))
          (g_file_make_directory_with_parents
            (g_file_get_child destination module_name) fs).fs).fs.lookup
                (g_file_get_child (g_file_get_child destination module_name)
            (g_path_get_basename (soup_uri_get_path (h.soup_uri_new url))))
              = some (Node.file content)) := by
  have hgo := fetch_archive_proceeds w h url sha module_name destination fs hmade
  constructor
  · intro he
    rw [hgo, if_pos he]
  · intro run hrun hev
    by_cases hd : (download_archive w (h.soup_uri_new url) sha
          (g_file_get_child (g_file_get_child destination module_name)
            (g_path_get_basename (soup_uri_get_path (h.soup_uri_new url))))
          (g_file_make_directory_with_parents
            (g_file_get_child destination module_name) fs).fs).ok = false
    · rw [hgo, if_pos hd] at hrun
      simp only [Option.some.injEq] at hrun
      subst hrun
      obtain ⟨ev, hmem, hne⟩ := hev
      simp only [List.mem_singleton] at hmem
      exact absurd hmem hne
    · exact download_archive_ok _ _ _ _ _ (by simpa using hd)

theorem fetch_archive_download_first_witness :
    fetch_archive services_ok host_unpack "https://example.org/dist/pkg-1.0.zip" (some "abd")
        "mod" ["srv"] fs_module
      = some ⟨fs_module, none, some ⟨GIOErrorEnum.FAILED,
          "Wrong sha256 for /srv/mod/pkg-1.0.zip, expected abd, was abc"⟩,
          [Event.download ⟨"https", "example.org", "/dist/pkg-1.0.zip"⟩
            ["srv", "mod", "pkg-1.0.zip"]]⟩ :=
  ((fetch_archive_download_first services_ok host_unpack "https://example.org/dist/pkg-1.0.zip"
    (some "abd") "mod" ["srv"] fs_module (by decide)).1 (by decide)).trans (by rfl)

/-! ## When the flattener succeeds -/

/-- A move whose checks all pass is the rename. -/
theorem g_file_move_ok {a b : GFile} {fs : FS} (ha : fs.lookup a ≠ none)
    (hb : fs.lookup b = none) (hparent : fs.lookup b.dropLast = some Node.dir) (hne : b ≠ [])
    (hab : ¬ a <+: b) : g_file_move a b fs = ⟨fs.rename a b, none⟩ := by
  cases hl : fs.lookup a with
  | none => exact absurd hl ha
  | some node => simp [g_file_move, hl, hb, hparent, hne, hab]

/-- Deleting an existing path without children succeeds. -/
theorem g_file_delete_ok {file : GFile} {fs : FS} (hl : fs.lookup file ≠ none)
    (hc : fs.children file = []) : g_file_delete file fs = ⟨fs.remove file, none⟩ := by
  cases h : fs.lookup file with
  | none => exact absurd h hl
  | some node => simp [g_file_delete, h, hc]

theorem FS.children_eq_nil_of_lookup {fs : FS} {dir : GFile}
    (h : ∀ x, fs.lookup (dir ++ [x]) = none) : fs.children dir = [] := by
  rw [FS.children_eq_nil_iff]
  intro e he
  by_cases hne : e.1 = []
  · exact Or.inl hne
  · right
    intro hd
    have hx := h (e.1.getLast hne)
    rw [← hd, List.dropLast_append_getLast hne, FS.lookup_eq_none_iff] at hx
    exact hx e he rfl

/-- A name that is not among the children of `dir` names nothing in it. -/
theorem FS.lookup_child_none {fs : FS} {dir : GFile} {x : String}
    (h : x ∉ (fs.children dir).map GFileInfo.name) : fs.lookup (dir ++ [x]) = none := by
  cases hl : fs.lookup (dir ++ [x]) with
  | none => rfl
  | some node =>
    exact absurd (List.mem_map_of_mem GFileInfo.name (FS.mem_children_of_lookup hl)) h

/-- At level 0 the loop succeeds when the names of the children are free in
the destination: it moves every child out of the source and leaves the
other names of the source as they are. -/
theorem strip_components_loop_zero_ok (dest src : GFile) (hds : ¬ src <+: dest)
    (recurse : GFile → FS → Outcome) (cont : List GFileInfo) :
    ∀ (infos : List GFileInfo) (fs : FS), fs.WF → (infos.map GFileInfo.name).Nodup →
      (∀ info ∈ infos, fs.lookup (src ++ [info.name]) ≠ none) →
      fs.lookup src ≠ none → fs.lookup dest = some Node.dir →
      (∀ info ∈ infos, fs.lookup (dest ++ [info.name]) = none) →
      (strip_components_loop recurse dest ⟨src, cont, none⟩ 0 infos fs).error = none
        ∧ (strip_components_loop recurse dest ⟨src, cont, none⟩ 0 infos fs).fs.lookup src
          ≠ none
        ∧ ∀ x, (strip_components_loop recurse dest ⟨src, cont, none⟩ 0 infos fs).fs.lookup
            (src ++ [x])
          = if x ∈ infos.map GFileInfo.name then none else fs.lookup (src ++ [x]) := by
  intro infos
  induction infos with
  | nil => intro fs _ _ _ hsrc _ _; exact ⟨rfl, hsrc, fun x => by simp [strip_components_loop]⟩
  | cons info rest ih =>
    intro fs hwf hnd hvalid hsrc hdest hfree
    simp only [List.map_cons, List.nodup_cons] at hnd
    have hab : ¬ src ++ [info.name] <+: dest ++ [info.name] := not_child_prefix_dest hds _ _
    have hb := hfree info (List.mem_cons_self _ _)
    have hmove := g_file_move_ok (hvalid info (List.mem_cons_self _ _)) hb
      (by rw [List.dropLast_concat]; exact hdest) (by simp) hab
    have hstep : strip_components_step recurse dest ⟨src, cont, none⟩ 0 info fs
        = ⟨fs.rename (src ++ [info.name]) (dest ++ [info.name]), none⟩ := by
      simp only [strip_components_step, gt_iff_lt, lt_self_iff_false, and_false, if_false,
        g_file_enumerator_get_child, g_file_get_child, hmove]
    have hwf1 : (fs.rename (src ++ [info.name]) (dest ++ [info.name])).WF := by
      have := g_file_move_wf (src ++ [info.name]) (dest ++ [info.name]) hwf
      rwa [hmove] at this
    have hsame : ∀ q, ¬ src ++ [info.name] <+: q → ¬ dest ++ [info.name] <+: q →
        (fs.rename (src ++ [info.name]) (dest ++ [info.name])).lookup q = fs.lookup q := by
      intro q h1 h2
      have := g_file_move_same (src ++ [info.name]) (dest ++ [info.name]) hwf h1 (fun _ => h2)
      rwa [hmove] at this
    have hbsrc : ∀ x, ¬ dest ++ [info.name] <+: src ++ [x] := by
      intro x hp
      rcases List.prefix_concat_iff.mp hp with h | h
      · have := List.append_inj' h rfl
        exact hds (this.1 ▸ List.prefix_refl _)
      · exact hwf.lookup_above h hsrc hb
    have hsrc1 : (fs.rename (src ++ [info.name]) (dest ++ [info.name])).lookup src ≠ none := by
      rw [hsame src (fun hp => by have := hp.length_le; simp at this)
        (fun hp => hwf.lookup_above hp hsrc hb)]
      exact hsrc
    have hne_of : ∀ i ∈ rest, i.name ≠ info.name := by
      intro i hi heq
      exact hnd.1 (heq ▸ List.mem_map_of_mem _ hi)
    obtain ⟨h1, h2, h3⟩ := ih _ hwf1 hnd.2
      (by
        intro i hi
        rw [hsame _ (fun hp => hne_of i hi (child_prefix_child hp).symm) (hbsrc _)]
        exact hvalid i (List.mem_cons_of_mem _ hi))
      hsrc1
      (by
        rw [hsame dest (fun hp => hds ((List.prefix_append _ _).trans hp))
          (fun hp => by have := hp.length_le; simp at this)]
        exact hdest)
      (by
        intro i hi
        rw [hsame _ (not_child_prefix_dest hds _ _)
          (fun hp => hne_of i hi (child_prefix_child hp).symm)]
        exact hfree i (List.mem_cons_of_mem _ hi))
    rw [strip_components_loop_cons, hstep]
    refine ⟨h1, h2, ?_⟩
    intro x
    simp only
    rw [h3 x]
    by_cases hx : x ∈ rest.map GFileInfo.name
    · simp [hx]
    · by_cases hxi : x = info.name
      · subst hxi
        simp only [hx, if_false, List.map_cons, List.mem_cons, true_or, if_true]
        exact FS.lookup_rename_gone hab (g_file_move_clean hwf
          (hvalid info (List.mem_cons_self _ _)) hb).2 (List.prefix_refl _)
      · simp only [hx, if_false, List.map_cons, List.mem_cons, hxi, false_or]
        exact hsame _ (fun hp => hxi (child_prefix_child hp).symm) (hbsrc x)

/-- At level 0 the call succeeds on a directory when the names of its
children are free in the destination directory. -/
theorem strip_components_nat_zero_ok (dest src : GFile) (fs : FS) (hwf : fs.WF)
    (hds : ¬ src <+: dest) (hsrc : fs.lookup src = some Node.dir)
    (hdest : fs.lookup dest = some Node.dir)
    (hfree : ∀ info ∈ fs.children src, fs.lookup (dest ++ [info.name]) = none) :
    (strip_components_nat dest 0 src fs).error = none := by
  rw [strip_components_nat_eq, strip_components_body_dir _ _ _ _ _ hsrc]
  obtain ⟨h1, h2, h3⟩ := strip_components_loop_zero_ok dest src hds
    (strip_components_recurse dest 0) (fs.children src) (fs.children src) fs hwf
    (FS.children_names_nodup hwf.1 src)
    (fun info hi => by
      obtain ⟨node, hl, _⟩ := FS.lookup_of_mem_children hwf hi
      simp [hl])
    (by simp [hsrc]) hdest hfree
  rw [h1]
  simp only
  rw [g_file_delete_ok h2]
  apply FS.children_eq_nil_of_lookup
  intro x
  rw [h3 x]
  split
  · rfl
  · rename_i hx
    exact FS.lookup_child_none hx

/-- At level 1 the call succeeds on a staging directory whose only child
is a directory, the wrapper, when the names of the wrapper's children are
free in the destination directory. -/
theorem strip_components_nat_wrapper_ok (dest staging : GFile) (wrapper : String) (fs : FS)
    (hwf : fs.WF) (hds : ¬ staging <+: dest) (hdest : fs.lookup dest = some Node.dir)
    (hstaging : fs.lookup staging = some Node.dir)
    (honly : fs.children staging = [⟨wrapper, GFileType.DIRECTORY⟩])
    (hfree : ∀ info ∈ fs.children (staging ++ [wrapper]),
      fs.lookup (dest ++ [info.name]) = none) :
    fs.lookup (staging ++ [wrapper]) = some Node.dir
      ∧ (strip_components_nat dest 1 staging fs).error = none := by
  have hw : fs.lookup (staging ++ [wrapper]) = some Node.dir := by
    obtain ⟨node, hl, hty⟩ := FS.lookup_of_mem_children hwf
      (show (⟨wrapper, GFileType.DIRECTORY⟩ : GFileInfo) ∈ fs.children staging by
        rw [honly]; exact List.mem_singleton.mpr rfl)
    cases node with
    | dir => exact hl
    | file c => cases hty
  refine ⟨hw, ?_⟩
  have hdsw : ¬ staging ++ [wrapper] <+: dest :=
    fun hp => hds ((List.prefix_append _ _).trans hp)
  have hzero := strip_components_nat_zero_ok dest (staging ++ [wrapper]) fs hwf hdsw hw hdest
    hfree
  rw [strip_components_nat_eq, strip_components_body_dir _ _ _ _ _ hstaging, honly]
  have hstep : strip_components_step (strip_components_recurse dest 1) dest
      ⟨staging, [⟨wrapper, GFileType.DIRECTORY⟩], none⟩ 1 ⟨wrapper, GFileType.DIRECTORY⟩ fs
      = strip_components_nat dest 0 (staging ++ [wrapper]) fs := by
    simp [strip_components_step, strip_components_recurse, g_file_enumerator_get_child,
      g_file_get_child]
  have hloop : strip_components_loop (strip_components_recurse dest 1) dest
      ⟨staging, [⟨wrapper, GFileType.DIRECTORY⟩], none⟩ 1 [⟨wrapper, GFileType.DIRECTORY⟩] fs
      = ⟨(strip_components_nat dest 0 (staging ++ [wrapper]) fs).fs, none⟩ := by
    rw [strip_components_loop_cons, hstep, hzero]
    rfl
  rw [hloop]
  simp only
  have hkeep : (strip_components_nat dest 0 (staging ++ [wrapper]) fs).fs.lookup staging
      = some Node.dir :=
    strip_components_nat_keeps dest 0 (staging ++ [wrapper]) hwf hstaging
      (fun hp => by have := hp.length_le; simp at this)
  rw [g_file_delete_ok (by simp [hkeep])]
  apply FS.children_eq_nil_of_lookup
  intro x
  by_cases hx : x = wrapper
  · rw [hx]
    exact (strip_components_nat_gone dest 0 (staging ++ [wrapper]) fs hzero).2
  · rw [strip_components_nat_same dest 0 (staging ++ [wrapper]) hwf
      (fun hp => hx (child_prefix_child hp).symm)
      (dest_child_above_child hds hwf (by simp [hstaging]) x)]
    apply FS.lookup_child_none
    rw [honly]
    simpa using hx

/-- With a staging directory whose only child is the wrapper, the entries a
call with level 1 moves are the children of the wrapper. -/
theorem MovedBy.wrapper_child {fs : FS} {staging : GFile} {wrapper : String}
    (honly : fs.children staging = [⟨wrapper, GFileType.DIRECTORY⟩]) {ds : List String}
    {name : String} (h : MovedBy fs 1 staging ds name) :
    name ∈ (fs.children (staging ++ [wrapper])).map GFileInfo.name := by
  have hchild : ∀ x node, fs.lookup (staging ++ [x]) = some node →
      x = wrapper ∧ node = Node.dir := by
    intro x node hl
    have hm := FS.mem_children_of_lookup hl
    rw [honly, List.mem_singleton] at hm
    simp only [GFileInfo.mk.injEq] at hm
    refine ⟨hm.1, ?_⟩
    cases node with
    | dir => rfl
    | file c => cases hm.2
  cases ds with
  | nil =>
    obtain ⟨node, hl, hn⟩ := h
    have := hn (hchild name node hl).2
    omega
  | cons d rest =>
    obtain ⟨_, hdir, hsub⟩ := h
    obtain ⟨hd, _⟩ := hchild d Node.dir hdir
    subst hd
    cases rest with
    | nil =>
      obtain ⟨node, hl, _⟩ := hsub
      exact List.mem_map_of_mem GFileInfo.name (FS.mem_children_of_lookup hl)
    | cons d2 rest2 =>
      obtain ⟨hpos, _⟩ := hsub
      omega

/-- What a call with level 1 does to a staging directory whose only child
is a wrapper directory, when the names of the wrapper's children are free in
the destination. -/
theorem strip_components_nat_wrapper (dest staging : GFile) (wrapper : String) (fs : FS)
    (hwf : fs.WF) (hds : ¬ staging <+: dest) (hdest : fs.lookup dest = some Node.dir)
    (hstaging : fs.lookup staging = some Node.dir)
    (honly : fs.children staging = [⟨wrapper, GFileType.DIRECTORY⟩])
    (hfree : ∀ info ∈ fs.children (staging ++ [wrapper]),
      fs.lookup (dest ++ [info.name]) = none) :
    (strip_components_nat dest 1 staging fs).error = none
      ∧ (∀ info ∈ fs.children (staging ++ [wrapper]), ∀ r,
          (strip_components_nat dest 1 staging fs).fs.lookup (dest ++ info.name :: r)
            = fs.lookup (staging ++ wrapper :: info.name :: r))
      ∧ (∀ q, staging <+: q → (strip_components_nat dest 1 staging fs).fs.lookup q = none)
      ∧ (∀ q, ¬ staging <+: q →
          (∀ info ∈ fs.children (staging ++ [wrapper]), ¬ dest ++ [info.name] <+: q) →
          (strip_components_nat dest 1 staging fs).fs.lookup q = fs.lookup q) := by
  obtain ⟨hw, hok⟩ := strip_components_nat_wrapper_ok dest staging wrapper fs hwf hds hdest
    hstaging honly hfree
  have hwf1 := strip_components_nat_wf dest 1 staging hwf
  refine ⟨hok, ?_, ?_, ?_⟩
  · intro info hi r
    obtain ⟨node, hl, _⟩ := FS.lookup_of_mem_children hwf hi
    have := strip_components_nat_moved dest info.name 1 staging fs [wrapper] hwf hds
      ⟨by omega, hw, node, hl, fun _ => rfl⟩ hok r
    simpa [List.append_assoc] using this
  · intro q hq
    have hgone := (strip_components_nat_gone dest 1 staging fs hok).2
    cases hl : (strip_components_nat dest 1 staging fs).fs.lookup q with
    | none => rfl
    | some node => exact absurd hq (hwf1.free_of_lookup hgone hl)
  · intro q hout hq
    by_cases hall : ∀ n, dest ++ [n] <+: q → fs.lookup (dest ++ [n]) ≠ none
    · exact strip_components_nat_same dest 1 staging hwf hout hall
    · push_neg at hall
      obtain ⟨n, hn, hnone⟩ := hall
      have hq0 : fs.lookup q = none := by
        cases hl : fs.lookup q with
        | none => rfl
        | some node => exact absurd hn (hwf.free_of_lookup hnone hl)
      have hn1 : (strip_components_nat dest 1 staging fs).fs.lookup (dest ++ [n]) = none := by
        cases hl : (strip_components_nat dest 1 staging fs).fs.lookup (dest ++ [n]) with
        | none => rfl
        | some node =>
          exfalso
          obtain ⟨ds, hm, _⟩ := strip_components_nat_origin dest n 1 staging fs hwf hds
            hnone node hl
          obtain ⟨info, hi, hname⟩ := List.mem_map.mp (hm.wrapper_child honly)
          exact hq info hi (hname ▸ hn)
      rw [hq0]
      cases hl : (strip_components_nat dest 1 staging fs).fs.lookup q with
      | none => rfl
      | some node => exact absurd hn (hwf1.free_of_lookup hn1 hl)

/-- C18: `fetch_archive` extracts with strip level 1, and for a zip archive
that unpacks into one wrapper directory the result is the layout without
the wrapper. When the download returned `TRUE`, the archive is a zip, the
staging directory was created and `unzip` succeeded there, leaving a
well-formed file system in which the staging directory has one child, a
directory `W`, and the names of the children of `W` are free in the module
directory, then `fetch_archive` succeeds and returns the module directory;
its events are the download, the extraction with level 1, the `g_mkdtemp`,
the `unzip` and the call `strip_components_into (source_dir, staging, 1)`;
every child of `W` is in the module directory under its base name with all
that was below it; nothing is left of the staging directory and of `W`;
everything else is as `unzip` left it, and the archive file still holds its
bytes. -/
theorem fetch_archive_strips_wrapper (w : Services) (h : Host) (url : String)
    (sha : Option String) (module_name : String) (destination : GFile) (fs : FS)
    (staging : GFile) (r : SpawnResult) (wrapper : String)
    (hmade : ∀ e, (g_file_make_directory_with_parents
      (g_file_get_child destination module_name) fs).error = some e →
      e.code = GIOErrorEnum.EXISTS)
    (hdl : (download_archive w (h.soup_uri_new url) sha
      (g_file_get_child (g_file_get_child destination module_name)
        (g_path_get_basename (soup_uri_get_path (h.soup_uri_new url))))
      (g_file_make_directory_with_parents
        (g_file_get_child destination module_name) fs).fs).ok = true)
    (hzip : get_type (g_file_get_child (g_file_get_child destination module_name)
        (g_path_get_basename (soup_uri_get_path (h.soup_uri_new url)))) = ZIP)
    (hstaging : (create_uncompress_directory h (g_file_get_child destination module_name) 1
      (download_archive w (h.soup_uri_new url) sha
      (g_file_get_child (g_file_get_child destination module_name)
        (g_path_get_basename (soup_uri_get_path (h.soup_uri_new url))))
      (g_file_make_directory_with_parents
        (g_file_get_child destination module_name) fs).fs).fs).dir = Except.ok staging)
    (hr : archive_spawnv h (some staging) false
      ["unzip", g_file_get_path (g_file_get_child (g_file_get_child destination module_name)
        (g_path_get_basename (soup_uri_get_path (h.soup_uri_new url))))]
      (create_uncompress_directory h (g_file_get_child destination module_name) 1
      (download_archive w (h.soup_uri_new url) sha
      (g_file_get_child (g_file_get_child destination module_name)
        (g_path_get_basename (soup_uri_get_path (h.soup_uri_new url))))
      (g_file_make_directory_with_parents
        (g_file_get_child destination module_name) fs).fs).fs).fs = some r)
    (hok : r.error = none) (hwf : r.fs.WF)
    (honly : r.fs.children staging = [⟨wrapper, GFileType.DIRECTORY⟩])
    (hfree : ∀ info ∈ r.fs.children (staging ++ [wrapper]),
      r.fs.lookup ((g_file_get_child destination module_name) ++ [info.name]) = none) :
    ∃ f, fetch_archive w h url sha module_name destination fs = some f
      ∧ f.result = some (g_file_get_child destination module_name)
      ∧ f.error = (download_archive w (h.soup_uri_new url) sha
      (g_file_get_child (g_file_get_child destination module_name)
        (g_path_get_basename (soup_uri_get_path (h.soup_uri_new url))))
      (g_file_make_directory_with_parents
        (g_file_get_child destination module_name) fs).fs).error
      ∧ f.log = [Event.download (h.soup_uri_new url)
            (g_file_get_child (g_file_get_child destination module_name)
        (g_path_get_basename (soup_uri_get_path (h.soup_uri_new url)))),
          Event.extract (g_file_get_child destination module_name)
            (g_file_get_child (g_file_get_child destination module_name)
        (g_path_get_basename (soup_uri_get_path (h.soup_uri_new url)))) 1,
          Event.mkdtemp ((g_file_get_child destination module_name) ++ [".uncompressXXXXXX"]),
          Event.spawn (some staging) ["unzip", g_file_get_path
            (g_file_get_child (g_file_get_child destination module_name)
        (g_path_get_basename (soup_uri_get_path (h.soup_uri_new url))))],
          Event.strip (g_file_get_child destination module_name) staging 1]
      ∧ f.fs = (strip_components_into (g_file_get_child destination module_name) staging 1 r.fs).fs
      ∧ (∀ info ∈ r.fs.children (staging ++ [wrapper]), ∀ rest,
          f.fs.lookup ((g_file_get_child destination module_name) ++ info.name :: rest)
            = r.fs.lookup (staging ++ wrapper :: info.name :: rest))
      ∧ (∀ q, staging <+: q → f.fs.lookup q = none)
      ∧ (∀ q, ¬ staging <+: q →
          (∀ info ∈ r.fs.children (staging ++ [wrapper]),
            ¬ (g_file_get_child destination module_name) ++ [info.name] <+: q) →
          f.fs.lookup q = r.fs.lookup q)
      ∧ (∀ content, r.fs.lookup (g_file_get_child (g_file_get_child destination module_name)
        (g_path_get_basename (soup_uri_get_path (h.soup_uri_new url)))) = some (Node.file content) →
          f.fs.lookup (g_file_get_child (g_file_get_child destination module_name)
        (g_path_get_basename (soup_uri_get_path (h.soup_uri_new url)))) = some (Node.file content)) := by
  have hspec := create_uncompress_directory_spec h (g_file_get_child destination module_name) 1
    (download_archive w (h.soup_uri_new url) sha
      (g_file_get_child (g_file_get_child destination module_name)
        (g_path_get_basename (soup_uri_get_path (h.soup_uri_new url))))
      (g_file_make_directory_with_parents
        (g_file_get_child destination module_name) fs).fs).fs
  obtain ⟨hcudlog, _, hcud⟩ := hspec.2 (by decide)
  obtain ⟨⟨d, _, hname, _⟩, _, _⟩ := hcud staging hstaging
  have hwrapper : ∃ node, r.fs.lookup (staging ++ [wrapper]) = some node := by
    have hmem : (⟨wrapper, GFileType.DIRECTORY⟩ : GFileInfo) ∈ r.fs.children staging := by
      rw [honly]; exact List.mem_singleton.mpr rfl
    obtain ⟨node, hl, _⟩ := FS.lookup_of_mem_children hwf hmem
    exact ⟨node, hl⟩
  obtain ⟨wnode, hwl⟩ := hwrapper
  have hst : r.fs.lookup staging = some Node.dir := hwf.parent hwl
  have hdest : r.fs.lookup (g_file_get_child destination module_name) = some Node.dir := by
    rw [hname] at hst
    exact hwf.parent hst
  have hds : ¬ staging <+: (g_file_get_child destination module_name) := by
    intro hp
    have := hp.length_le
    rw [hname] at this
    simp at this
  obtain ⟨hsok, hkids, hgone, hsame⟩ := strip_components_nat_wrapper
    (g_file_get_child destination module_name) staging wrapper r.fs hwf hds hdest hst honly hfree
  obtain ⟨r1, hr1, hlog1, hx⟩ := (extract_archive_zip_run h (g_file_get_child destination module_name)
    (g_file_get_child (g_file_get_child destination module_name)
        (g_path_get_basename (soup_uri_get_path (h.soup_uri_new url)))) 1
    (download_archive w (h.soup_uri_new url) sha
      (g_file_get_child (g_file_get_child destination module_name)
        (g_path_get_basename (soup_uri_get_path (h.soup_uri_new url))))
      (g_file_make_directory_with_parents
        (g_file_get_child destination module_name) fs).fs).fs hzip).2.2.2 staging hstaging
  rw [hr] at hr1
  cases hr1
  have hcond : r.error = none ∧ (1 : Int) > 0 := ⟨hok, by decide⟩
  rw [if_pos hcond] at hx
  refine ⟨⟨(strip_components_into (g_file_get_child destination module_name) staging 1 r.fs).fs,
    some (g_file_get_child destination module_name), (download_archive w (h.soup_uri_new url) sha
      (g_file_get_child (g_file_get_child destination module_name)
        (g_path_get_basename (soup_uri_get_path (h.soup_uri_new url))))
      (g_file_make_directory_with_parents
        (g_file_get_child destination module_name) fs).fs).error, _⟩, ?_, rfl, rfl, rfl, rfl, hkids, hgone, hsame, ?_⟩
  · rw [fetch_archive_proceeds w h url sha module_name destination fs hmade,
      if_neg (by simp [hdl]), hx]
    have herr : (strip_components_into (g_file_get_child destination module_name) staging 1 r.fs).error = none := hsok
    simp only [Option.map_some', herr, hcudlog, hlog1]
    rfl
  · intro content hl
    apply strip_components_nat_keeps (g_file_get_child destination module_name) 1 staging hwf hl
    intro hp
    rw [hname] at hp hst
    unfold g_file_get_child at hp hl hst
    rw [List.prefix_append_right_inj] at hp
    obtain ⟨t, ht⟩ := hp
    simp only [List.singleton_append, List.cons.injEq] at ht
    rw [ht.1, hl] at hst
    cases hst

theorem fetch_archive_strips_wrapper_witness :
    ∃ f, fetch_archive services_ok host_unpack "https://example.org/dist/pkg-1.0.zip"
          (some "abc") "mod" ["srv"] fs_module = some f
      ∧ f.result = some ["srv", "mod"]
      ∧ f.error = none
      ∧ f.log = [Event.download ⟨"https", "example.org", "/dist/pkg-1.0.zip"⟩
            ["srv", "mod", "pkg-1.0.zip"],
          Event.extract ["srv", "mod"] ["srv", "mod", "pkg-1.0.zip"] 1,
          Event.mkdtemp ["srv", "mod", ".uncompressXXXXXX"],
          Event.spawn (some ["srv", "mod", ".uncompressAB12CD"])
            ["unzip", "/srv/mod/pkg-1.0.zip"],
          Event.strip ["srv", "mod"] ["srv", "mod", ".uncompressAB12CD"] 1]
      ∧ f.fs.lookup ["srv", "mod", "configure"] = some (Node.file [35])
      ∧ f.fs.lookup ["srv", "mod", "src"] = some Node.dir
      ∧ f.fs.lookup ["srv", "mod", "src", "main.c"] = some (Node.file [105])
      ∧ f.fs.lookup ["srv", "mod", "pkg-1.0"] = none
      ∧ f.fs.lookup ["srv", "mod", ".uncompressAB12CD"] = none
      ∧ f.fs.lookup ["srv", "mod", "pkg-1.0.zip"] = some (Node.file [1, 2, 3]) :=
  match fetch_archive_strips_wrapper services_ok host_unpack
    "https://example.org/dist/pkg-1.0.zip" (some "abc") "mod" ["srv"] fs_module
    ["srv", "mod", ".uncompressAB12CD"]
    ⟨fs_fetched_unzipped, none, none,
      [Event.spawn (some ["srv", "mod", ".uncompressAB12CD"])
        ["unzip", "/srv/mod/pkg-1.0.zip"]], archive_spawnv_calls false⟩
    "pkg-1.0" (by decide) (by decide) (by decide) rfl (by decide) rfl (by decide)
    (by decide) (by decide) with
  | ⟨f, hf, hres, herr, hlog, _, hkids, hgone, hsame, harch⟩ =>
    ⟨f, hf, hres, herr.trans (by decide), hlog,
      (hkids ⟨"configure", GFileType.REGULAR⟩ (by decide) []).trans (by decide),
      (hkids ⟨"src", GFileType.DIRECTORY⟩ (by decide) []).trans (by decide),
      (hkids ⟨"src", GFileType.DIRECTORY⟩ (by decide) ["main.c"]).trans (by decide),
      (hsame ["srv", "mod", "pkg-1.0"] (by decide) (by decide)).trans (by decide),
      hgone ["srv", "mod", ".uncompressAB12CD"] (by decide),
      harch [1, 2, 3] (by decide)⟩

/-! ## The compress suffixes -/

/-- C24: the two checks for `TAR_COMPRESS` compare the lower-cased base name
with a suffix that holds a capital `Z`, so neither can match, and `get_type`
returns `TAR_COMPRESS` for no file. -/
theorem get_type_never_TAR_COMPRESS (archivefile : GFile) :
    g_str_has_suffix (g_ascii_strdown (g_file_get_basename archivefile)) ".tar.Z" = false
      ∧ g_str_has_suffix (g_ascii_strdown (g_file_get_basename archivefile)) ".taZ" = false
      ∧ get_type archivefile ≠ TAR_COMPRESS := by
  refine ⟨g_ascii_strdown_no_Z _ ".tar.Z" (by decide),
    g_ascii_strdown_no_Z _ ".taZ" (by decide), ?_⟩
  unfold get_type
  simp only [g_ascii_strdown_no_Z _ ".tar.Z" (by decide),
    g_ascii_strdown_no_Z _ ".taZ" (by decide), Bool.or_false, Bool.false_eq_true, if_false]
  split_ifs <;> decide

/-! ## A failure half-way -/

/-- C25: the flattener does not roll back. On `fs_late_clash`, at level 0,
the call moves `a.txt` into the destination and then fails on `b.txt`, which
the destination already holds: the error is returned, `a.txt` stays moved,
the destination's `b.txt` is untouched, and the source is still there with
`b.txt` in it. -/
theorem strip_components_into_no_rollback :
    fs_late_clash.WF
      ∧ (strip_components_into ["dest"] ["src"] 0 fs_late_clash).error
        = some ⟨GIOErrorEnum.EXISTS, "Target file exists"⟩
      ∧ fs_late_clash.lookup ["dest", "a.txt"] = none
      ∧ (strip_components_into ["dest"] ["src"] 0 fs_late_clash).fs.lookup ["dest", "a.txt"]
        = some (Node.file [1])
      ∧ (strip_components_into ["dest"] ["src"] 0 fs_late_clash).fs.lookup ["src", "a.txt"]
        = none
      ∧ (strip_components_into ["dest"] ["src"] 0 fs_late_clash).fs.lookup ["dest", "b.txt"]
        = some (Node.file [9])
      ∧ (strip_components_into ["dest"] ["src"] 0 fs_late_clash).fs.lookup ["src", "b.txt"]
        = some (Node.file [2])
      ∧ (strip_components_into ["dest"] ["src"] 0 fs_late_clash).fs.lookup ["src"]
        = some Node.dir
      ∧ (strip_components_into ["dest"] ["src"] 0 fs_late_clash).fs ≠ fs_late_clash := by
  decide

/-! ## The pending-completion counter -/

/-- The function `archive_spawnv` by the steps of its body: a failed spawn is
returned as it is; otherwise the main loop runs on the completions of the
child, starting from `archive_spawnv_data`, and the result is read off the
`SpawnData` the loop leaves. -/
theorem archive_spawnv_loop (h : Host) (dir : Option GFile) (capture : Bool)
    (argv : List String) (fs : FS) :
    archive_spawnv h dir capture argv fs =
      match h.spawn dir argv capture fs with
      | Except.error e =>
        some ⟨fs, some e, none, [Event.spawn dir argv], [SpawnCall.launcher_spawnv]⟩
      | Except.ok subp =>
        (g_main_loop_run (subp.completions capture) (archive_spawnv_data capture)).map
          fun data =>
            match data.error with
            | some e => ⟨subp.fs, some e, none, [Event.spawn dir argv], archive_spawnv_calls capture⟩
            | none =>
              if capture then
                match data.splice_error with
                | some e => ⟨subp.fs, some e, none, [Event.spawn dir argv], archive_spawnv_calls capture⟩
                | none => ⟨subp.fs, none, some (subp.stdout ++ [0]), [Event.spawn dir argv],
                      archive_spawnv_calls capture⟩
              else ⟨subp.fs, none, none, [Event.spawn dir argv], archive_spawnv_calls capture⟩ := by
  unfold archive_spawnv archive_spawnv_data
  cases h.spawn dir argv capture fs with
  | error e => rfl
  | ok subp =>
    simp only
    cases g_main_loop_run (subp.completions capture)
        (if capture = true then ⟨none, none, ⟨0⟩, 1 + 1⟩ else ⟨none, none, ⟨0⟩, 1⟩) with
    | none => rfl
    | some data =>
      simp only [Option.map_some']
      cases data.error with
      | some e => rfl
      | none =>
        cases capture with
        | false => rfl
        | true => cases data.splice_error <;> rfl

/-- What a completion callback does to the counter and to the loop. -/
theorem Completion.dispatch_refs (k : Completion) (data : SpawnData) :
    (k.dispatch data).refs = data.refs - 1
      ∧ (k.dispatch data).loop.quits
        = if data.refs - 1 = 0 then data.loop.quits + 1 else data.loop.quits := by
  cases k with
  | exited result =>
    simp only [Completion.dispatch, spawn_exit_cb, spawn_data_exit, g_main_loop_quit]
    split <;> simp
  | spliced result =>
    simp only [Completion.dispatch, spawn_output_spliced_cb, spawn_data_exit, g_main_loop_quit]
    split <;> simp

/-- C21: the counter `refs` of `archive_spawnv` starts at 1 without output
capture and at 2 with it, as many as completions are registered; each
completion callback decrements it by one and quits the loop exactly when
the counter has reached zero. With capture the loop is still blocked after
the first completion and released by the second, whichever of the two comes
first; without capture the single completion releases it. During the wait
the counter is never negative and the loop is quit once. -/
theorem archive_spawnv_refs (h : Host) (dir : Option GFile) (capture : Bool)
    (argv : List String) (fs : FS) (c : Child) :
    (archive_spawnv_data false).refs = 1 ∧ (archive_spawnv_data true).refs = 2
      ∧ (archive_spawnv_data capture).loop.quits = 0
      ∧ ((c.completions capture).length : Int) = (archive_spawnv_data capture).refs
      ∧ (∀ (k : Completion) (data : SpawnData), (k.dispatch data).refs = data.refs - 1
          ∧ (k.dispatch data).loop.quits
            = if data.refs - 1 = 0 then data.loop.quits + 1 else data.loop.quits)
      ∧ (∀ k1 k2 : Completion,
          g_main_loop_run [k1] (archive_spawnv_data true) = none
            ∧ (k1.dispatch (archive_spawnv_data true)).refs = 1
            ∧ (k1.dispatch (archive_spawnv_data true)).loop.quits = 0
            ∧ g_main_loop_run [k1, k2] (archive_spawnv_data true)
              = some (k2.dispatch (k1.dispatch (archive_spawnv_data true)))
            ∧ (k2.dispatch (k1.dispatch (archive_spawnv_data true))).refs = 0
            ∧ (k2.dispatch (k1.dispatch (archive_spawnv_data true))).loop.quits = 1)
      ∧ (∀ k : Completion,
          g_main_loop_run [k] (archive_spawnv_data false)
              = some (k.dispatch (archive_spawnv_data false))
            ∧ (k.dispatch (archive_spawnv_data false)).refs = 0
            ∧ (k.dispatch (archive_spawnv_data false)).loop.quits = 1)
      ∧ (∀ data ∈ g_main_loop_states (c.completions capture) (archive_spawnv_data capture),
          0 ≤ data.refs ∧ data.loop.quits ≤ 1)
      ∧ (∃ data, g_main_loop_run (c.completions capture) (archive_spawnv_data capture)
            = some data
          ∧ (g_main_loop_states (c.completions capture) (archive_spawnv_data capture)).getLast?
            = some data
          ∧ (g_main_loop_states (c.completions capture) (archive_spawnv_data capture)).length
            = (c.completions capture).length
          ∧ data.refs = 0 ∧ data.loop.quits = 1)
      ∧ archive_spawnv h dir capture argv fs =
        match h.spawn dir argv capture fs with
        | Except.error e =>
        some ⟨fs, some e, none, [Event.spawn dir argv], [SpawnCall.launcher_spawnv]⟩
        | Except.ok subp =>
          (g_main_loop_run (subp.completions capture) (archive_spawnv_data capture)).map
            fun data =>
              match data.error with
              | some e => ⟨subp.fs, some e, none, [Event.spawn dir argv], archive_spawnv_calls capture⟩
              | none =>
                if capture then
                  match data.splice_error with
                  | some e => ⟨subp.fs, some e, none, [Event.spawn dir argv], archive_spawnv_calls capture⟩
                  | none =>
                    ⟨subp.fs, none, some (subp.stdout ++ [0]), [Event.spawn dir argv],
                      archive_spawnv_calls capture⟩
                else ⟨subp.fs, none, none, [Event.spawn dir argv], archive_spawnv_calls capture⟩ := by
  refine ⟨rfl, rfl, by cases capture <;> rfl, ?_, Completion.dispatch_refs, ?_, ?_, ?_, ?_,
    archive_spawnv_loop h dir capture argv fs⟩
  · cases capture with
    | false => rfl
    | true => cases hf : c.splice_first <;> simp [Child.completions, hf, archive_spawnv_data]
  · intro k1 k2
    cases k1 <;> cases k2 <;> exact ⟨rfl, rfl, rfl, rfl, rfl, rfl⟩
  · intro k
    cases k <;> exact ⟨rfl, rfl, rfl⟩
  · cases capture with
    | false =>
      intro data hdata
      have hs : g_main_loop_states (c.completions false) (archive_spawnv_data false)
          = [⟨c.wait_error, none, ⟨1⟩, 0⟩] := rfl
      rw [hs, List.mem_singleton] at hdata
      subst hdata
      exact ⟨le_refl _, le_refl _⟩
    | true =>
      intro data hdata
      cases hf : c.splice_first with
      | false =>
        have hs : g_main_loop_states (c.completions true) (archive_spawnv_data true)
            = [⟨c.wait_error, none, ⟨0⟩, 1⟩, ⟨c.wait_error, c.splice_error, ⟨1⟩, 0⟩] := by
          simp only [Child.completions, hf, if_true]
          rfl
        rw [hs] at hdata
        simp only [List.mem_cons, List.mem_singleton, List.not_mem_nil, or_false] at hdata
        rcases hdata with hd | hd <;> subst hd <;> exact ⟨by simp, by simp⟩
      | true =>
        have hs : g_main_loop_states (c.completions true) (archive_spawnv_data true)
            = [⟨none, c.splice_error, ⟨0⟩, 1⟩, ⟨c.wait_error, c.splice_error, ⟨1⟩, 0⟩] := by
          simp only [Child.completions, hf, if_true]
          rfl
        rw [hs] at hdata
        simp only [List.mem_cons, List.mem_singleton, List.not_mem_nil, or_false] at hdata
        rcases hdata with hd | hd <;> subst hd <;> exact ⟨by simp, by simp⟩
  · cases capture with
    | false => exact ⟨_, rfl, rfl, rfl, rfl, rfl⟩
    | true =>
      cases hf : c.splice_first with
      | false =>
        simp only [Child.completions, hf, if_true]
        exact ⟨_, rfl, rfl, rfl, rfl, rfl⟩
      | true =>
        simp only [Child.completions, hf, if_true]
        exact ⟨_, rfl, rfl, rfl, rfl, rfl⟩

/-! ## A process that cannot be started -/

/-- The only event of `create_uncompress_directory` is its `g_mkdtemp`. -/
theorem create_uncompress_directory_log (h : Host) (dest : GFile) (strip_components : Int)
    (fs : FS) :
    ∀ ev ∈ (create_uncompress_directory h dest strip_components fs).log,
      ev = Event.mkdtemp (dest ++ [".uncompressXXXXXX"]) := by
  intro ev hev
  have hs := create_uncompress_directory_spec h dest strip_components fs
  by_cases hpos : strip_components > 0
  · rw [(hs.2 hpos).1, List.mem_singleton] at hev
    exact hev
  · rw [hs.1 (not_lt.mp hpos)] at hev
    cases hev

/-- C29: `unrpm` always comes back, and the process it asks for has five
arguments: `sh`, `-c`, the script, `sh` for the shell's `$0` and the rpm
path for its `$1`. The first four are the same for every path, the script
among them, so the argument vectors of two runs differ in the fifth place
only, where each has its path unchanged. For an rpm archive this is the
command `extract_archive` runs, with the path of the archive file. -/
theorem unrpm_script_constant (h : Host) (dir : GFile) (rpm_path other_path : String)
    (fs : FS) :
    (∃ r argv, unrpm h dir rpm_path fs = some r
        ∧ r.log = [Event.spawn (some dir) argv]
        ∧ argv = ["sh", "-c", "rpm2cpio \"$1\" | cpio -i -d", "sh", rpm_path])
      ∧ (∃ r argv, unrpm h dir other_path fs = some r
        ∧ r.log = [Event.spawn (some dir) argv]
        ∧ argv.take 4 = ["sh", "-c", "rpm2cpio \"$1\" | cpio -i -d", "sh"]
        ∧ argv.drop 4 = [other_path])
      ∧ (∀ (destination archive_file : GFile) (strip_components : Int),
          get_type archive_file = RPM →
          ∃ run, extract_archive h destination archive_file strip_components fs = some run
            ∧ ∀ cwd argv, Event.spawn cwd argv ∈ run.log →
              argv = ["sh", "-c", "rpm2cpio \"$1\" | cpio -i -d", "sh",
                g_file_get_path archive_file]) := by
  refine ⟨?_, ?_, ?_⟩
  · obtain ⟨r, hr, hlog⟩ := archive_spawnv_returns h (some dir) false
      ["sh", "-c", "rpm2cpio \"$1\" | cpio -i -d", "sh", rpm_path] fs
    exact ⟨r, _, hr, hlog, rfl⟩
  · obtain ⟨r, hr, hlog⟩ := archive_spawnv_returns h (some dir) false
      ["sh", "-c", "rpm2cpio \"$1\" | cpio -i -d", "sh", other_path] fs
    exact ⟨r, _, hr, hlog, rfl, rfl⟩
  · intro destination archive_file strip_components hrpm
    have hz := extract_archive_rpm_run h destination archive_file strip_components fs hrpm
    have hcud := create_uncompress_directory_log h destination strip_components fs
    cases hd : (create_uncompress_directory h destination strip_components fs).dir with
    | error e =>
      refine ⟨_, hz.2.2.1 e hd, ?_⟩
      intro cwd argv hmem
      cases hcud _ hmem
    | ok staging =>
      obtain ⟨r, _, hlog, hx⟩ := hz.2.2.2 staging hd
      refine ⟨_, hx, ?_⟩
      intro cwd argv hmem
      rw [hlog] at hmem
      split at hmem
      · simp only [List.mem_append, List.mem_singleton] at hmem
        rcases hmem with (hm | hm) | hm
        · cases hcud _ hm
        · cases hm; rfl
        · cases hm
      · simp only [List.mem_append, List.mem_singleton] at hmem
        rcases hmem with hm | hm
        · cases hcud _ hm
        · cases hm; rfl

/-! ## The order of the suffix checks -/

/-- The type detection with a first check in front of the others. -/
theorem get_type_by_cons (check : List String × ArchiveType)
    (rest : List (List String × ArchiveType)) (lower : String) :
    get_type_by (check :: rest) lower
      = if check_matches lower check = true then check.2 else get_type_by rest lower := by
  unfold get_type_by
  rw [List.find?_cons]
  cases check_matches lower check <;> rfl

/-- The function `get_type` is the first match among `suffix_checks`. -/
theorem get_type_eq_get_type_by (archivefile : GFile) :
    get_type archivefile
      = get_type_by suffix_checks (g_ascii_strdown (g_file_get_basename archivefile)) := by
  unfold get_type suffix_checks
  simp only [get_type_by_cons, check_matches, List.any_cons, List.any_nil, Bool.or_false,
    Bool.or_assoc]
  rfl

/-- No suffix of one check is a suffix of a suffix of another check. -/
theorem suffix_checks_table :
    ∀ c1 ∈ suffix_checks, ∀ c2 ∈ suffix_checks, ∀ s1 ∈ c1.1, ∀ s2 ∈ c2.1,
      s1.data <:+ s2.data → c1 = c2 := by
  decide

/-- Two checks of `get_type` never match the same name. -/
theorem suffix_checks_exclusive (str : String) :
    ∀ c1 ∈ suffix_checks, ∀ c2 ∈ suffix_checks,
      check_matches str c1 = true → check_matches str c2 = true → c1 = c2 := by
  intro c1 h1 c2 h2 m1 m2
  simp only [check_matches, List.any_eq_true] at m1 m2
  obtain ⟨s1, hs1, e1⟩ := m1
  obtain ⟨s2, hs2, e2⟩ := m2
  rw [g_str_has_suffix_iff] at e1 e2
  rcases List.suffix_or_suffix_of_suffix e1 e2 with hs | hs
  · exact suffix_checks_table c1 h1 c2 h2 s1 hs1 s2 hs2 hs
  · exact (suffix_checks_table c2 h2 c1 h1 s2 hs2 s1 hs1 hs).symm

/-- The first match in a list does not depend on the order of the list when
at most one element matches. -/
theorem find?_perm_of_exclusive {α : Type} (p : α → Bool) {l1 l2 : List α}
    (hperm : l1.Perm l2)
    (hex : ∀ a ∈ l2, ∀ b ∈ l2, p a = true → p b = true → a = b) :
    l1.find? p = l2.find? p := by
  cases h1 : l1.find? p with
  | none =>
    rw [List.find?_eq_none] at h1
    symm
    rw [List.find?_eq_none]
    intro x hx
    exact h1 x (hperm.mem_iff.mpr hx)
  | some a =>
    have ha : p a = true := List.find?_some h1
    have hmem : a ∈ l2 := hperm.mem_iff.mp (List.mem_of_find?_eq_some h1)
    cases h2 : l2.find? p with
    | none =>
      rw [List.find?_eq_none] at h2
      exact absurd ha (h2 a hmem)
    | some b =>
      have hb : p b = true := List.find?_some h2
      rw [hex a hmem b (List.mem_of_find?_eq_some h2) ha hb]

/-- C26: the suffix checks of `get_type` are mutually exclusive: no name,
lower-cased or not, is matched by two of them, because no suffix of one
check is a suffix of a suffix of another. So `get_type`, which is the first
match in the order of the source, is also the first match when the checks
are performed in any other order. -/
theorem get_type_order_independent (archivefile : GFile)
    (checks : List (List String × ArchiveType)) (hperm : checks.Perm suffix_checks) :
    get_type archivefile
        = get_type_by suffix_checks (g_ascii_strdown (g_file_get_basename archivefile))
      ∧ get_type_by checks (g_ascii_strdown (g_file_get_basename archivefile))
        = get_type archivefile
      ∧ (∀ str, ∀ c1 ∈ suffix_checks, ∀ c2 ∈ suffix_checks,
          check_matches str c1 = true → check_matches str c2 = true → c1 = c2)
      ∧ (∀ c1 ∈ suffix_checks, ∀ c2 ∈ suffix_checks, ∀ s1 ∈ c1.1, ∀ s2 ∈ c2.1,
          s1.data <:+ s2.data → c1 = c2) := by
  refine ⟨get_type_eq_get_type_by archivefile, ?_, suffix_checks_exclusive,
    suffix_checks_table⟩
  rw [get_type_eq_get_type_by]
  unfold get_type_by
  rw [find?_perm_of_exclusive _ hperm (suffix_checks_exclusive _)]

theorem get_type_order_independent_witness :
    get_type_by suffix_checks.reverse
        (g_ascii_strdown (g_file_get_basename ["srv", "Pkg-1.0.TAR.GZ"]))
      = get_type ["srv", "Pkg-1.0.TAR.GZ"] :=
  (get_type_order_independent ["srv", "Pkg-1.0.TAR.GZ"] suffix_checks.reverse
    (List.reverse_perm _)).2.1

/-! ## The recursion of the flattener -/

/-- The loop asks for the recursive call on directory children only, and
only while the level is positive: it does not tell apart two functions that
agree there. -/
theorem strip_components_loop_congr (r1 r2 : GFile → FS → Outcome) (dest : GFile)
    (dir_enum : GFileEnumerator) (level : Nat) :
    ∀ (infos : List GFileInfo),
      (∀ info ∈ infos, info.file_type = GFileType.DIRECTORY → level > 0 →
        ∀ fs1, r1 (dir_enum.container ++ [info.name]) fs1
          = r2 (dir_enum.container ++ [info.name]) fs1) →
      ∀ fs, strip_components_loop r1 dest dir_enum level infos fs
        = strip_components_loop r2 dest dir_enum level infos fs := by
  intro infos
  induction infos with
  | nil => intro _ fs; rfl
  | cons info rest ih =>
    intro hagree fs
    have ih1 := ih fun i hi => hagree i (List.mem_cons_of_mem _ hi)
    rw [strip_components_loop_cons, strip_components_loop_cons]
    have hstep : strip_components_step r1 dest dir_enum level info fs
        = strip_components_step r2 dest dir_enum level info fs := by
      unfold strip_components_step
      split
      · rename_i hc
        exact hagree info (List.mem_cons_self _ _) hc.1 hc.2 fs
      · rfl
    rw [hstep]
    cases (strip_components_step r2 dest dir_enum level info fs).error with
    | some e => rfl
    | none => exact ih1 _

/-- The body of `strip_components_into` asks for the recursive call on the
directory children of the source only, and only while the level is
positive. -/
theorem strip_components_body_congr (r1 r2 : GFile → FS → Outcome) (dest src : GFile)
    (level : Nat) (fs : FS)
    (hagree : ∀ info ∈ fs.children src, info.file_type = GFileType.DIRECTORY → level > 0 →
      ∀ fs1, r1 (src ++ [info.name]) fs1 = r2 (src ++ [info.name]) fs1) :
    strip_components_body r1 dest src level fs = strip_components_body r2 dest src level fs := by
  unfold strip_components_body g_file_enumerate_children
  cases fs.lookup src with
  | none => rfl
  | some node =>
    cases node with
    | file content => rfl
    | dir =>
      simp only
      rw [strip_components_loop_congr r1 r2 dest ⟨src, fs.children src, none⟩ level
        (fs.children src) hagree fs]

/-- A budget of `level` nested calls is enough: within it the flattener is
`strip_components_into`, whatever would answer a call beyond the budget. -/
theorem strip_components_within_eq (overrun : GFile → FS → Outcome) (dest : GFile) :
    ∀ (budget : Nat) (src : GFile) (level : Int) (fs : FS), level.toNat ≤ budget →
      strip_components_within overrun dest budget src level fs
        = strip_components_into dest src level fs := by
  intro budget
  induction budget with
  | zero =>
    intro src level fs hl
    have h0 : level.toNat = 0 := Nat.le_zero.mp hl
    unfold strip_components_within strip_components_into
    rw [h0, strip_components_nat_eq]
    exact strip_components_body_congr _ _ dest src 0 fs
      (fun _ _ _ hpos => absurd hpos (lt_irrefl 0))
  | succ budget ih =>
    intro src level fs hl
    unfold strip_components_within strip_components_into
    rw [strip_components_nat_eq]
    apply strip_components_body_congr
    intro info _ _ hpos fs1
    have hk : (level - 1).toNat = level.toNat - 1 := by omega
    have hle : (level - 1).toNat ≤ budget := by omega
    rw [ih (src ++ [info.name]) (level - 1) fs1 hle]
    unfold strip_components_into
    rw [hk]
    cases hn : level.toNat with
    | zero => rw [hn] at hpos; exact absurd hpos (lt_irrefl 0)
    | succ k => rfl

/-- C28: `strip_components_into` is a total function, defined by recursion
on the level with a loop over the finitely many children of the source, and
its recursive calls nest at most `level` deep: with a budget of `level`
nested calls its result is reached, whatever a deeper call would answer. A
call with a positive level is the body with the recursive call at
`level - 1`; the body asks for that call on directory children of the
source only; and a call with `level <= 0` is the body without any recursive
call. -/
theorem strip_components_into_nesting (dest src : GFile) (level : Int) (fs : FS) :
    (∀ (overrun : GFile → FS → Outcome) (budget : Nat), level.toNat ≤ budget →
        strip_components_within overrun dest budget src level fs
          = strip_components_into dest src level fs)
      ∧ (level ≤ 0 → ∀ recurse : GFile → FS → Outcome,
          strip_components_body recurse dest src 0 fs
            = strip_components_into dest src level fs)
      ∧ (level > 0 →
          strip_components_into dest src level fs
            = strip_components_body
                (fun child fs1 => strip_components_into dest child (level - 1) fs1)
                dest src level.toNat fs)
      ∧ (∀ (r1 r2 : GFile → FS → Outcome) (lvl : Nat),
          (∀ info ∈ fs.children src, info.file_type = GFileType.DIRECTORY → lvl > 0 →
            ∀ fs1, r1 (src ++ [info.name]) fs1 = r2 (src ++ [info.name]) fs1) →
          strip_components_body r1 dest src lvl fs
            = strip_components_body r2 dest src lvl fs) := by
  refine ⟨fun overrun budget hl => strip_components_within_eq overrun dest budget src level fs hl,
    ?_, ?_, fun r1 r2 lvl => strip_components_body_congr r1 r2 dest src lvl fs⟩
  · intro hl recurse
    have h0 : level.toNat = 0 := by omega
    rw [← strip_components_within_eq recurse dest 0 src level fs (by omega)]
    unfold strip_components_within
    rw [h0]
  · intro hl
    rw [← strip_components_within_eq (fun _ fs1 => ⟨fs1, none⟩) dest (level.toNat - 1 + 1) src
      level fs (by omega)]
    unfold strip_components_within
    apply strip_components_body_congr
    intro info _ _ _ fs1
    exact strip_components_within_eq _ dest (level.toNat - 1) _ (level - 1) fs1 (by omega)

/-! ## Nothing is discarded -/

/-- A move out of the source tree into the destination tree keeps the
number of files of the two trees. -/
theorem count_files_rename (dest src0 : GFile) (fs : FS) {a b : GFile} (ha : src0 <+: a)
    (hb : dest <+: b) : count_files dest src0 (fs.rename a b) = count_files dest src0 fs := by
  unfold count_files FS.rename
  rw [List.filter_map, List.length_map]
  congr 1
  apply List.filter_congr
  intro e _
  simp only [Function.comp]
  by_cases hp : a <+: e.1
  · have h1 : src0 <+: e.1 := ha.trans hp
    have h2 : dest <+: rename_path a b e.1 := hb.trans (rename_path_below a b e.1 hp)
    simp [h1, h2]
  · simp only [rename_path_outside b hp]

theorem count_files_move (dest src0 : GFile) (fs : FS) {a : GFile} (n : String)
    (ha : src0 <+: a) :
    count_files dest src0 (g_file_move (a ++ [n]) (dest ++ [n]) fs).fs
      = count_files dest src0 fs := by
  rcases g_file_move_cases (a ++ [n]) (dest ++ [n]) fs with ⟨e, h, _⟩ | ⟨h, _⟩
  · rw [h]
  · rw [h]
    exact count_files_rename dest src0 fs (ha.trans (List.prefix_append _ _))
      (List.prefix_append _ _)

/-- Deleting a directory keeps the number of files. -/
theorem count_files_delete (dest src0 : GFile) {fs : FS} (hwf : fs.WF) {d : GFile}
    (hd : fs.lookup d = some Node.dir) :
    count_files dest src0 (g_file_delete d fs).fs = count_files dest src0 fs := by
  rcases g_file_delete_cases d fs with ⟨e, h⟩ | ⟨h, _, _⟩
  · rw [h]
  · rw [h]
    unfold count_files FS.remove
    rw [List.filter_filter]
    congr 1
    apply List.filter_congr
    intro e he
    by_cases hed : e.1 = d
    · have hl : fs.lookup e.1 = some e.2 := FS.lookup_of_mem hwf.1 he
      rw [hed, hd] at hl
      have h2 : e.2 = Node.dir := (Option.some.inj hl).symm
      simp [h2]
    · simp [hed]

/-- The invariant rule of the flattener on well-formed file systems, where
the source of every call is still a directory when the call deletes it. -/
theorem strip_components_nat_inv_dir (P : FS → Prop) (dest src0 : GFile)
    (hmove : ∀ a n fs, fs.WF → src0 <+: a → P fs →
      P (g_file_move (a ++ [n]) (dest ++ [n]) fs).fs)
    (hdel : ∀ d fs, fs.WF → src0 <+: d → fs.lookup d = some Node.dir → P fs →
      P (g_file_delete d fs).fs) :
    ∀ level src fs, fs.WF → src0 <+: src → P fs →
      P (strip_components_nat dest level src fs).fs := by
  intro level
  induction level with
  | zero =>
    intro src fs hwf hsrc h
    rw [strip_components_nat_eq]
    by_cases hd : fs.lookup src = some Node.dir
    · rw [strip_components_body_dir _ _ _ _ _ hd]
      have hl := strip_components_loop_inv (fun fs1 => fs1.WF ∧ P fs1)
        (strip_components_recurse dest 0) dest
        ⟨src, fs.children src, none⟩ 0 (fs.children src) (by
          intro info _ fs1 h1
          simp only [strip_components_step, gt_iff_lt, lt_self_iff_false, and_false, if_false]
          exact ⟨g_file_move_wf _ _ h1.1, hmove src info.name fs1 h1.1 hsrc h1.2⟩) fs ⟨hwf, h⟩
      have hk := strip_components_loop_keeps dest ⟨src, fs.children src, none⟩ 0
        (fs.children src) hwf hd (fun info _ hp => by
          have := hp.length_le
          simp at this)
      cases he : (strip_components_loop (strip_components_recurse dest 0) dest
        ⟨src, fs.children src, none⟩ 0 (fs.children src) fs).error with
      | some e => exact hl.2
      | none => exact hdel src _ hl.1 hsrc hk hl.2
    · obtain ⟨e, he⟩ := strip_components_body_not_dir (strip_components_recurse dest 0) dest
        src 0 fs hd
      rw [he]; exact h
  | succ level ih =>
    intro src fs hwf hsrc h
    rw [strip_components_nat_eq]
    by_cases hd : fs.lookup src = some Node.dir
    · rw [strip_components_body_dir _ _ _ _ _ hd]
      have hl := strip_components_loop_inv (fun fs1 => fs1.WF ∧ P fs1)
        (strip_components_recurse dest (level + 1)) dest
        ⟨src, fs.children src, none⟩ (level + 1) (fs.children src) (by
          intro info _ fs1 h1
          unfold strip_components_step
          split
          · exact ⟨strip_components_nat_wf dest level _ h1.1,
              ih (src ++ [info.name]) fs1 h1.1 (hsrc.trans (List.prefix_append _ _)) h1.2⟩
          · exact ⟨g_file_move_wf _ _ h1.1, hmove src info.name fs1 h1.1 hsrc h1.2⟩) fs ⟨hwf, h⟩
      have hk := strip_components_loop_keeps dest ⟨src, fs.children src, none⟩ (level + 1)
        (fs.children src) hwf hd (fun info _ hp => by
          have := hp.length_le
          simp at this)
      cases he : (strip_components_loop (strip_components_recurse dest (level + 1)) dest
        ⟨src, fs.children src, none⟩ (level + 1) (fs.children src) fs).error with
      | some e => exact hl.2
      | none => exact hdel src _ hl.1 hsrc hk hl.2
    · obtain ⟨e, he⟩ := strip_components_body_not_dir
        (strip_components_recurse dest (level + 1)) dest src (level + 1) fs hd
      rw [he]; exact h

/-- The flattener keeps the number of files of the source and destination
trees taken together, whether it succeeds or not. -/
theorem strip_components_nat_count (dest : GFile) (level : Nat) (src : GFile) {fs : FS}
    (hwf : fs.WF) :
    count_files dest src (strip_components_nat dest level src fs).fs
      = count_files dest src fs :=
  strip_components_nat_inv_dir (fun fs1 => count_files dest src fs1 = count_files dest src fs)
    dest src
    (fun _ n fs1 _ ha h => (count_files_move dest src fs1 n ha).trans h)
    (fun _ _ hwf1 _ hd h => (count_files_delete dest src hwf1 hd).trans h)
    level src fs hwf (List.prefix_refl _) rfl

/-- An entry of the source tree that is not deeper than the level allows,
and that is not a directory unless it is as deep as the level allows, is
one the call moves. -/
theorem MovedBy.of_lookup {fs : FS} (hwf : fs.WF) :
    ∀ (ds : List String) (level : Nat) (src : GFile) (name : String) (node : Node),
      fs.lookup (src ++ ds ++ [name]) = some node → ds.length ≤ level →
      (node = Node.dir → ds.length = level) → MovedBy fs level src ds name := by
  intro ds
  induction ds with
  | nil =>
    intro level src name node hl _ hdir
    refine ⟨node, by simpa using hl, fun hn => ?_⟩
    have := hdir hn
    simpa using this.symm
  | cons d ds ih =>
    intro level src name node hl hlen hdir
    simp only [List.length_cons] at hlen hdir
    have hpath : src ++ d :: ds ++ [name] = (src ++ [d]) ++ (ds ++ [name]) := by simp
    refine ⟨by omega, ?_, ?_⟩
    · rw [hpath] at hl
      exact hwf.ancestor (src ++ [d]) (ds ++ [name]) (by simp) hl
    · apply ih (level - 1) (src ++ [d]) name node
      · rw [← hl]; congr 1; simp
      · omega
      · intro hn
        have := hdir hn
        omega

/-- C27: a successful `strip_components_into` discards nothing. On a
well-formed file system, with a destination that does not lie in the source
tree and a level `L >= 0`: every non-directory entry of the source at depth
at most `L + 1` is in the destination under its base name with its content,
also one shallower than `L + 1`; every directory at depth exactly `L + 1`
is in the destination under its base name with all that was below it; every
entry the destination held outside the source tree is still there
unchanged; and the number of non-directory entries of the two trees taken
together is what it was. -/
theorem strip_components_into_discards_nothing (dest src : GFile) (level : Int) (fs : FS)
    (hwf : fs.WF) (hds : ¬ src <+: dest) (hlevel : 0 ≤ level)
    (hok : (strip_components_into dest src level fs).error = none) :
    (∀ (ds : List String) (name : String) (content : GBytes), (ds.length : Int) ≤ level →
        fs.lookup (src ++ ds ++ [name]) = some (Node.file content) →
        (strip_components_into dest src level fs).fs.lookup (dest ++ [name])
          = some (Node.file content))
      ∧ (∀ (ds : List String) (name : String), (ds.length : Int) = level →
          fs.lookup (src ++ ds ++ [name]) = some Node.dir →
          ∀ r, (strip_components_into dest src level fs).fs.lookup (dest ++ name :: r)
            = fs.lookup (src ++ ds ++ name :: r))
      ∧ (∀ (q : GFile) (node : Node), dest <+: q → ¬ src <+: q → fs.lookup q = some node →
          (strip_components_into dest src level fs).fs.lookup q = some node)
      ∧ count_files dest src (strip_components_into dest src level fs).fs
        = count_files dest src fs := by
  unfold strip_components_into at hok ⊢
  refine ⟨?_, ?_, ?_, strip_components_nat_count dest level.toNat src hwf⟩
  · intro ds name content hlen hl
    have hm : MovedBy fs level.toNat src ds name :=
      MovedBy.of_lookup hwf ds level.toNat src name _ hl (by omega) (fun hn => by cases hn)
    have := strip_components_nat_moved dest name level.toNat src fs ds hwf hds hm hok []
    rw [this]
    exact hl
  · intro ds name hlen hl r
    have hm : MovedBy fs level.toNat src ds name :=
      MovedBy.of_lookup hwf ds level.toNat src name _ hl (by omega) (fun _ => by omega)
    exact strip_components_nat_moved dest name level.toNat src fs ds hwf hds hm hok r
  · intro q node _ hout hq
    exact strip_components_nat_keeps dest level.toNat src hwf hq hout

theorem strip_components_into_discards_nothing_witness :
    (strip_components_into ["srv", "mod"] ["srv", "mod", ".uncompressAB12CD"] 1
          fs_unzipped).fs.lookup ["srv", "mod", "configure"] = some (Node.file [35])
      ∧ (strip_components_into ["srv", "mod"] ["srv", "mod", ".uncompressAB12CD"] 1
          fs_unzipped).fs.lookup ["srv", "mod", "src", "main.c"] = some (Node.file [105])
      ∧ (strip_components_into ["srv", "mod"] ["srv", "mod", ".uncompressAB12CD"] 1
          fs_unzipped).fs.lookup ["srv", "mod", "pkg-1.0.zip"] = some (Node.file [80, 75])
      ∧ count_files ["srv", "mod"] ["srv", "mod", ".uncompressAB12CD"]
          (strip_components_into ["srv", "mod"] ["srv", "mod", ".uncompressAB12CD"] 1
            fs_unzipped).fs = 3 :=
  have h := strip_components_into_discards_nothing ["srv", "mod"]
    ["srv", "mod", ".uncompressAB12CD"] 1 fs_unzipped (by decide) (by decide) (by decide)
    (by decide)
  ⟨h.1 ["pkg-1.0"] "configure" [35] (by decide) (by decide),
    (h.2.1 ["pkg-1.0"] "src" (by decide) (by decide) ["main.c"]).trans (by decide),
    h.2.2.1 ["srv", "mod", "pkg-1.0.zip"] (Node.file [80, 75]) (by decide) (by decide)
      (by decide),
    h.2.2.2.trans (by decide)⟩

/-! ## A tool that fails -/

/-- An extraction through a staging directory leaves at a child of the
destination what the tool leaves there. -/
theorem tool_keeps_staged (h : Host) (destination : GFile) (strip_components : Int) (fs : FS)
    (argv0 : List String) (x : Option Run)
    (herr : ∀ e, (create_uncompress_directory h destination strip_components fs).dir
      = Except.error e →
      x = some ⟨(create_uncompress_directory h destination strip_components fs).fs,
        some e, (create_uncompress_directory h destination strip_components fs).log⟩)
    (hok : ∀ staging, (create_uncompress_directory h destination strip_components fs).dir
      = Except.ok staging →
      ∃ r, archive_spawnv h (some staging) false argv0
            (create_uncompress_directory h destination strip_components fs).fs = some r
        ∧ r.log = [Event.spawn (some staging) argv0]
        ∧ x = some (if r.error = none ∧ strip_components > 0 then
            ⟨(strip_components_into destination staging strip_components r.fs).fs,
              (strip_components_into destination staging strip_components r.fs).error,
              (create_uncompress_directory h destination strip_components fs).log
                ++ r.log ++ [Event.strip destination staging strip_components]⟩
          else
            ⟨r.fs, r.error,
              (create_uncompress_directory h destination strip_components fs).log
                ++ r.log⟩))
    (name : String) (node : Node) (hfs : fs.lookup (destination ++ [name]) = some node) :
    ∃ run, x = some run
      ∧ ((∀ cwd argv r, Event.spawn cwd argv ∈ run.log →
            archive_spawnv h cwd false argv
              (create_uncompress_directory h destination strip_components fs).fs = some r →
            r.fs.WF ∧ r.fs.lookup (destination ++ [name]) = some node) →
          run.fs.lookup (destination ++ [name]) = some node) := by
  have hs := create_uncompress_directory_spec h destination strip_components fs
  cases hd : (create_uncompress_directory h destination strip_components fs).dir with
  | error e =>
    refine ⟨_, herr e hd, fun _ => ?_⟩
    by_cases hpos : strip_components > 0
    · simp only [(hs.2 hpos).2.1 e hd]
      exact hfs
    · simp only [hs.1 (not_lt.mp hpos)]
      exact hfs
  | ok staging =>
    obtain ⟨r, hr, hlog, hx⟩ := hok staging hd
    refine ⟨_, hx, fun hall => ?_⟩
    by_cases hc : r.error = none ∧ strip_components > 0
    · rw [if_pos hc] at hall ⊢
      obtain ⟨hwf, hl⟩ := hall (some staging) argv0 r (by rw [hlog]; simp) hr
      obtain ⟨⟨d, _, hst, _⟩, hfree, _⟩ := (hs.2 hc.2).2.2 staging hd
      have hout : ¬ staging <+: destination ++ [name] := by
        intro hp
        rw [hst, List.prefix_append_right_inj] at hp
        obtain ⟨t, ht⟩ := hp
        simp only [List.singleton_append, List.cons.injEq] at ht
        rw [hst, ht.1, hfs] at hfree
        cases hfree
      exact strip_components_nat_keeps destination strip_components.toNat staging hwf hl hout
    · rw [if_neg hc] at hall ⊢
      exact (hall (some staging) argv0 r (by rw [hlog]; simp) hr).2

/-- The call `extract_archive` leaves at a child of the destination what
the tool leaves there, and what was there when no tool is run. -/
theorem extract_archive_keeps (h : Host) (destination archive_file : GFile)
    (strip_components : Int) (fs : FS) (name : String) (node : Node)
    (hfs : fs.lookup (destination ++ [name]) = some node) :
    ∃ run, extract_archive h destination archive_file strip_components fs = some run
      ∧ ((∀ cwd argv r, Event.spawn cwd argv ∈ run.log →
            archive_spawnv h cwd false argv
              (if is_tar (get_type archive_file) = true then fs
                else (create_uncompress_directory h destination strip_components fs).fs)
              = some r →
            r.fs.WF ∧ r.fs.lookup (destination ++ [name]) = some node) →
          run.fs.lookup (destination ++ [name]) = some node) := by
  by_cases htar : is_tar (get_type archive_file) = true
  · rw [if_pos htar]
    obtain ⟨r, hr, hx, _⟩ := extract_archive_tar_run h destination archive_file
      strip_components fs htar
    exact ⟨_, hx, fun hall => (hall _ _ r (List.mem_singleton.mpr rfl) hr).2⟩
  · rw [if_neg htar]
    by_cases hzip : get_type archive_file = ZIP
    · have hz := extract_archive_zip_run h destination archive_file strip_components fs hzip
      exact tool_keeps_staged h destination strip_components fs _ _ hz.2.2.1 hz.2.2.2 name
        node hfs
    · by_cases hrpm : get_type archive_file = RPM
      · have hz := extract_archive_rpm_run h destination archive_file strip_components fs hrpm
        exact tool_keeps_staged h destination strip_components fs _ _ hz.2.2.1 hz.2.2.2 name
          node hfs
      · exact ⟨⟨fs, some ⟨GIOErrorEnum.FAILED,
          "Unknown archive format of '" ++ g_file_get_path archive_file ++ "'"⟩, []⟩,
          by simp [extract_archive, htar, hzip, hrpm], fun _ => hfs⟩

/-- C30: the archive is downloaded into the directory it is extracted to,
as `source_dir/<last segment of the URL path>`, and `fetch_archive` does
not remove it. In the example a zip archive `pkg-1.0.zip` is fetched whose
wrapper directory holds a `configure` and an entry named `pkg-1.0.zip`: the
download and `unzip` succeed, the flattener moves `configure` and then
fails on the name of the archive file, `fetch_archive` fails with that
error, and the archive file holds the downloaded bytes. In general, after
a download that returned `TRUE` `fetch_archive` comes back, and the archive
file holds the downloaded bytes at the end whenever the tool that was run, if any, left
them there in a well-formed file system: `fetch_archive` itself neither
deletes nor overwrites the file, whether it succeeds or fails. -/
theorem fetch_archive_keeps_archive (w : Services) (h : Host) (url : String)
    (sha : Option String) (module_name : String) (destination : GFile) (fs : FS) :
    fetch_archive services_ok host_clash "https://example.org/dist/pkg-1.0.zip" (some "abc")
          "mod" ["srv"] fs_module
        = some ⟨fs_module ++ [(["srv", "mod", "pkg-1.0.zip"], Node.file [1, 2, 3]),
              (["srv", "mod", ".uncompressAB12CD"], Node.dir),
              (["srv", "mod", ".uncompressAB12CD", "pkg-1.0"], Node.dir),
              (["srv", "mod", "configure"], Node.file [35]),
              (["srv", "mod", ".uncompressAB12CD", "pkg-1.0", "pkg-1.0.zip"],
                Node.file [80, 75])],
            none, some ⟨GIOErrorEnum.EXISTS, "Target file exists"⟩,
            [Event.download ⟨"https", "example.org", "/dist/pkg-1.0.zip"⟩
                ["srv", "mod", "pkg-1.0.zip"],
              Event.extract ["srv", "mod"] ["srv", "mod", "pkg-1.0.zip"] 1,
              Event.mkdtemp ["srv", "mod", ".uncompressXXXXXX"],
              Event.spawn (some ["srv", "mod", ".uncompressAB12CD"])
                ["unzip", "/srv/mod/pkg-1.0.zip"],
              Event.strip ["srv", "mod"] ["srv", "mod", ".uncompressAB12CD"] 1]⟩
      ∧ services_ok.http_get ⟨"https", "example.org", "/dist/pkg-1.0.zip"⟩
        = Except.ok [1, 2, 3]
      ∧ ((∀ e, (g_file_make_directory_with_parents
            (g_file_get_child destination module_name) fs).error = some e →
          e.code = GIOErrorEnum.EXISTS) →
        (download_archive w (h.soup_uri_new url) sha
            (g_file_get_child (g_file_get_child destination module_name)
            (g_path_get_basename (soup_uri_get_path (h.soup_uri_new url))))
            (g_file_make_directory_with_parents
              (g_file_get_child destination module_name) fs).fs).ok = true →
        ∃ content f, w.http_get (h.soup_uri_new url) = Except.ok content
          ∧ (download_archive w (h.soup_uri_new url) sha
            (g_file_get_child (g_file_get_child destination module_name)
            (g_path_get_basename (soup_uri_get_path (h.soup_uri_new url))))
            (g_file_make_directory_with_parents
              (g_file_get_child destination module_name) fs).fs).fs.lookup
            (g_file_get_child (g_file_get_child destination module_name)
            (g_path_get_basename (soup_uri_get_path (h.soup_uri_new url))))
            = some (Node.file content)
          ∧ fetch_archive w h url sha module_name destination fs = some f
          ∧ ((∀ cwd argv r, Event.spawn cwd argv ∈ f.log →
                archive_spawnv h cwd false argv
                  (if is_tar (get_type
                      (g_file_get_child (g_file_get_child destination module_name)
            (g_path_get_basename (soup_uri_get_path (h.soup_uri_new url))))) = true
                    then (download_archive w (h.soup_uri_new url) sha
            (g_file_get_child (g_file_get_child destination module_name)
            (g_path_get_basename (soup_uri_get_path (h.soup_uri_new url))))
            (g_file_make_directory_with_parents
              (g_file_get_child destination module_name) fs).fs).fs
                    else (create_uncompress_directory h (g_file_get_child destination module_name) 1
                      (download_archive w (h.soup_uri_new url) sha
            (g_file_get_child (g_file_get_child destination module_name)
            (g_path_get_basename (soup_uri_get_path (h.soup_uri_new url))))
            (g_file_make_directory_with_parents
              (g_file_get_child destination module_name) fs).fs).fs).fs)
                  = some r →
                r.fs.WF ∧ r.fs.lookup
                  (g_file_get_child (g_file_get_child destination module_name)
            (g_path_get_basename (soup_uri_get_path (h.soup_uri_new url))))
                  = some (Node.file content)) →
              f.fs.lookup
                (g_file_get_child (g_file_get_child destination module_name)
            (g_path_get_basename (soup_uri_get_path (h.soup_uri_new url))))
                = some (Node.file content))) := by
  refine ⟨by rfl, rfl, ?_⟩
  intro hmade hdl
  obtain ⟨content, hget, _, hl⟩ := download_archive_ok w (h.soup_uri_new url) sha _ _ hdl
  obtain ⟨run, hx, hkeep⟩ := extract_archive_keeps h (g_file_get_child destination module_name)
    (g_file_get_child (g_file_get_child destination module_name)
            (g_path_get_basename (soup_uri_get_path (h.soup_uri_new url)))) 1 _
    (g_path_get_basename (soup_uri_get_path (h.soup_uri_new url))) (Node.file content) hl
  refine ⟨content, ⟨run.fs,
    match run.error with
    | some _ => none
    | none => some (g_file_get_child destination module_name),
    match run.error with
    | some e => g_propagate_error (download_archive w (h.soup_uri_new url) sha
        (g_file_get_child (g_file_get_child destination module_name)
          (g_path_get_basename (soup_uri_get_path (h.soup_uri_new url))))
        (g_file_make_directory_with_parents
          (g_file_get_child destination module_name) fs).fs).error (some e)
    | none => (download_archive w (h.soup_uri_new url) sha
        (g_file_get_child (g_file_get_child destination module_name)
          (g_path_get_basename (soup_uri_get_path (h.soup_uri_new url))))
        (g_file_make_directory_with_parents
          (g_file_get_child destination module_name) fs).fs).error,
    [Event.download (h.soup_uri_new url)
      (g_file_get_child (g_file_get_child destination module_name)
        (g_path_get_basename (soup_uri_get_path (h.soup_uri_new url)))),
      Event.extract (g_file_get_child destination module_name)
        (g_file_get_child (g_file_get_child destination module_name)
          (g_path_get_basename (soup_uri_get_path (h.soup_uri_new url)))) 1]
      ++ run.log⟩, hget, hl, ?_, ?_⟩
  · rw [fetch_archive_proceeds w h url sha module_name destination fs hmade,
      if_neg (by simp [hdl])]
    simp only [hx, Option.map_some']
  · intro hall
    apply hkeep
    intro cwd argv r hm hr
    exact hall cwd argv r (by simp [hm]) hr

end Archive
